import Mathlib

/-! Optiboot serial bootloader (`radio/er9x/src/optiboot.cpp`)

A shallow embedding of the command loop of `bootmain` and of its helpers
`getch`, `putch`, `bgetNch`, `verifySpace` and `eeprom_write_byte_cmp`.

* Bytes and 16-bit registers are natural numbers; every store into an 8-bit or
  16-bit location reduces modulo `2^8` or `2^16`, and every read of a memory
  cell is taken modulo `2^8`.
* The serial line is the list of bytes the host has sent and the device has
  not yet read.  A command runs on that list and returns what is left of it.
* The three configurations for which the file compiles (the only ones that
  define `BOOTSTART`) are ATmega64, ATmega128 and ATmega2561; the
  `VIRTUAL_BOOT_PARTITION` switch is a boolean of the configuration.
-/

namespace Optiboot

/-! ## Configuration -/

/-- Software version, major part (`#define OPTIBOOT_MAJVER 4`). -/
def OPTIBOOT_MAJVER : Nat := 4

/-- Software version, minor part (`#define OPTIBOOT_MINVER 5`). -/
def OPTIBOOT_MINVER : Nat := 5

/-- Page size in bytes of the program memory.  The constant comes from the
device header `<avr/io.h>`; it is 256 on the three supported parts. -/
def SPM_PAGESIZE : Nat := 256

/-- The parts for which the source defines `BOOTSTART`. -/
inductive Mcu where
  | atmega64
  | atmega128
  | atmega2561
  deriving DecidableEq, Repr

/-- The macro `NRWWSTART` (`0xE000` on all three parts). -/
def NRWWSTART : Mcu → Nat
  | .atmega64 => 0xE000
  | .atmega128 => 0xE000
  | .atmega2561 => 0xE000

/-- The macro `BOOTSTART`. -/
def BOOTSTART : Mcu → Nat
  | .atmega64 => 0x7D00
  | .atmega128 => 0xFD00
  | .atmega2561 => 0x1FD00

/-- Whether the device header defines the bank register `RAMPZ`
(ATmega128 and ATmega2561 do, ATmega64 does not). -/
def hasRAMPZ : Mcu → Bool
  | .atmega64 => false
  | .atmega128 => true
  | .atmega2561 => true

/-- The protocol constants of `stk500.h`.  The header is not part of the
sources at hand, so the values are parameters of the development. -/
structure Stk500 where
  STK_OK : Nat
  STK_INSYNC : Nat
  CRC_EOP : Nat
  STK_GET_PARAMETER : Nat
  STK_SET_DEVICE : Nat
  STK_SET_DEVICE_EXT : Nat
  STK_LOAD_ADDRESS : Nat
  STK_UNIVERSAL : Nat
  STK_PROG_PAGE : Nat
  STK_READ_PAGE : Nat
  STK_READ_SIGN : Nat
  STK_LEAVE_PROGMODE : Nat

/-- A build configuration: the part, the `VIRTUAL_BOOT_PARTITION` switch, the
protocol constants and the three signature bytes of the device header. -/
structure Cfg where
  mcu : Mcu
  vbp : Bool
  stk : Stk500
  SIGNATURE_0 : Nat
  SIGNATURE_1 : Nat
  SIGNATURE_2 : Nat

/-- The usual STK500 values of the protocol constants. -/
def stk500 : Stk500 :=
  ⟨0x10, 0x14, 0x20, 0x41, 0x42, 0x45, 0x55, 0x56, 0x64, 0x74, 0x75, 0x51⟩

/-- The command opcodes are bytes and pairwise different, and the terminator
is a byte. -/
def Stk500.WF (s : Stk500) : Prop :=
  [s.STK_GET_PARAMETER, s.STK_SET_DEVICE, s.STK_SET_DEVICE_EXT, s.STK_LOAD_ADDRESS,
    s.STK_UNIVERSAL, s.STK_PROG_PAGE, s.STK_READ_PAGE, s.STK_READ_SIGN,
    s.STK_LEAVE_PROGMODE].Pairwise (fun a b => a ≠ b) ∧
  s.STK_GET_PARAMETER < 256 ∧ s.STK_SET_DEVICE < 256 ∧ s.STK_SET_DEVICE_EXT < 256 ∧
  s.STK_LOAD_ADDRESS < 256 ∧ s.STK_UNIVERSAL < 256 ∧ s.STK_PROG_PAGE < 256 ∧
  s.STK_READ_PAGE < 256 ∧ s.STK_READ_SIGN < 256 ∧ s.STK_LEAVE_PROGMODE < 256 ∧
  s.CRC_EOP < 256 ∧ s.STK_INSYNC < 256 ∧ s.STK_OK < 256

instance (s : Stk500) : Decidable s.WF := by
  unfold Stk500.WF; infer_instance

/-! ## Device state -/

/-- A self-programming operation that reached the program memory: the erase
or the write of the page starting at the given byte address. -/
inductive Spm where
  | erase (page : Nat)
  | write (page : Nat)
  deriving DecidableEq, Repr

/-- The state of the device as far as the command loop touches it. -/
@[ext] structure Dev where
  /-- Bytes sent with `putch`, oldest first. -/
  out : List Nat
  /-- Number of times the receive wait of `getch`, the only place that
  executes `wdt_reset()`, has been entered. -/
  polls : Nat
  /-- The register variable `address`. -/
  address : Nat
  /-- The bank register `RAMPZ`. -/
  rampz : Nat
  /-- Data memory from `RAMSTART` on: `buff` is at offset 0, `rstVect` and
  `wdtVect` at offsets `2*SPM_PAGESIZE+4` and `2*SPM_PAGESIZE+6`. -/
  ram : Nat → Nat
  /-- Program memory, by byte address. -/
  flash : Nat → Nat
  /-- The temporary page buffer of the self-programming hardware. -/
  temp : Nat → Nat
  /-- The EEPROM, by the value of the address register `EEAR`. -/
  eeprom : Nat → Nat
  /-- The physical EEPROM writes performed, oldest first, as
  (address, data). -/
  eeLog : List (Nat × Nat)
  /-- The page erases and page writes performed, oldest first. -/
  spmLog : List Spm

/-- How a piece of code ends: it returns (`ok`) with the unread input, it
blocks in `getch` because the host sent nothing more (`starved`), or it
enters the endless loop of `verifySpace` (`hung`). -/
inductive Res (α : Type) where
  | ok (a : α) (inp : List Nat) (d : Dev)
  | starved (d : Dev)
  | hung (inp : List Nat) (d : Dev)

/-- Code of the bootloader: a function of the unread input and the state. -/
def M (α : Type) : Type := List Nat → Dev → Res α

/-- Sequencing: the rest of the code runs only if the first part returned. -/
def Res.andThen {α β : Type} (r : Res α) (f : α → List Nat → Dev → Res β) : Res β :=
  match r with
  | .ok a r d' => f a r d'
  | .starved d' => .starved d'
  | .hung r d' => .hung r d'

instance : Monad M where
  pure a := fun inp d => .ok a inp d
  bind m f := fun inp d => (m inp d).andThen f

/-- Read the state. -/
def getDev : M Dev := fun inp d => .ok d inp d

/-- Change the state. -/
def modifyDev (f : Dev → Dev) : M Unit := fun inp d => .ok () inp (f d)

/-- The loop `while (1) ;` of `verifySpace`. -/
def hang {α : Type} : M α := fun inp d => .hung inp d

/-- Read of an 8-bit memory cell. -/
def rd8 (m : Nat → Nat) (a : Nat) : Nat := m a % 256

/-- Store into an 8-bit memory cell. -/
def wr8 (m : Nat → Nat) (a v : Nat) : Nat → Nat :=
  fun x => if x = a then v % 256 else m x

/-- Little-endian read of a 16-bit variable. -/
def rd16 (m : Nat → Nat) (a : Nat) : Nat := rd8 m a ||| (rd8 m (a + 1) <<< 8)

/-- Little-endian store into a 16-bit variable. -/
def wr16 (m : Nat → Nat) (a v : Nat) : Nat → Nat :=
  wr8 (wr8 m a (v &&& 0xff)) (a + 1) ((v % 65536) >>> 8)

/-- Offset of `rstVect` from `RAMSTART`. -/
def rstVectOff : Nat := SPM_PAGESIZE * 2 + 4

/-- Offset of `wdtVect` from `RAMSTART`. -/
def wdtVectOff : Nat := SPM_PAGESIZE * 2 + 6

/-! ## The state changes of the code, one by one -/

/-- One more entry into the receive wait of `getch`. -/
@[simps] def Dev.poll (d : Dev) : Dev := { d with polls := d.polls + 1 }

/-- `UART_UDR = ch`. -/
@[simps] def Dev.emit (ch : Nat) (d : Dev) : Dev := { d with out := d.out ++ [ch % 256] }

/-- `address = a`. -/
@[simps] def Dev.setAddress (a : Nat) (d : Dev) : Dev := { d with address := a }

/-- `RAMPZ = v`. -/
@[simps] def Dev.setRampz (v : Nat) (d : Dev) : Dev := { d with rampz := v }

/-- `address >>= 1`. -/
@[simps] def Dev.halveAddress (d : Dev) : Dev := { d with address := d.address >>> 1 }

/-- `address++` on the 16-bit cursor. -/
@[simps] def Dev.incAddress (d : Dev) : Dev :=
  { d with address := (d.address + 1) % 65536 }

/-- `buff[i] = b`. -/
@[simps] def Dev.storeBuff (i b : Nat) (d : Dev) : Dev := { d with ram := wr8 d.ram i b }

/-- Byte address of the first byte of the page that contains `a`. -/
def pageBase (a : Nat) : Nat := a - a % SPM_PAGESIZE

/-- Modelled from the spec: the effect of the macros
`__boot_page_erase_normal` and `__boot_page_erase_extended` of `boot.h`,
which is missing.  A page erase sets every byte of the page that contains the
address to `0xFF`. -/
@[simps] def Dev.erasePage (a : Nat) (d : Dev) : Dev :=
  { d with
    flash := fun x => if pageBase x = pageBase a then 0xFF else d.flash x
    spmLog := d.spmLog ++ [Spm.erase (pageBase a)] }

/-- Modelled from the spec: the effect of the macros
`__boot_page_fill_normal` and `__boot_page_fill_extended` of `boot.h`, which
is missing.  A page fill puts the 16-bit word, low byte first, into the
device's write buffer at the word that the address selects within a page. -/
@[simps] def Dev.fillWord (a w : Nat) (d : Dev) : Dev :=
  { d with
    temp := wr8 (wr8 d.temp (a % SPM_PAGESIZE / 2 * 2) (w % 256))
      (a % SPM_PAGESIZE / 2 * 2 + 1) (w / 256) }

/-- Modelled from the spec: the effect of the macros
`__boot_page_write_normal` and `__boot_page_write_extended` of `boot.h`,
which is missing.  A page write commits the device's write buffer to the page
that contains the address. -/
@[simps] def Dev.writePage (a : Nat) (d : Dev) : Dev :=
  { d with
    flash := fun x =>
      if pageBase x = pageBase a then rd8 d.temp (x % SPM_PAGESIZE) else d.flash x
    spmLog := d.spmLog ++ [Spm.write (pageBase a)] }

/-- The physical write of `eeprom_write_byte_cmp`: `EEDR = dat` at `EEAR`,
then the write strobe. -/
@[simps] def Dev.eeWrite (dat pointer_eeprom : Nat) (d : Dev) : Dev :=
  { d with
    eeprom := wr8 d.eeprom pointer_eeprom dat
    eeLog := d.eeLog ++ [(pointer_eeprom, dat % 256)] }

/-- The `VIRTUAL_BOOT_PARTITION` patch of the reset-vector page, as a change
of the data memory: save the two vectors in `rstVect` and `wdtVect`, put the
reset vector less 4 into `buff[8..9]` and the jump to the bootloader into
`buff[0..1]`. -/
def patchVectors (ram : Nat → Nat) : Nat → Nat :=
  let vect := (rd8 ram 0 ||| (rd8 ram 1 <<< 8)) % 65536
  let ram := wr16 ram rstVectOff vect
  let ram := wr16 ram wdtVectOff ((rd8 ram 8 ||| (rd8 ram 9 <<< 8)) % 65536)
  let vect := (vect + 65536 - 4) % 65536
  let ram := wr8 ram 8 (vect &&& 0xff)
  let ram := wr8 ram 9 (vect >>> 8)
  let ram := wr8 ram 0 0x7f
  let ram := wr8 ram 1 0xce
  ram

/-- The patch applied to the data memory of the device. -/
@[simps] def Dev.patch (d : Dev) : Dev := { d with ram := patchVectors d.ram }

/-! ## Transport -/

/-- `getch` (hardware UART): wait for a byte, servicing the watchdog while
waiting, and return it. -/
def getch : M Nat := fun inp d =>
  match inp with
  | [] => .starved d.poll
  | b :: rest => .ok (b % 256) rest d.poll

/-- `putch`. -/
def putch (ch : Nat) : M Unit := modifyDev (Dev.emit ch)

/-- `verifySpace`. -/
def verifySpace (c : Cfg) : M Unit := do
  if (← getch) ≠ c.stk.CRC_EOP then
    hang
  putch c.stk.STK_INSYNC

/-- The loop `do body while (--count);` over a `uint8_t` counter.  The second
argument is the number of body executions already done, the third the value
`--count` yields after the coming execution of the body: the loop ends when
that value is 0, and otherwise the following decrement yields one less. -/
def doWhileDec (body : Nat → M Unit) : Nat → Nat → M Unit
  | i, 0 => body i
  | i, k + 1 => do
      body i
      doWhileDec body (i + 1) k

/-- The value of `--count` for a `uint8_t count`. -/
def dec8 (count : Nat) : Nat := (count + 255) % 256

/-- `bgetNch`. -/
def bgetNch (c : Cfg) (count : Nat) : M Unit := do
  doWhileDec (fun _ => do let _ ← getch; pure ()) 0 (dec8 count)
  verifySpace c

/-! ## Self-programming hardware and EEPROM -/

/-- The address handed to the self-programming operations: `address`
(`..._normal`, ATmega64) or `address | RAMPZ << 16` (`..._extended`). -/
def spmAddr (c : Cfg) (d : Dev) : Nat :=
  if hasRAMPZ c.mcu then d.address + 65536 * d.rampz else d.address

/-- The page erase `__boot_page_erase_normal` or `__boot_page_erase_extended`. -/
def boot_page_erase (a : Nat) : M Unit := modifyDev (Dev.erasePage a)

/-- The page fill `__boot_page_fill_normal` or `__boot_page_fill_extended`. -/
def boot_page_fill (a w : Nat) : M Unit := modifyDev (Dev.fillWord a w)

/-- The page write `__boot_page_write_normal` or `__boot_page_write_extended`. -/
def boot_page_write (a : Nat) : M Unit := modifyDev (Dev.writePage a)

/-- `eeprom_write_byte_cmp`: read the cell, return if it already holds `dat`,
otherwise write it. -/
def eeprom_write_byte_cmp (dat pointer_eeprom : Nat) : M Unit := do
  let d ← getDev
  if dat = rd8 d.eeprom pointer_eeprom then
    pure ()
  else
    modifyDev (Dev.eeWrite dat pointer_eeprom)

/-! ## The commands -/

/-- `STK_GET_PARAMETER`. -/
def getParameter (c : Cfg) : M Unit := do
  let GPIOR0 ← getch
  verifySpace c
  if GPIOR0 = 0x82 then
    putch OPTIBOOT_MINVER
  else if GPIOR0 = 0x81 then
    putch OPTIBOOT_MAJVER
  else
    putch 0x03

/-- `STK_LOAD_ADDRESS`. -/
def loadAddress (c : Cfg) : M Unit := do
  let newAddress ← getch
  let newAddress := ((newAddress &&& 0xff) ||| ((← getch) <<< 8)) % 65536
  if hasRAMPZ c.mcu then
    modifyDev (Dev.setRampz (if newAddress &&& 0x8000 ≠ 0 then 1 else 0))
  let newAddress := (newAddress + newAddress) % 65536
  modifyDev (Dev.setAddress newAddress)
  verifySpace c

/-- The page erase issued before the payload is read. -/
def earlyErase (c : Cfg) : M Unit := do
  let d ← getDev
  match c.mcu with
  | .atmega2561 => boot_page_erase (spmAddr c d)
  | .atmega128 =>
      if d.rampz = 0 ∨ d.address < NRWWSTART c.mcu then boot_page_erase (spmAddr c d)
  | .atmega64 =>
      if d.address < NRWWSTART c.mcu then boot_page_erase (spmAddr c d)

/-- The test that guards the commit: `address < BOOTSTART` on ATmega64,
`RAMPZ == 0 || address < BOOTSTART` on the other two parts. -/
def commitGuard (c : Cfg) (d : Dev) : Bool :=
  match c.mcu with
  | .atmega64 => decide (d.address < BOOTSTART c.mcu)
  | .atmega128 => decide (d.rampz = 0 ∨ d.address < BOOTSTART c.mcu)
  | .atmega2561 => decide (d.rampz = 0 ∨ d.address < BOOTSTART c.mcu)

/-- The page erase issued after the payload has been read. -/
def lateErase (c : Cfg) : M Unit := do
  let d ← getDev
  match c.mcu with
  | .atmega64 =>
      if d.address ≥ NRWWSTART c.mcu then boot_page_erase (spmAddr c d)
  | .atmega128 =>
      if d.rampz ≠ 0 ∧ d.address ≥ NRWWSTART c.mcu then boot_page_erase (spmAddr c d)
  | .atmega2561 =>
      if d.rampz ≠ 0 ∧ d.address ≥ NRWWSTART c.mcu then boot_page_erase (spmAddr c d)

/-- The loop `for (count = 0; count < length; count += 1)` that writes the
buffer to the EEPROM; the first argument is `length - count`. -/
def eepromWriteLoop : Nat → Nat → M Unit
  | 0, _ => pure ()
  | n + 1, count => do
      let d ← getDev
      eeprom_write_byte_cmp (rd8 d.ram count) d.address
      modifyDev Dev.incAddress
      eepromWriteLoop n (count + 1)

/-- The `VIRTUAL_BOOT_PARTITION` patch of the reset-vector page. -/
def installVectors : M Unit := modifyDev Dev.patch

/-- The loop that copies `buff` into the programming buffer; the index is the
number of words already copied, so `bufPtr` is `buff + 2*i` and `addrPtr` is
`address + 2*i`. -/
def fillPage (c : Cfg) : M Unit := do
  let address := (← getDev).address
  doWhileDec (fun i => do
      let d ← getDev
      let a := rd16 d.ram (2 * i)
      let addrPtr := (address + 2 * i) % 65536
      boot_page_fill (if hasRAMPZ c.mcu then addrPtr + 65536 * d.rampz else addrPtr) a)
    0 (dec8 (SPM_PAGESIZE / 2))

/-- The loop `do *bufPtr++ = getch(); while (--count);` that reads the
payload into `buff`, with `count = length` and `bufPtr = buff` at the start. -/
def fillBuff (length : Nat) : M Unit :=
  doWhileDec (fun bufPtr => do
      let b ← getch
      modifyDev (Dev.storeBuff bufPtr b))
    0 (dec8 length)

/-- The part of `STK_PROG_PAGE` after a passed terminator check inside the
commit guard: the EEPROM write or the page write. -/
def commitPage (c : Cfg) (length : Nat) (eeprom : Bool) : M Unit := do
  if eeprom then
    if c.mcu ≠ .atmega2561 then
      modifyDev Dev.halveAddress
    eepromWriteLoop length 0
  else
    if c.vbp then
      if (← getDev).address = 0 then
        installVectors
    fillPage c
    boot_page_write (spmAddr c (← getDev))

/-- `STK_PROG_PAGE`. -/
def progPage (c : Cfg) : M Unit := do
  let _ ← getch
  let length ← getch
  let eeprom := decide ((← getch) = 0x45)
  if eeprom = false then
    earlyErase c
  fillBuff length
  if commitGuard c (← getDev) then
    lateErase c
    verifySpace c
    commitPage c length eeprom
  else
    verifySpace c

/-- The body of the `VIRTUAL_BOOT_PARTITION` read loop: the byte sent for the
current `address`. -/
def vbpReadByte (d : Dev) : Nat :=
  if d.address = 0 then rd16 d.ram rstVectOff &&& 0xff
  else if d.address = 1 then rd16 d.ram rstVectOff >>> 8
  else if d.address = 8 then rd16 d.ram wdtVectOff &&& 0xff
  else if d.address = 9 then rd16 d.ram wdtVectOff >>> 8
  else rd8 d.flash d.address

/-- The EEPROM read loop of `STK_READ_PAGE`. -/
def readEeprom (length : Nat) : M Unit :=
  doWhileDec (fun _ => do
      let d ← getDev
      modifyDev Dev.incAddress
      putch (rd8 d.eeprom d.address))
    0 (dec8 length)

/-- The program-memory read loop under `VIRTUAL_BOOT_PARTITION`. -/
def readFlashVbp (length : Nat) : M Unit :=
  doWhileDec (fun _ => do
      let d ← getDev
      let ch := vbpReadByte d
      modifyDev Dev.incAddress
      putch ch)
    0 (dec8 length)

/-- The program-memory read loop when `RAMPZ` is defined: `elpm` reads the
byte at `RAMPZ:address`. -/
def readFlashElpm (length : Nat) : M Unit :=
  doWhileDec (fun _ => do
      let d ← getDev
      let result := rd8 d.flash (d.address + 65536 * d.rampz)
      putch result
      modifyDev Dev.incAddress)
    0 (dec8 length)

/-- The program-memory read loop otherwise: `pgm_read_byte_near(address++)`. -/
def readFlashLpm (length : Nat) : M Unit :=
  doWhileDec (fun _ => do
      let d ← getDev
      putch (rd8 d.flash d.address)
      modifyDev Dev.incAddress)
    0 (dec8 length)

/-- The reply loop of `STK_READ_PAGE`. -/
def readLoop (c : Cfg) (length : Nat) (eeprom : Bool) : M Unit :=
  if eeprom then
    readEeprom length
  else if c.vbp then
    readFlashVbp length
  else if hasRAMPZ c.mcu then
    readFlashElpm length
  else
    readFlashLpm length

/-- `STK_READ_PAGE`. -/
def readPage (c : Cfg) : M Unit := do
  let _ ← getch
  let length ← getch
  let eeprom := decide ((← getch) = 0x45)
  if eeprom then
    if c.mcu ≠ .atmega2561 then
      modifyDev Dev.halveAddress
  verifySpace c
  readLoop c length eeprom

/-- The command with opcode `ch`, up to the final `putch(STK_OK)`. -/
def dispatch (c : Cfg) (ch : Nat) : M Unit :=
  if ch = c.stk.STK_GET_PARAMETER then
    getParameter c
  else if ch = c.stk.STK_SET_DEVICE then
    bgetNch c 20
  else if ch = c.stk.STK_SET_DEVICE_EXT then
    bgetNch c 5
  else if ch = c.stk.STK_LOAD_ADDRESS then
    loadAddress c
  else if ch = c.stk.STK_UNIVERSAL then do
    bgetNch c 4
    putch 0x00
  else if ch = c.stk.STK_PROG_PAGE then
    progPage c
  else if ch = c.stk.STK_READ_PAGE then
    readPage c
  else if ch = c.stk.STK_READ_SIGN then do
    verifySpace c
    putch c.SIGNATURE_0
    putch c.SIGNATURE_1
    putch c.SIGNATURE_2
  else if ch = c.stk.STK_LEAVE_PROGMODE then
    verifySpace c
  else
    verifySpace c

/-- One turn of the `for (;;)` loop of `bootmain`: one command. -/
def command (c : Cfg) : M Unit := do
  let ch ← getch
  dispatch c ch
  putch c.stk.STK_OK

/-- The first `n` turns of the `for (;;)` loop of `bootmain`. -/
def mainLoop (c : Cfg) : Nat → M Unit
  | 0 => pure ()
  | n + 1 => do
      command c
      mainLoop c n

/-- `bootmain`, cut after `n` turns of its endless loop: `address` starts
at 0. -/
def bootmain (c : Cfg) (n : Nat) : M Unit := do
  modifyDev (Dev.setAddress 0)
  mainLoop c n

/-! ## Observations and sample data -/

/-- The state in which a piece of code ended. -/
def Res.dev {α : Type} : Res α → Dev
  | .ok _ _ d => d
  | .starved d => d
  | .hung _ d => d

/-- The input left unread when a piece of code ended. -/
def Res.rest {α : Type} : Res α → List Nat
  | .ok _ inp _ => inp
  | .starved _ => []
  | .hung inp _ => inp

/-- The code entered the endless loop of `verifySpace`. -/
def Res.isHung {α : Type} : Res α → Bool
  | .hung _ _ => true
  | _ => false

/-- The code returned. -/
def Res.isOk {α : Type} : Res α → Bool
  | .ok _ _ _ => true
  | _ => false

/-- The input ran out while the code was waiting in `getch`. -/
def Res.isStarved {α : Type} : Res α → Bool
  | .starved _ => true
  | _ => false

/-- A page-sized payload whose bytes 0-1 are `0x11, 0x22` and whose bytes 8-9
are `0x33, 0x44`. -/
def samplePage : List Nat :=
  [0x11, 0x22, 0, 0, 0, 0, 0, 0, 0x33, 0x44] ++ List.replicate 246 0

/-- A device after reset: nothing sent, cursor 0, memories erased. -/
def dev0 : Dev :=
  ⟨[], 0, 0, 0, fun _ => 0, fun _ => 0xFF, fun _ => 0xFF, fun _ => 0xFF, [], []⟩

/-- A device in use: cursor 0, the page buffer, the program memory and the
EEPROM hold data left by earlier work. -/
def dev1 : Dev :=
  ⟨[], 0, 0, 0, fun a => (a + 1) % 256, fun a => a % 251, fun _ => 0xFF, fun a => a % 256,
    [], []⟩

/-- A sample configuration for each part, with the usual protocol constants
and the signature bytes of the part. -/
def cfgOf (mcu : Mcu) (vbp : Bool) : Cfg :=
  match mcu with
  | .atmega64 => ⟨mcu, vbp, stk500, 0x1E, 0x96, 0x02⟩
  | .atmega128 => ⟨mcu, vbp, stk500, 0x1E, 0x97, 0x02⟩
  | .atmega2561 => ⟨mcu, vbp, stk500, 0x1E, 0x98, 0x02⟩

/-! ## Auxiliary functions of the statements -/

/-- The bytes `bs` stored into consecutive cells from cell `i` on. -/
def storeBytes (m : Nat → Nat) : Nat → List Nat → Nat → Nat
  | _, [] => m
  | i, b :: bs => storeBytes (wr8 m i b) (i + 1) bs

/-- The `n` bytes that a read loop sends when `f` gives the byte sent for a
cursor value and the 16-bit cursor starts at `a`. -/
def readBytes (f : Nat → Nat) : Nat → Nat → List Nat
  | _, 0 => []
  | a, n + 1 => f a :: readBytes f ((a + 1) % 65536) n

/-- Number of times the body of `do body while (--count);` runs when the
`uint8_t` counter starts at the byte `count`. -/
def iterations (count : Nat) : Nat := dec8 count + 1

/-- The state after the loop `doWhileDec` when the body only changes the
state. -/
def iterDev (step : Nat → Dev → Dev) : Nat → Nat → Dev → Dev
  | i, 0, d => step i d
  | i, k + 1, d => iterDev step (i + 1) k (step i d)

/-- The state after `n` more entries into the receive wait. -/
@[simps] def Dev.addPolls (n : Nat) (d : Dev) : Dev := { d with polls := d.polls + n }

/-- The state after the bytes `P` have been stored from `buff[i]` on. -/
@[simps] def Dev.storeFrom (i : Nat) (P : List Nat) (d : Dev) : Dev :=
  { d with ram := storeBytes d.ram i P }

/-- The state with another content of the programming buffer. -/
@[simps] def Dev.setTemp (t : Nat → Nat) (d : Dev) : Dev := { d with temp := t }

/-- The state with another content of the EEPROM. -/
@[simps] def Dev.setEeprom (e : Nat → Nat) (d : Dev) : Dev := { d with eeprom := e }

/-- The state with more physical EEPROM writes on record. -/
@[simps] def Dev.appendEeLog (l : List (Nat × Nat)) (d : Dev) : Dev :=
  { d with eeLog := d.eeLog ++ l }

/-- The state after the bytes `l` have been sent. -/
@[simps] def Dev.emitAll (l : List Nat) (d : Dev) : Dev := { d with out := d.out ++ l }

/-- The state after a page erase that is issued only if `b` holds. -/
@[simps] def Dev.eraseIf (b : Bool) (a : Nat) (d : Dev) : Dev :=
  { d with
    flash := if b then (fun x => if pageBase x = pageBase a then 0xFF else d.flash x)
      else d.flash
    spmLog := if b then d.spmLog ++ [Spm.erase (pageBase a)] else d.spmLog }

/-- The programming buffer after `n` turns of the copy loop of `fillPage`
from word `i` of `buff` on, for the cursor `address` and bank `rampz`. -/
def fillTemp (c : Cfg) (address rampz : Nat) (ram : Nat → Nat) :
    Nat → Nat → (Nat → Nat) → Nat → Nat
  | _, 0, temp => temp
  | i, n + 1, temp =>
      fillTemp c address rampz ram (i + 1) n
        (wr8
          (wr8 temp
            ((if hasRAMPZ c.mcu then (address + 2 * i) % 65536 + 65536 * rampz
              else (address + 2 * i) % 65536) % SPM_PAGESIZE / 2 * 2)
            (rd16 ram (2 * i) % 256))
          ((if hasRAMPZ c.mcu then (address + 2 * i) % 65536 + 65536 * rampz
            else (address + 2 * i) % 65536) % SPM_PAGESIZE / 2 * 2 + 1)
          (rd16 ram (2 * i) / 256))

/-- The state after the copy loop of `fillPage`. -/
def Dev.fillAll (c : Cfg) (d : Dev) : Dev :=
  d.setTemp (fillTemp c d.address d.rampz d.ram 0 (dec8 (SPM_PAGESIZE / 2) + 1) d.temp)

/-- The EEPROM after `n` turns of the write loop, which takes `buff[count]`
first and writes at the cursor `a` first. -/
def eeStore (ram : Nat → Nat) : Nat → Nat → Nat → (Nat → Nat) → Nat → Nat
  | 0, _, _, e => e
  | n + 1, count, a, e =>
      eeStore ram n (count + 1) ((a + 1) % 65536)
        (if rd8 ram count = rd8 e a then e else wr8 e a (rd8 ram count))

/-- The physical writes of `n` turns of the EEPROM write loop. -/
def eeWrites (ram : Nat → Nat) : Nat → Nat → Nat → (Nat → Nat) → List (Nat × Nat)
  | 0, _, _, _ => []
  | n + 1, count, a, e =>
      (if rd8 ram count = rd8 e a then [] else [(a, rd8 ram count % 256)]) ++
        eeWrites ram n (count + 1) ((a + 1) % 65536)
          (if rd8 ram count = rd8 e a then e else wr8 e a (rd8 ram count))

/-- The 16-bit cursor `a` after `n` increments. -/
def advance : Nat → Nat → Nat
  | a, 0 => a
  | a, n + 1 => advance ((a + 1) % 65536) n

/-- The state after `n` turns of the EEPROM write loop from `buff[0]` on. -/
def Dev.eeWriteAll (n : Nat) (d : Dev) : Dev :=
  ((d.setEeprom (eeStore d.ram n 0 d.address d.eeprom)).appendEeLog
    (eeWrites d.ram n 0 d.address d.eeprom)).setAddress (advance d.address n)

/-- The condition under which the erase before the payload is issued, for
the cursor `a` and the bank `r`. -/
def earlyAt (c : Cfg) (a r : Nat) : Bool :=
  match c.mcu with
  | .atmega2561 => true
  | .atmega128 => decide (r = 0 ∨ a < NRWWSTART c.mcu)
  | .atmega64 => decide (a < NRWWSTART c.mcu)

/-- The condition under which the erase after the payload is issued, once the
commit guard has passed. -/
def lateAt (c : Cfg) (a r : Nat) : Bool :=
  match c.mcu with
  | .atmega64 => decide (a ≥ NRWWSTART c.mcu)
  | .atmega128 => decide (r ≠ 0 ∧ a ≥ NRWWSTART c.mcu)
  | .atmega2561 => decide (r ≠ 0 ∧ a ≥ NRWWSTART c.mcu)

/-- The commit guard for the cursor `a` and the bank `r`. -/
def guardAt (c : Cfg) (a r : Nat) : Bool :=
  match c.mcu with
  | .atmega64 => decide (a < BOOTSTART c.mcu)
  | .atmega128 => decide (r = 0 ∨ a < BOOTSTART c.mcu)
  | .atmega2561 => decide (r = 0 ∨ a < BOOTSTART c.mcu)

/-- The address of the self-programming operations for the cursor `a` and the
bank `r`. -/
def spmAt (c : Cfg) (a r : Nat) : Nat :=
  if hasRAMPZ c.mcu then a + 65536 * r else a

/-- The state once the payload of `STK_PROG_PAGE` is in `buff`: after the
header, the erase before the payload if it is due, and the payload loop. -/
def loadedPage (c : Cfg) (length tag : Nat) (P : List Nat) (d : Dev) : Dev :=
  (((d.poll.poll.poll).eraseIf (decide (tag ≠ 0x45) && earlyAt c d.address d.rampz)
    (spmAt c d.address d.rampz)).addPolls (iterations length)).storeFrom 0 P

/-- The state after the part of `STK_PROG_PAGE` that follows a passed
terminator check inside the commit guard. -/
def committed (c : Cfg) (length tag : Nat) (d : Dev) : Dev :=
  if tag = 0x45 then
    (if c.mcu ≠ .atmega2561 then d.halveAddress else d).eeWriteAll length
  else
    ((if c.vbp = true ∧ d.address = 0 then d.patch else d).fillAll c).writePage
      (spmAt c d.address d.rampz)

/-- The state after a terminator check that passed. -/
def synced (c : Cfg) (d : Dev) : Dev := d.poll.emit c.stk.STK_INSYNC

/-- The outcome of `verifySpace` on the terminator byte `t`. -/
def checked (c : Cfg) (t : Nat) (rest : List Nat) (d : Dev) : Res Unit :=
  if t % 256 = c.stk.CRC_EOP then .ok () rest (synced c d) else .hung rest d.poll

/-- The outcome of `STK_PROG_PAGE` on a frame with length byte `length`,
memory tag `tag`, payload `P` and terminator `t`. -/
def progPageRes (c : Cfg) (length tag : Nat) (P : List Nat) (t : Nat) (rest : List Nat)
    (d : Dev) : Res Unit :=
  if guardAt c d.address d.rampz = true then
    (checked c t rest
        ((loadedPage c length tag P d).eraseIf (lateAt c d.address d.rampz)
          (spmAt c d.address d.rampz))).andThen
      fun _ r d4 => .ok () r (committed c length tag d4)
  else
    checked c t rest (loadedPage c length tag P d)

/-- The byte that the reply loop of `STK_READ_PAGE` sends when the cursor is
`a`: from the EEPROM if the memory tag is `'E'`, otherwise from the program
memory as the configuration reads it. -/
def readByteAt (c : Cfg) (tag : Nat) (d : Dev) (a : Nat) : Nat :=
  if tag = 0x45 then rd8 d.eeprom a
  else if c.vbp = true then vbpReadByte (d.setAddress a)
  else if hasRAMPZ c.mcu = true then rd8 d.flash (a + 65536 * d.rampz)
  else rd8 d.flash a

/-- The state after the reply loop of `STK_READ_PAGE`. -/
def readDone (c : Cfg) (length tag : Nat) (d : Dev) : Dev :=
  (d.emitAll (readBytes (readByteAt c tag d) d.address (iterations length))).setAddress
    (advance d.address (iterations length))

/-- The state of `STK_READ_PAGE` before its terminator check. -/
def readHeader (c : Cfg) (tag : Nat) (d : Dev) : Dev :=
  if tag = 0x45 ∧ c.mcu ≠ .atmega2561 then d.poll.poll.poll.halveAddress else d.poll.poll.poll

/-- The outcome of `STK_READ_PAGE` on a frame with length byte `length`,
memory tag `tag` and terminator `t`. -/
def readPageRes (c : Cfg) (length tag t : Nat) (rest : List Nat) (d : Dev) : Res Unit :=
  (checked c t rest (readHeader c tag d)).andThen fun _ r d2 =>
    .ok () r (readDone c length tag d2)

/-- The byte `GET_PARAMETER` answers for a parameter id. -/
def parameterReply (id : Nat) : Nat :=
  if id = 0x82 then OPTIBOOT_MINVER else if id = 0x81 then OPTIBOOT_MAJVER else 0x03

/-- The 16-bit word that `STK_LOAD_ADDRESS` composes from its two bytes. -/
def wireWord (lo hi : Nat) : Nat := ((lo % 256 &&& 0xff) ||| ((hi % 256) <<< 8)) % 65536

/-- The bank bit that `STK_LOAD_ADDRESS` derives from the composed word. -/
def bankBit (w : Nat) : Nat := if w &&& 0x8000 ≠ 0 then 1 else 0

/-- The state after `STK_LOAD_ADDRESS` has stored the address, before its
terminator check. -/
def loadedDev (c : Cfg) (lo hi : Nat) (d : Dev) : Dev :=
  let d1 := d.poll.poll
  let d2 := if hasRAMPZ c.mcu then d1.setRampz (bankBit (wireWord lo hi)) else d1
  d2.setAddress ((wireWord lo hi + wireWord lo hi) % 65536)

/-- The number of bytes between the opcode `op` and the terminator in the
frame of a command, as the code reads them: the fixed counts of the commands
with a fixed payload and, for `STK_PROG_PAGE`, the two length bytes, the
memory tag and one payload byte for each turn of the payload loop. -/
def argCount (c : Cfg) (op : Nat) (args : List Nat) : Nat :=
  if op = c.stk.STK_GET_PARAMETER then 1
  else if op = c.stk.STK_SET_DEVICE then 20
  else if op = c.stk.STK_SET_DEVICE_EXT then 5
  else if op = c.stk.STK_LOAD_ADDRESS then 2
  else if op = c.stk.STK_UNIVERSAL then 4
  else if op = c.stk.STK_PROG_PAGE then 3 + iterations (args.getD 1 0 % 256)
  else if op = c.stk.STK_READ_PAGE then 3
  else 0

/-- The state of a command with opcode `op` and arguments `args` when it
reaches its terminator check, from the state `d` in which the opcode was
read. -/
def preCheck (c : Cfg) (op : Nat) (args : List Nat) (d : Dev) : Dev :=
  if op = c.stk.STK_GET_PARAMETER then d.poll
  else if op = c.stk.STK_SET_DEVICE then d.addPolls (iterations 20)
  else if op = c.stk.STK_SET_DEVICE_EXT then d.addPolls (iterations 5)
  else if op = c.stk.STK_LOAD_ADDRESS then loadedDev c (args.getD 0 0) (args.getD 1 0) d
  else if op = c.stk.STK_UNIVERSAL then d.addPolls (iterations 4)
  else if op = c.stk.STK_PROG_PAGE then
    (loadedPage c (args.getD 1 0 % 256) (args.getD 2 0 % 256) (args.drop 3) d).eraseIf
      (guardAt c d.address d.rampz && lateAt c d.address d.rampz) (spmAt c d.address d.rampz)
  else if op = c.stk.STK_READ_PAGE then readHeader c (args.getD 2 0 % 256) d
  else d

/-- What a command with opcode `op` and arguments `args` does after its
terminator check has passed, up to the final `putch(STK_OK)`. -/
def postCheck (c : Cfg) (op : Nat) (args : List Nat) (d : Dev) : Dev :=
  if op = c.stk.STK_GET_PARAMETER then d.emit (parameterReply (args.getD 0 0 % 256))
  else if op = c.stk.STK_SET_DEVICE then d
  else if op = c.stk.STK_SET_DEVICE_EXT then d
  else if op = c.stk.STK_LOAD_ADDRESS then d
  else if op = c.stk.STK_UNIVERSAL then d.emit 0x00
  else if op = c.stk.STK_PROG_PAGE then
    if guardAt c d.address d.rampz = true then
      committed c (args.getD 1 0 % 256) (args.getD 2 0 % 256) d
    else d
  else if op = c.stk.STK_READ_PAGE then
    readDone c (args.getD 1 0 % 256) (args.getD 2 0 % 256) d
  else if op = c.stk.STK_READ_SIGN then
    ((d.emit c.SIGNATURE_0).emit c.SIGNATURE_1).emit c.SIGNATURE_2
  else d

/-- The reply payload of a command with opcode `op` and arguments `args`, for
the state `d` in which the command reaches its terminator check: the bytes
sent between the in-sync byte and the operation-complete byte. -/
def replyPayload (c : Cfg) (op : Nat) (args : List Nat) (d : Dev) : List Nat :=
  if op = c.stk.STK_GET_PARAMETER then [parameterReply (args.getD 0 0 % 256) % 256]
  else if op = c.stk.STK_SET_DEVICE then []
  else if op = c.stk.STK_SET_DEVICE_EXT then []
  else if op = c.stk.STK_LOAD_ADDRESS then []
  else if op = c.stk.STK_UNIVERSAL then [0]
  else if op = c.stk.STK_PROG_PAGE then []
  else if op = c.stk.STK_READ_PAGE then
    readBytes (readByteAt c (args.getD 2 0 % 256) d) d.address
      (iterations (args.getD 1 0 % 256))
  else if op = c.stk.STK_READ_SIGN then
    [c.SIGNATURE_0 % 256, c.SIGNATURE_1 % 256, c.SIGNATURE_2 % 256]
  else []

/-- The number of reply payload bytes of a command: one for `GET_PARAMETER`
and `UNIVERSAL`, three for `READ_SIGN`, one for each turn of the reply loop
for `READ_PAGE`, none otherwise. -/
def replyLength (c : Cfg) (op : Nat) (args : List Nat) : Nat :=
  if op = c.stk.STK_GET_PARAMETER then 1
  else if op = c.stk.STK_SET_DEVICE then 0
  else if op = c.stk.STK_SET_DEVICE_EXT then 0
  else if op = c.stk.STK_LOAD_ADDRESS then 0
  else if op = c.stk.STK_UNIVERSAL then 1
  else if op = c.stk.STK_PROG_PAGE then 0
  else if op = c.stk.STK_READ_PAGE then iterations (args.getD 1 0 % 256)
  else if op = c.stk.STK_READ_SIGN then 3
  else 0

/-- The outcome of one command on the frame `op :: args ++ [t]`. -/
def commandRes (c : Cfg) (op : Nat) (args : List Nat) (t : Nat) (rest : List Nat)
    (d : Dev) : Res Unit :=
  if t % 256 = c.stk.CRC_EOP then
    .ok () rest
      ((postCheck c (op % 256) args
        (synced c (preCheck c (op % 256) args d.poll))).emit c.stk.STK_OK)
  else .hung rest (preCheck c (op % 256) args d.poll).poll

/-- The EEPROM cell at which a byte-store `PROG_PAGE` starts after
`LOAD_ADDRESS` of the word `W`: the doubled address halved again on ATmega64
and ATmega128, the doubled address itself on ATmega2561, where the source
leaves `address >>= 1` out. -/
def eeBase (c : Cfg) (W : Nat) : Nat :=
  if c.mcu ≠ .atmega2561 then (2 * W) % 65536 / 2 else (2 * W) % 65536

/-- The EEPROM cell at which a byte-store command starts when it finds the
cursor `a`: the cursor halved on ATmega64 and ATmega128, the cursor itself on
ATmega2561. -/
def eeStart (c : Cfg) (a : Nat) : Nat :=
  if c.mcu ≠ .atmega2561 then a / 2 else a

/-- The number of turns of a `do ... while (--length)` loop for the length
byte `L` of a frame: `L mod 256`, and 256 when that is 0. -/
def turns (L : Nat) : Nat := if L % 256 = 0 then 256 else L % 256

/-- The command left everything but the serial line as it was: the state
`d'` has the cursor, the bank, the data memory, the program memory, the
programming buffer, the EEPROM and the records of physical writes of `d`. -/
def Dev.untouched (d d' : Dev) : Prop :=
  d'.address = d.address ∧ d'.rampz = d.rampz ∧ d'.ram = d.ram ∧ d'.flash = d.flash ∧
    d'.temp = d.temp ∧ d'.eeprom = d.eeprom ∧ d'.eeLog = d.eeLog ∧ d'.spmLog = d.spmLog

/-! ## The memories after each state change -/

@[simp] theorem Dev.poll_ram_fn (d : Dev) :
    (Dev.poll d).ram = d.ram := rfl

@[simp] theorem Dev.poll_flash_fn (d : Dev) :
    (Dev.poll d).flash = d.flash := rfl

@[simp] theorem Dev.poll_temp_fn (d : Dev) :
    (Dev.poll d).temp = d.temp := rfl

@[simp] theorem Dev.poll_eeprom_fn (d : Dev) :
    (Dev.poll d).eeprom = d.eeprom := rfl

@[simp] theorem Dev.emit_ram_fn (ch : Nat) (d : Dev) :
    (Dev.emit ch d).ram = d.ram := rfl

@[simp] theorem Dev.emit_flash_fn (ch : Nat) (d : Dev) :
    (Dev.emit ch d).flash = d.flash := rfl

@[simp] theorem Dev.emit_temp_fn (ch : Nat) (d : Dev) :
    (Dev.emit ch d).temp = d.temp := rfl

@[simp] theorem Dev.emit_eeprom_fn (ch : Nat) (d : Dev) :
    (Dev.emit ch d).eeprom = d.eeprom := rfl

@[simp] theorem Dev.setAddress_ram_fn (a : Nat) (d : Dev) :
    (Dev.setAddress a d).ram = d.ram := rfl

@[simp] theorem Dev.setAddress_flash_fn (a : Nat) (d : Dev) :
    (Dev.setAddress a d).flash = d.flash := rfl

@[simp] theorem Dev.setAddress_temp_fn (a : Nat) (d : Dev) :
    (Dev.setAddress a d).temp = d.temp := rfl

@[simp] theorem Dev.setAddress_eeprom_fn (a : Nat) (d : Dev) :
    (Dev.setAddress a d).eeprom = d.eeprom := rfl

@[simp] theorem Dev.setRampz_ram_fn (v : Nat) (d : Dev) :
    (Dev.setRampz v d).ram = d.ram := rfl

@[simp] theorem Dev.setRampz_flash_fn (v : Nat) (d : Dev) :
    (Dev.setRampz v d).flash = d.flash := rfl

@[simp] theorem Dev.setRampz_temp_fn (v : Nat) (d : Dev) :
    (Dev.setRampz v d).temp = d.temp := rfl

@[simp] theorem Dev.setRampz_eeprom_fn (v : Nat) (d : Dev) :
    (Dev.setRampz v d).eeprom = d.eeprom := rfl

@[simp] theorem Dev.halveAddress_ram_fn (d : Dev) :
    (Dev.halveAddress d).ram = d.ram := rfl

@[simp] theorem Dev.halveAddress_flash_fn (d : Dev) :
    (Dev.halveAddress d).flash = d.flash := rfl

@[simp] theorem Dev.halveAddress_temp_fn (d : Dev) :
    (Dev.halveAddress d).temp = d.temp := rfl

@[simp] theorem Dev.halveAddress_eeprom_fn (d : Dev) :
    (Dev.halveAddress d).eeprom = d.eeprom := rfl

@[simp] theorem Dev.incAddress_ram_fn (d : Dev) :
    (Dev.incAddress d).ram = d.ram := rfl

@[simp] theorem Dev.incAddress_flash_fn (d : Dev) :
    (Dev.incAddress d).flash = d.flash := rfl

@[simp] theorem Dev.incAddress_temp_fn (d : Dev) :
    (Dev.incAddress d).temp = d.temp := rfl

@[simp] theorem Dev.incAddress_eeprom_fn (d : Dev) :
    (Dev.incAddress d).eeprom = d.eeprom := rfl

@[simp] theorem Dev.storeBuff_ram_fn (i b : Nat) (d : Dev) :
    (Dev.storeBuff i b d).ram = wr8 d.ram i b := rfl

@[simp] theorem Dev.storeBuff_flash_fn (i b : Nat) (d : Dev) :
    (Dev.storeBuff i b d).flash = d.flash := rfl

@[simp] theorem Dev.storeBuff_temp_fn (i b : Nat) (d : Dev) :
    (Dev.storeBuff i b d).temp = d.temp := rfl

@[simp] theorem Dev.storeBuff_eeprom_fn (i b : Nat) (d : Dev) :
    (Dev.storeBuff i b d).eeprom = d.eeprom := rfl

@[simp] theorem Dev.erasePage_ram_fn (a : Nat) (d : Dev) :
    (Dev.erasePage a d).ram = d.ram := rfl

@[simp] theorem Dev.erasePage_flash_fn (a : Nat) (d : Dev) :
    (Dev.erasePage a d).flash =
      fun x => if pageBase x = pageBase a then 0xFF else d.flash x := rfl

@[simp] theorem Dev.erasePage_temp_fn (a : Nat) (d : Dev) :
    (Dev.erasePage a d).temp = d.temp := rfl

@[simp] theorem Dev.erasePage_eeprom_fn (a : Nat) (d : Dev) :
    (Dev.erasePage a d).eeprom = d.eeprom := rfl

@[simp] theorem Dev.fillWord_ram_fn (a w : Nat) (d : Dev) :
    (Dev.fillWord a w d).ram = d.ram := rfl

@[simp] theorem Dev.fillWord_flash_fn (a w : Nat) (d : Dev) :
    (Dev.fillWord a w d).flash = d.flash := rfl

@[simp] theorem Dev.fillWord_temp_fn (a w : Nat) (d : Dev) :
    (Dev.fillWord a w d).temp =
      wr8 (wr8 d.temp (a % SPM_PAGESIZE / 2 * 2) (w % 256))
        (a % SPM_PAGESIZE / 2 * 2 + 1) (w / 256) := rfl

@[simp] theorem Dev.fillWord_eeprom_fn (a w : Nat) (d : Dev) :
    (Dev.fillWord a w d).eeprom = d.eeprom := rfl

@[simp] theorem Dev.writePage_ram_fn (a : Nat) (d : Dev) :
    (Dev.writePage a d).ram = d.ram := rfl

@[simp] theorem Dev.writePage_flash_fn (a : Nat) (d : Dev) :
    (Dev.writePage a d).flash =
      fun x =>
        if pageBase x = pageBase a then rd8 d.temp (x % SPM_PAGESIZE) else d.flash x := rfl

@[simp] theorem Dev.writePage_temp_fn (a : Nat) (d : Dev) :
    (Dev.writePage a d).temp = d.temp := rfl

@[simp] theorem Dev.writePage_eeprom_fn (a : Nat) (d : Dev) :
    (Dev.writePage a d).eeprom = d.eeprom := rfl

@[simp] theorem Dev.eeWrite_ram_fn (dat ptr : Nat) (d : Dev) :
    (Dev.eeWrite dat ptr d).ram = d.ram := rfl

@[simp] theorem Dev.eeWrite_flash_fn (dat ptr : Nat) (d : Dev) :
    (Dev.eeWrite dat ptr d).flash = d.flash := rfl

@[simp] theorem Dev.eeWrite_temp_fn (dat ptr : Nat) (d : Dev) :
    (Dev.eeWrite dat ptr d).temp = d.temp := rfl

@[simp] theorem Dev.eeWrite_eeprom_fn (dat ptr : Nat) (d : Dev) :
    (Dev.eeWrite dat ptr d).eeprom = wr8 d.eeprom ptr dat := rfl

@[simp] theorem Dev.patch_ram_fn (d : Dev) :
    (Dev.patch d).ram = patchVectors d.ram := rfl

@[simp] theorem Dev.patch_flash_fn (d : Dev) :
    (Dev.patch d).flash = d.flash := rfl

@[simp] theorem Dev.patch_temp_fn (d : Dev) :
    (Dev.patch d).temp = d.temp := rfl

@[simp] theorem Dev.patch_eeprom_fn (d : Dev) :
    (Dev.patch d).eeprom = d.eeprom := rfl

@[simp] theorem Dev.addPolls_ram_fn (n : Nat) (d : Dev) :
    (Dev.addPolls n d).ram = d.ram := rfl

@[simp] theorem Dev.addPolls_flash_fn (n : Nat) (d : Dev) :
    (Dev.addPolls n d).flash = d.flash := rfl

@[simp] theorem Dev.addPolls_temp_fn (n : Nat) (d : Dev) :
    (Dev.addPolls n d).temp = d.temp := rfl

@[simp] theorem Dev.addPolls_eeprom_fn (n : Nat) (d : Dev) :
    (Dev.addPolls n d).eeprom = d.eeprom := rfl

@[simp] theorem Dev.storeFrom_ram_fn (i : Nat) (P : List Nat) (d : Dev) :
    (Dev.storeFrom i P d).ram = storeBytes d.ram i P := rfl

@[simp] theorem Dev.storeFrom_flash_fn (i : Nat) (P : List Nat) (d : Dev) :
    (Dev.storeFrom i P d).flash = d.flash := rfl

@[simp] theorem Dev.storeFrom_temp_fn (i : Nat) (P : List Nat) (d : Dev) :
    (Dev.storeFrom i P d).temp = d.temp := rfl

@[simp] theorem Dev.storeFrom_eeprom_fn (i : Nat) (P : List Nat) (d : Dev) :
    (Dev.storeFrom i P d).eeprom = d.eeprom := rfl

@[simp] theorem Dev.setTemp_ram_fn (t : Nat → Nat) (d : Dev) :
    (Dev.setTemp t d).ram = d.ram := rfl

@[simp] theorem Dev.setTemp_flash_fn (t : Nat → Nat) (d : Dev) :
    (Dev.setTemp t d).flash = d.flash := rfl

@[simp] theorem Dev.setTemp_temp_fn (t : Nat → Nat) (d : Dev) :
    (Dev.setTemp t d).temp = t := rfl

@[simp] theorem Dev.setTemp_eeprom_fn (t : Nat → Nat) (d : Dev) :
    (Dev.setTemp t d).eeprom = d.eeprom := rfl

@[simp] theorem Dev.setEeprom_ram_fn (e : Nat → Nat) (d : Dev) :
    (Dev.setEeprom e d).ram = d.ram := rfl

@[simp] theorem Dev.setEeprom_flash_fn (e : Nat → Nat) (d : Dev) :
    (Dev.setEeprom e d).flash = d.flash := rfl

@[simp] theorem Dev.setEeprom_temp_fn (e : Nat → Nat) (d : Dev) :
    (Dev.setEeprom e d).temp = d.temp := rfl

@[simp] theorem Dev.setEeprom_eeprom_fn (e : Nat → Nat) (d : Dev) :
    (Dev.setEeprom e d).eeprom = e := rfl

@[simp] theorem Dev.appendEeLog_ram_fn (l : List (Nat × Nat)) (d : Dev) :
    (Dev.appendEeLog l d).ram = d.ram := rfl

@[simp] theorem Dev.appendEeLog_flash_fn (l : List (Nat × Nat)) (d : Dev) :
    (Dev.appendEeLog l d).flash = d.flash := rfl

@[simp] theorem Dev.appendEeLog_temp_fn (l : List (Nat × Nat)) (d : Dev) :
    (Dev.appendEeLog l d).temp = d.temp := rfl

@[simp] theorem Dev.appendEeLog_eeprom_fn (l : List (Nat × Nat)) (d : Dev) :
    (Dev.appendEeLog l d).eeprom = d.eeprom := rfl

@[simp] theorem Dev.emitAll_ram_fn (l : List Nat) (d : Dev) :
    (Dev.emitAll l d).ram = d.ram := rfl

@[simp] theorem Dev.emitAll_flash_fn (l : List Nat) (d : Dev) :
    (Dev.emitAll l d).flash = d.flash := rfl

@[simp] theorem Dev.emitAll_temp_fn (l : List Nat) (d : Dev) :
    (Dev.emitAll l d).temp = d.temp := rfl

@[simp] theorem Dev.emitAll_eeprom_fn (l : List Nat) (d : Dev) :
    (Dev.emitAll l d).eeprom = d.eeprom := rfl

@[simp] theorem Dev.eraseIf_ram_fn (b : Bool) (a : Nat) (d : Dev) :
    (Dev.eraseIf b a d).ram = d.ram := rfl

@[simp] theorem Dev.eraseIf_flash_fn (b : Bool) (a : Nat) (d : Dev) :
    (Dev.eraseIf b a d).flash =
      if b then (fun x => if pageBase x = pageBase a then 0xFF else d.flash x)
        else d.flash := rfl

@[simp] theorem Dev.eraseIf_temp_fn (b : Bool) (a : Nat) (d : Dev) :
    (Dev.eraseIf b a d).temp = d.temp := rfl

@[simp] theorem Dev.eraseIf_eeprom_fn (b : Bool) (a : Nat) (d : Dev) :
    (Dev.eraseIf b a d).eeprom = d.eeprom := rfl

@[simp] theorem Dev.eraseIf_true (a : Nat) (d : Dev) : d.eraseIf true a = d.erasePage a := rfl

@[simp] theorem Dev.eraseIf_false (a : Nat) (d : Dev) : d.eraseIf false a = d := rfl

/-! ## Running code: basic facts -/

@[simp] theorem pure_run {α : Type} (a : α) (inp : List Nat) (d : Dev) :
    (pure a : M α) inp d = .ok a inp d := id rfl

@[simp] theorem bind_run {α β : Type} (m : M α) (f : α → M β) (inp : List Nat) (d : Dev) :
    (m >>= f) inp d = (m inp d).andThen f := id rfl

@[simp] theorem andThen_ok {α β : Type} (a : α) (r : List Nat) (d : Dev)
    (f : α → List Nat → Dev → Res β) : (Res.ok a r d).andThen f = f a r d := id rfl

@[simp] theorem andThen_starved {α β : Type} (d : Dev)
    (f : α → List Nat → Dev → Res β) : (Res.starved d : Res α).andThen f = .starved d := id rfl

@[simp] theorem andThen_hung {α β : Type} (r : List Nat) (d : Dev)
    (f : α → List Nat → Dev → Res β) : (Res.hung r d : Res α).andThen f = .hung r d := id rfl

@[simp] theorem getDev_run (inp : List Nat) (d : Dev) : getDev inp d = .ok d inp d := id rfl

@[simp] theorem modifyDev_run (f : Dev → Dev) (inp : List Nat) (d : Dev) :
    modifyDev f inp d = .ok () inp (f d) := id rfl

@[simp] theorem hang_run {α : Type} (inp : List Nat) (d : Dev) :
    (hang : M α) inp d = .hung inp d := id rfl

@[simp] theorem getch_cons (b : Nat) (rest : List Nat) (d : Dev) :
    getch (b :: rest) d = .ok (b % 256) rest d.poll := id rfl

@[simp] theorem getch_nil (d : Dev) : getch [] d = .starved d.poll := id rfl

@[simp] theorem putch_run (ch : Nat) (inp : List Nat) (d : Dev) :
    putch ch inp d = .ok () inp (d.emit ch) := id rfl

@[simp] theorem ite_run {α : Type} (p : Prop) [Decidable p] (m n : M α) (inp : List Nat)
    (d : Dev) : (if p then m else n) inp d = if p then m inp d else n inp d := by
  split <;> rfl

@[simp] theorem wr8_mod (m : Nat → Nat) (a v : Nat) : wr8 m a (v % 256) = wr8 m a v := by
  funext x; simp [wr8]

@[simp] theorem rd8_mod (m : Nat → Nat) (a : Nat) : rd8 m a % 256 = rd8 m a := by
  simp [rd8]

theorem rd8_lt (m : Nat → Nat) (a : Nat) : rd8 m a < 256 := by
  unfold rd8; omega

@[simp] theorem emit_mod (ch : Nat) (d : Dev) : d.emit (ch % 256) = d.emit ch := by
  ext <;> simp

/-! ## Bit operations on bytes and words -/

theorem and_ff (x : Nat) : x &&& 0xff = x % 256 :=
  Nat.and_pow_two_sub_one_eq_mod x 8

theorem shr8 (x : Nat) : x >>> 8 = x / 256 :=
  Nat.shiftRight_eq_div_pow x 8

theorem lor_shl8 (a b : Nat) (h : a < 256) : a ||| (b <<< 8) = a + 256 * b := by
  have h1 : 2 ^ 8 * b + a = 2 ^ 8 * b ||| a := Nat.mul_add_lt_is_or (by omega) b
  rw [Nat.shiftLeft_eq, Nat.lor_comm, Nat.mul_comm b (2 ^ 8), ← h1]
  omega

theorem rd16_eq (m : Nat → Nat) (a : Nat) : rd16 m a = rd8 m a + 256 * rd8 m (a + 1) :=
  lor_shl8 _ _ (rd8_lt m a)

theorem vbpReadByte_lt (d : Dev) : vbpReadByte d < 256 := by
  have h1 := rd8_lt d.ram rstVectOff
  have h2 := rd8_lt d.ram (rstVectOff + 1)
  have h3 := rd8_lt d.ram wdtVectOff
  have h4 := rd8_lt d.ram (wdtVectOff + 1)
  have h5 := rd8_lt d.flash d.address
  unfold vbpReadByte
  simp only [rd16_eq, and_ff, shr8]
  split_ifs <;> omega

theorem verifySpace_run (c : Cfg) (t : Nat) (rest : List Nat) (d : Dev) :
    verifySpace c (t :: rest) d = checked c t rest d := by
  by_cases h : t % 256 = c.stk.CRC_EOP <;> simp [verifySpace, checked, synced, h]

theorem boot_page_erase_run (a : Nat) (inp : List Nat) (d : Dev) :
    boot_page_erase a inp d = .ok () inp (d.erasePage a) := id rfl

theorem boot_page_write_run (a : Nat) (inp : List Nat) (d : Dev) :
    boot_page_write a inp d = .ok () inp (d.writePage a) := id rfl

/-! ## The loops -/

theorem iterations_eq (count : Nat) (h : count < 256) :
    iterations count = if count = 0 then 256 else count := by
  unfold iterations dec8; split <;> omega

theorem doWhileDec_pure (body : Nat → M Unit) (step : Nat → Dev → Dev)
    (h : ∀ i inp d, body i inp d = .ok () inp (step i d)) :
    ∀ k i inp d, doWhileDec body i k inp d = .ok () inp (iterDev step i k d) := by
  intro k
  induction k with
  | zero => intro i inp d; simp [doWhileDec, iterDev, h]
  | succ k ih => intro i inp d; simp [doWhileDec, iterDev, h, ih]

theorem storeBytes_apply (bs : List Nat) :
    ∀ (m : Nat → Nat) (i x : Nat),
      storeBytes m i bs x =
        if i ≤ x ∧ x < i + bs.length then bs.getD (x - i) 0 % 256 else m x := by
  induction bs with
  | nil =>
    intro m i x
    have h : ¬ (i ≤ x ∧ x < i) := by omega
    simp [storeBytes, h]
  | cons b bs ih =>
    intro m i x
    simp only [storeBytes, ih, List.length_cons]
    by_cases h1 : i + 1 ≤ x ∧ x < i + 1 + bs.length
    · have h2 : i ≤ x ∧ x < i + (bs.length + 1) := by omega
      have h3 : x - i = (x - (i + 1)) + 1 := by omega
      rw [if_pos h1, if_pos h2, h3, List.getD_cons_succ]
    · rw [if_neg h1]
      by_cases h4 : x = i
      · subst h4; simp [wr8]
      · have h5 : ¬ (i ≤ x ∧ x < i + (bs.length + 1)) := by omega
        simp [wr8, h4, h5]

/-- The receive loop of `bgetNch` reads exactly `k + 1` bytes. -/
theorem skipLoop_run (k : Nat) :
    ∀ (i : Nat) (bs rest : List Nat) (d : Dev), bs.length = k + 1 →
      doWhileDec (fun _ => do let _ ← getch; pure ()) i k (bs ++ rest) d =
        .ok () rest (d.addPolls (k + 1)) := by
  induction k with
  | zero =>
    intro i bs rest d h
    match bs, h with
    | [b], _ =>
      simp only [doWhileDec, List.singleton_append, bind_run, getch_cons, andThen_ok, pure_run]
      congr 1
  | succ k ih =>
    intro i bs rest d h
    match bs, h with
    | b :: bs, h =>
      have hl : bs.length = k + 1 := by simpa using h
      simp only [doWhileDec, List.cons_append, bind_run, getch_cons, andThen_ok, pure_run,
        ih (i + 1) bs rest _ hl]
      congr 1
      ext : 1 <;> simp
      omega

/-- The payload loop of `STK_PROG_PAGE` reads exactly `k + 1` bytes and
stores them from `buff[i]` on. -/
theorem fillLoop_run (k : Nat) :
    ∀ (i : Nat) (bs rest : List Nat) (d : Dev), bs.length = k + 1 →
      doWhileDec (fun bufPtr => do
          let b ← getch
          modifyDev (Dev.storeBuff bufPtr b)) i k (bs ++ rest) d =
        .ok () rest ((d.addPolls (k + 1)).storeFrom i bs) := by
  induction k with
  | zero =>
    intro i bs rest d h
    match bs, h with
    | [b], _ =>
      simp only [doWhileDec, List.singleton_append, bind_run, getch_cons, andThen_ok,
        modifyDev_run]
      congr 1
      ext : 1 <;> simp [storeBytes]
  | succ k ih =>
    intro i bs rest d h
    match bs, h with
    | b :: bs, h =>
      have hl : bs.length = k + 1 := by simpa using h
      simp only [doWhileDec, List.cons_append, bind_run, getch_cons, andThen_ok,
        modifyDev_run, ih (i + 1) bs rest _ hl]
      congr 1
      ext : 1 <;> simp [storeBytes]
      omega

theorem fillBuff_run (length : Nat) (bs rest : List Nat) (d : Dev)
    (h : bs.length = iterations length) :
    fillBuff length (bs ++ rest) d =
      .ok () rest ((d.addPolls (iterations length)).storeFrom 0 bs) := by
  rw [fillBuff, fillLoop_run (dec8 length) 0 bs rest d h]
  rfl

/-! ## The commands without a payload loop -/

theorem getParameter_run (c : Cfg) (id t : Nat) (rest : List Nat) (d : Dev) :
    getParameter c (id :: t :: rest) d =
      (checked c t rest d.poll).andThen fun _ r d' =>
        .ok () r (d'.emit (parameterReply (id % 256))) := by
  simp only [getParameter, bind_run, getch_cons, verifySpace_run, andThen_ok]
  cases checked c t rest d.poll with
  | ok a r d' =>
    simp only [andThen_ok, parameterReply, ite_run, putch_run]
    by_cases h1 : id % 256 = 0x82
    · simp [h1]
    · by_cases h2 : id % 256 = 0x81
      · simp [h2]
      · simp [h1, h2]
  | starved d' => rfl
  | hung r d' => rfl

theorem bgetNch_run (c : Cfg) (count : Nat) (bs : List Nat) (t : Nat) (rest : List Nat)
    (d : Dev) (h : bs.length = iterations count) :
    bgetNch c count (bs ++ t :: rest) d =
      checked c t rest (d.addPolls (iterations count)) := by
  simp only [bgetNch, bind_run, skipLoop_run (dec8 count) 0 bs (t :: rest) d h,
    verifySpace_run, andThen_ok]
  rfl

theorem loadAddress_run (c : Cfg) (lo hi t : Nat) (rest : List Nat) (d : Dev) :
    loadAddress c (lo :: hi :: t :: rest) d = checked c t rest (loadedDev c lo hi d) := by
  simp only [loadAddress, bind_run, getch_cons, ite_run, modifyDev_run, pure_run,
    verifySpace_run, loadedDev, wireWord, bankBit, andThen_ok]
  by_cases h : hasRAMPZ c.mcu = true
  · simp only [h, if_true, andThen_ok]
  · simp only [h, Bool.false_eq_true, if_false, andThen_ok]

/-! ## `STK_PROG_PAGE` -/

theorem spmAddr_eq (c : Cfg) (d : Dev) : spmAddr c d = spmAt c d.address d.rampz := id rfl

theorem commitGuard_eq (c : Cfg) (d : Dev) :
    commitGuard c d = guardAt c d.address d.rampz := by
  obtain ⟨mcu, vbp, stk, s0, s1, s2⟩ := c
  cases mcu <;> exact id rfl

theorem earlyErase_run (c : Cfg) (inp : List Nat) (d : Dev) :
    earlyErase c inp d =
      .ok () inp (d.eraseIf (earlyAt c d.address d.rampz) (spmAt c d.address d.rampz)) := by
  obtain ⟨mcu, vbp, stk, s0, s1, s2⟩ := c
  cases mcu
  · simp only [earlyErase, earlyAt, bind_run, getDev_run, andThen_ok, ite_run, pure_run]
    by_cases h : d.address < NRWWSTART Mcu.atmega64 <;>
      simp [h, boot_page_erase_run, spmAddr_eq]
  · simp only [earlyErase, earlyAt, bind_run, getDev_run, andThen_ok, ite_run, pure_run]
    by_cases h : d.rampz = 0 ∨ d.address < NRWWSTART Mcu.atmega128 <;>
      simp [h, boot_page_erase_run, spmAddr_eq]
  · simp [earlyErase, earlyAt, boot_page_erase_run, spmAddr_eq]

theorem lateErase_run (c : Cfg) (inp : List Nat) (d : Dev) :
    lateErase c inp d =
      .ok () inp (d.eraseIf (lateAt c d.address d.rampz) (spmAt c d.address d.rampz)) := by
  obtain ⟨mcu, vbp, stk, s0, s1, s2⟩ := c
  cases mcu
  · simp only [lateErase, lateAt, bind_run, getDev_run, andThen_ok, ite_run, pure_run]
    by_cases h : d.address ≥ NRWWSTART Mcu.atmega64 <;>
      simp [h, boot_page_erase_run, spmAddr_eq]
  · simp only [lateErase, lateAt, bind_run, getDev_run, andThen_ok, ite_run, pure_run]
    by_cases h : d.rampz ≠ 0 ∧ d.address ≥ NRWWSTART Mcu.atmega128 <;>
      simp [h, boot_page_erase_run, spmAddr_eq]
  · simp only [lateErase, lateAt, bind_run, getDev_run, andThen_ok, ite_run, pure_run]
    by_cases h : d.rampz ≠ 0 ∧ d.address ≥ NRWWSTART Mcu.atmega2561 <;>
      simp [h, boot_page_erase_run, spmAddr_eq]

theorem iterDev_fill (c : Cfg) (a : Nat) (k : Nat) :
    ∀ (i : Nat) (d : Dev),
      iterDev (fun i d =>
          d.fillWord
            (if hasRAMPZ c.mcu then (a + 2 * i) % 65536 + 65536 * d.rampz
              else (a + 2 * i) % 65536)
            (rd16 d.ram (2 * i))) i k d =
        d.setTemp (fillTemp c a d.rampz d.ram i (k + 1) d.temp) := by
  induction k with
  | zero =>
    intro i d
    simp only [iterDev, fillTemp]
    ext : 1 <;> simp
  | succ k ih =>
    intro i d
    rw [iterDev, ih]
    conv_rhs => rw [fillTemp]
    ext : 1 <;> simp

theorem fillLoop_pure (c : Cfg) (a : Nat) (k i : Nat) (inp : List Nat) (d : Dev) :
    doWhileDec (fun i => do
        let d ← getDev
        let x := rd16 d.ram (2 * i)
        let addrPtr := (a + 2 * i) % 65536
        boot_page_fill (if hasRAMPZ c.mcu then addrPtr + 65536 * d.rampz else addrPtr) x)
      i k inp d = .ok () inp (d.setTemp (fillTemp c a d.rampz d.ram i (k + 1) d.temp)) := by
  rw [← iterDev_fill c a k i d]
  exact doWhileDec_pure _ _ (fun i inp d => rfl) _ _ _ _

theorem fillPage_run (c : Cfg) (inp : List Nat) (d : Dev) :
    fillPage c inp d = .ok () inp (d.fillAll c) := by
  simp only [fillPage, bind_run, getDev_run, andThen_ok, Dev.fillAll]
  exact fillLoop_pure c d.address _ 0 inp d

theorem eepromWriteLoop_run (n : Nat) :
    ∀ (count : Nat) (inp : List Nat) (d : Dev),
      eepromWriteLoop n count inp d =
        .ok () inp
          (((d.setEeprom (eeStore d.ram n count d.address d.eeprom)).appendEeLog
            (eeWrites d.ram n count d.address d.eeprom)).setAddress
              (advance d.address n)) := by
  induction n with
  | zero =>
    intro count inp d
    simp only [eepromWriteLoop, pure_run, eeStore, eeWrites, advance]
    congr 1
    ext : 1 <;> simp
  | succ n ih =>
    intro count inp d
    simp only [eepromWriteLoop, eeprom_write_byte_cmp, bind_run, getDev_run, andThen_ok,
      ite_run, pure_run, modifyDev_run, eeStore, eeWrites, advance]
    by_cases h : rd8 d.ram count = rd8 d.eeprom d.address
    · simp only [h, if_true, andThen_ok, modifyDev_run, ih, pure_run, bind_run]
      congr 1
    · simp only [h, if_false, andThen_ok, modifyDev_run, ih, bind_run]
      congr 1
      ext : 1 <;> simp

theorem commitPage_true (c : Cfg) (length : Nat) (inp : List Nat) (d : Dev) :
    commitPage c length true inp d = .ok () inp (committed c length 0x45 d) := by
  by_cases hm : c.mcu = .atmega2561
  · simp [commitPage, committed, hm, eepromWriteLoop_run, Dev.eeWriteAll]
  · simp [commitPage, committed, hm, eepromWriteLoop_run, Dev.eeWriteAll]

theorem commitPage_false (c : Cfg) (length tag : Nat) (inp : List Nat) (d : Dev)
    (htag : tag ≠ 0x45) :
    commitPage c length false inp d = .ok () inp (committed c length tag d) := by
  by_cases hv : c.vbp = true
  · by_cases ha : d.address = 0
    · simp [commitPage, committed, htag, hv, ha, installVectors, fillPage_run,
        boot_page_write_run, Dev.fillAll, spmAddr_eq]
    · simp [commitPage, committed, htag, hv, ha, installVectors, fillPage_run,
        boot_page_write_run, Dev.fillAll, spmAddr_eq]
  · simp [commitPage, committed, htag, hv, installVectors, fillPage_run,
      boot_page_write_run, Dev.fillAll, spmAddr_eq]

theorem progPage_run (c : Cfg) (hi length tag : Nat) (P : List Nat) (t : Nat)
    (rest : List Nat) (d : Dev) (hP : P.length = iterations (length % 256)) :
    progPage c (hi :: length :: tag :: (P ++ t :: rest)) d =
      progPageRes c (length % 256) (tag % 256) P t rest d := by
  simp only [progPage, bind_run, getch_cons, andThen_ok, ite_run, pure_run, getDev_run,
    earlyErase_run, lateErase_run, verifySpace_run, progPageRes, loadedPage]
  by_cases htag : tag % 256 = 0x45
  · simp only [htag, decide_True, Bool.true_eq_false, if_false, andThen_ok,
      fillBuff_run _ P (t :: rest) _ hP]
    simp only [bind_run, getDev_run, andThen_ok, ite_run, commitGuard_eq, lateErase_run,
      verifySpace_run, Dev.storeFrom_address, Dev.storeFrom_rampz, Dev.addPolls_address,
      Dev.addPolls_rampz, Dev.poll_address, Dev.poll_rampz, ne_eq, not_true_eq_false,
      decide_False, Bool.false_and, Dev.eraseIf_false]
    by_cases hgd : guardAt c d.address d.rampz = true
    · simp only [hgd, if_true]
      congr 1; funext x r d4; exact commitPage_true c _ r d4
    · simp only [hgd, Bool.false_eq_true, if_false]
  · have h1 : decide (tag % 256 = 69) = false := by simp [htag]
    simp only [h1, if_true, andThen_ok, fillBuff_run _ P (t :: rest) _ hP]
    simp only [bind_run, getDev_run, andThen_ok, ite_run, commitGuard_eq, lateErase_run,
      verifySpace_run, Dev.storeFrom_address, Dev.storeFrom_rampz, Dev.addPolls_address,
      Dev.addPolls_rampz, Dev.poll_address, Dev.poll_rampz, Dev.eraseIf_address,
      Dev.eraseIf_rampz, ne_eq, htag, not_false_eq_true, decide_True, Bool.true_and]
    by_cases hgd : guardAt c d.address d.rampz = true
    · simp only [hgd, if_true]
      congr 1; funext x r d4; exact commitPage_false c _ _ r d4 htag
    · simp only [hgd, Bool.false_eq_true, if_false]

/-! ## `STK_READ_PAGE` -/

theorem iterDev_read (g : Dev → Nat) (step : Nat → Dev → Dev)
    (hs : ∀ i d, step i d = (d.emitAll [g d % 256]).incAddress)
    (hg : ∀ (d : Dev) (l : List Nat) (a : Nat),
      g ((d.emitAll l).setAddress a) = g (d.setAddress a)) (k : Nat) :
    ∀ (i : Nat) (d : Dev),
      iterDev step i k d =
        (d.emitAll (readBytes (fun a => g (d.setAddress a) % 256) d.address (k + 1))).setAddress
          (advance d.address (k + 1)) := by
  induction k with
  | zero =>
    intro i d
    have h0 : d.setAddress d.address = d := by ext : 1 <;> simp
    simp only [iterDev, hs, readBytes, advance, h0]
    ext : 1 <;> simp
  | succ k ih =>
    intro i d
    have h1 : ∀ a, ((d.emitAll [g d % 256]).incAddress).setAddress a =
        (d.emitAll [g d % 256]).setAddress a := by
      intro a; ext : 1 <;> simp
    have h0 : d.setAddress d.address = d := by ext : 1 <;> simp
    have h2 : ∀ a, ((d.emitAll [g d % 256]).incAddress).setAddress a =
        (d.emitAll [g d % 256]).setAddress a := h1
    rw [iterDev, ih, hs]
    conv_rhs => rw [readBytes, advance]
    simp only [h1, hg, h0]
    ext : 1 <;> simp

theorem readLoop_run (c : Cfg) (length tag : Nat) (inp : List Nat) (d : Dev) :
    readLoop c length (decide (tag = 0x45)) inp d = .ok () inp (readDone c length tag d) := by
  have key : ∀ (g : Dev → Nat) (body : Nat → M Unit),
      (∀ i inp d, body i inp d = .ok () inp ((d.emitAll [g d % 256]).incAddress)) →
      (∀ (d : Dev) (l : List Nat) (a : Nat),
        g ((d.emitAll l).setAddress a) = g (d.setAddress a)) →
      (∀ a, g (d.setAddress a) % 256 = readByteAt c tag d a) →
      doWhileDec body 0 (dec8 length) inp d = .ok () inp (readDone c length tag d) := by
    intro g body hb hg hf
    rw [doWhileDec_pure body (fun _ d => (d.emitAll [g d % 256]).incAddress) hb]
    rw [iterDev_read g _ (fun _ _ => rfl) hg]
    have hf2 : (fun a => g (d.setAddress a) % 256) = readByteAt c tag d := funext hf
    rw [hf2]
    rfl
  unfold readLoop
  by_cases htag : tag = 0x45
  · have h1 : decide (tag = 0x45) = true := by simp [htag]
    simp only [h1, if_true, ite_run, readEeprom]
    apply key (fun d => rd8 d.eeprom d.address)
    · intro i inp d
      simp only [bind_run, getDev_run, andThen_ok, modifyDev_run, putch_run]
      congr 1
    · intro d l a; simp
    · intro a; simp [readByteAt, htag]
  · have h1 : decide (tag = 0x45) = false := by simp [htag]
    by_cases hv : c.vbp = true
    · simp only [h1, Bool.false_eq_true, if_false, ite_run, hv, if_true,
        readFlashVbp]
      apply key vbpReadByte
      · intro i inp d
        simp only [bind_run, getDev_run, andThen_ok, modifyDev_run, putch_run]
        congr 1
      · intro d l a; simp [vbpReadByte]
      · intro a
        simp [readByteAt, htag, hv, Nat.mod_eq_of_lt (vbpReadByte_lt (d.setAddress a))]
    · by_cases hr : hasRAMPZ c.mcu = true
      · simp only [h1, Bool.false_eq_true, if_false, ite_run, hv, hr, if_true,
          readFlashElpm]
        apply key (fun d => rd8 d.flash (d.address + 65536 * d.rampz))
        · intro i inp d
          simp only [bind_run, getDev_run, andThen_ok, modifyDev_run, putch_run]
          congr 1
        · intro d l a; simp
        · intro a; simp [readByteAt, htag, hv, hr]
      · simp only [h1, Bool.false_eq_true, if_false, ite_run, hv, hr,
          readFlashLpm]
        apply key (fun d => rd8 d.flash d.address)
        · intro i inp d
          simp only [bind_run, getDev_run, andThen_ok, modifyDev_run, putch_run]
          congr 1
        · intro d l a; simp
        · intro a; simp [readByteAt, htag, hv, hr]

theorem readLoop_true (c : Cfg) (length : Nat) (inp : List Nat) (d : Dev) :
    readLoop c length true inp d = .ok () inp (readDone c length 0x45 d) :=
  readLoop_run c length 0x45 inp d

theorem readLoop_false (c : Cfg) (length tag : Nat) (inp : List Nat) (d : Dev)
    (htag : tag ≠ 0x45) :
    readLoop c length false inp d = .ok () inp (readDone c length tag d) := by
  have h := readLoop_run c length tag inp d
  have h1 : decide (tag = 0x45) = false := by simp [htag]
  rwa [h1] at h

theorem readPage_run (c : Cfg) (hi length tag t : Nat) (rest : List Nat) (d : Dev) :
    readPage c (hi :: length :: tag :: t :: rest) d =
      readPageRes c (length % 256) (tag % 256) t rest d := by
  simp only [readPage, bind_run, getch_cons, andThen_ok, ite_run, pure_run, modifyDev_run,
    readPageRes, readHeader]
  by_cases htag : tag % 256 = 0x45
  · have h1 : decide (tag % 256 = 69) = true := by simp [htag]
    simp only [h1, if_true]
    by_cases hm : c.mcu = .atmega2561
    · simp only [hm, ne_eq, not_true_eq_false, if_false, andThen_ok,
        verifySpace_run, htag, and_false]
      congr 1; funext x r d2; exact readLoop_true c _ r d2
    · simp only [hm, if_true, ne_eq, not_false_eq_true, andThen_ok, verifySpace_run,
        htag, and_self]
      congr 1; funext x r d2; exact readLoop_true c _ r d2
  · have h1 : decide (tag % 256 = 69) = false := by simp [htag]
    simp only [h1, Bool.false_eq_true, if_false, andThen_ok, verifySpace_run]
    simp only [htag, false_and, if_false]
    congr 1; funext x r d2; exact readLoop_false c _ _ r d2 htag

/-! ## One command on a whole frame -/

theorem preCheck_cursor (c : Cfg) (o : Nat) (args : List Nat) (d : Dev)
    (h : o = c.stk.STK_PROG_PAGE) (h1 : o ≠ c.stk.STK_GET_PARAMETER)
    (h2 : o ≠ c.stk.STK_SET_DEVICE) (h3 : o ≠ c.stk.STK_SET_DEVICE_EXT)
    (h4 : o ≠ c.stk.STK_LOAD_ADDRESS) (h5 : o ≠ c.stk.STK_UNIVERSAL) :
    (preCheck c o args d).address = d.address ∧ (preCheck c o args d).rampz = d.rampz := by
  simp [preCheck, h1, h2, h3, h4, h5, ← h, loadedPage]

theorem dispatch_run (c : Cfg) (o : Nat) (args : List Nat) (t : Nat) (rest : List Nat)
    (d : Dev) (hlen : args.length = argCount c o args) :
    dispatch c o (args ++ t :: rest) d =
      if t % 256 = c.stk.CRC_EOP then
        .ok () rest (postCheck c o args (synced c (preCheck c o args d)))
      else .hung rest (preCheck c o args d).poll := by
  have hck : ∀ (d1 : Dev) (f : Dev → Dev),
      ((checked c t rest d1).andThen fun _ r d' => .ok () r (f d')) =
        if t % 256 = c.stk.CRC_EOP then .ok () rest (f (synced c d1))
        else (.hung rest d1.poll : Res Unit) := by
    intro d1 f
    unfold checked
    split <;> rfl
  have hck0 : ∀ (d1 : Dev), checked c t rest d1 =
        if t % 256 = c.stk.CRC_EOP then .ok () rest (synced c d1)
        else (.hung rest d1.poll : Res Unit) := fun d1 => rfl
  unfold dispatch preCheck postCheck
  unfold argCount at hlen
  by_cases h1 : o = c.stk.STK_GET_PARAMETER
  · simp only [h1, if_true] at hlen ⊢
    obtain ⟨id, rfl⟩ := List.length_eq_one.mp hlen
    simp only [List.singleton_append, getParameter_run, hck, List.getD_cons_zero]
  simp only [h1, if_false] at hlen ⊢
  by_cases h2 : o = c.stk.STK_SET_DEVICE
  · simp only [h2, if_true] at hlen ⊢
    rw [bgetNch_run c 20 args t rest d hlen, hck0]
  simp only [h2, if_false] at hlen ⊢
  by_cases h3 : o = c.stk.STK_SET_DEVICE_EXT
  · simp only [h3, if_true] at hlen ⊢
    rw [bgetNch_run c 5 args t rest d hlen, hck0]
  simp only [h3, if_false] at hlen ⊢
  by_cases h4 : o = c.stk.STK_LOAD_ADDRESS
  · simp only [h4, if_true] at hlen ⊢
    obtain ⟨lo, hi, rfl⟩ := List.length_eq_two.mp hlen
    simp only [List.cons_append, List.nil_append, loadAddress_run, List.getD_cons_zero,
      List.getD_cons_succ, hck0]
  simp only [h4, if_false] at hlen ⊢
  by_cases h5 : o = c.stk.STK_UNIVERSAL
  · simp only [h5, if_true] at hlen ⊢
    simp only [bind_run, bgetNch_run c 4 args t rest d hlen, hck0]
    split <;> simp
  simp only [h5, if_false] at hlen ⊢
  by_cases h6 : o = c.stk.STK_PROG_PAGE
  · simp only [h6, if_true] at hlen ⊢
    match args, hlen with
    | [], hlen => simp at hlen; omega
    | [_], hlen => simp at hlen; omega
    | [_, _], hlen => simp at hlen; omega
    | hi :: length :: tag :: P, hlen =>
      have hP : P.length = iterations (length % 256) := by
        simp only [List.length_cons, List.getD_cons_succ, List.getD_cons_zero] at hlen
        omega
      simp only [List.cons_append, progPage_run c hi length tag P t rest d hP, progPageRes,
        List.getD_cons_succ, List.getD_cons_zero, List.drop_succ_cons, List.drop_zero]
      by_cases hg : guardAt c d.address d.rampz = true
      · simp only [hg, if_true, Bool.true_and, hck]
        simp [synced, loadedPage, hg]
      · simp only [hg, Bool.false_eq_true, if_false, hck0]
        simp [synced, loadedPage, hg]
  simp only [h6, if_false] at hlen ⊢
  by_cases h7 : o = c.stk.STK_READ_PAGE
  · simp only [h7, if_true] at hlen ⊢
    obtain ⟨hi, length, tag, rfl⟩ := List.length_eq_three.mp hlen
    simp only [List.cons_append, List.nil_append, readPage_run, readPageRes,
      List.getD_cons_zero, List.getD_cons_succ, hck]
  simp only [h7, if_false] at hlen ⊢
  obtain rfl := List.length_eq_zero.mp hlen
  by_cases h8 : o = c.stk.STK_READ_SIGN
  · simp only [h8, if_true, List.nil_append, bind_run, verifySpace_run, hck0]
    split <;> simp
  simp only [h8, if_false]
  by_cases h9 : o = c.stk.STK_LEAVE_PROGMODE
  · simp only [h9, if_true, List.nil_append, verifySpace_run, hck0]
  · simp only [h9, if_false, List.nil_append, verifySpace_run, hck0]

theorem command_run (c : Cfg) (op : Nat) (args : List Nat) (t : Nat) (rest : List Nat)
    (d : Dev) (hlen : args.length = argCount c (op % 256) args) :
    command c (op :: (args ++ t :: rest)) d = commandRes c op args t rest d := by
  simp only [command, bind_run, getch_cons, andThen_ok, dispatch_run c _ args t rest _ hlen,
    commandRes]
  split <;> simp

/-! ## What a command sends -/

theorem readBytes_length (f : Nat → Nat) (n : Nat) : ∀ a, (readBytes f a n).length = n := by
  induction n with
  | zero => intro a; rfl
  | succ n ih => intro a; simp [readBytes, ih]

theorem readBytes_const (f : Nat → Nat) (v : Nat) (hf : ∀ a, f a = v) (n : Nat) :
    ∀ a, readBytes f a n = List.replicate n v := by
  induction n with
  | zero => intro a; rfl
  | succ n ih => intro a; simp [readBytes, ih, hf, List.replicate_succ]

theorem committed_out (c : Cfg) (length tag : Nat) (d : Dev) :
    (committed c length tag d).out = d.out := by
  unfold committed Dev.eeWriteAll Dev.fillAll
  split_ifs <;> simp

theorem preCheck_out (c : Cfg) (o : Nat) (args : List Nat) (d : Dev) :
    (preCheck c o args d).out = d.out := by
  unfold preCheck loadedDev loadedPage readHeader
  split_ifs <;> simp

theorem postCheck_out (c : Cfg) (o : Nat) (args : List Nat) (d : Dev) :
    (postCheck c o args (synced c d)).out =
      d.out ++ [c.stk.STK_INSYNC % 256] ++ replyPayload c o args d := by
  have hrb : ∀ tag, readByteAt c tag (synced c d) = readByteAt c tag d := by
    intro tag; funext a; simp [readByteAt, synced, vbpReadByte]
  unfold postCheck replyPayload
  split_ifs <;> (try simp only [readDone, hrb]) <;> simp [synced, committed_out]

theorem preCheck_polls (c : Cfg) (o : Nat) (args : List Nat) (d : Dev)
    (hlen : args.length = argCount c o args) :
    (preCheck c o args d).polls = d.polls + args.length := by
  unfold argCount at hlen
  unfold preCheck loadedDev loadedPage readHeader
  split_ifs at hlen ⊢
  all_goals simp [hlen, iterations, dec8]
  omega

/-! ## C1: a wrong terminator is answered with silence -/

/-- **C1.** For every opcode `op` and every payload `args` of the length the
command reads before its terminator check (`argCount`): if the byte `t` in the
terminator position is not `CRC_EOP`, the command ends in the endless loop of
`verifySpace` having sent nothing at all (the output is the output before the
command); if it is `CRC_EOP`, the command returns and what it has sent starts
with the in-sync byte. -/
theorem wrong_terminator_sends_nothing (c : Cfg) (d : Dev) (op : Nat) (args : List Nat)
    (t : Nat) (rest : List Nat) (hlen : args.length = argCount c (op % 256) args) :
    (t % 256 ≠ c.stk.CRC_EOP →
      ∃ d', command c (op :: (args ++ t :: rest)) d = .hung rest d' ∧ d'.out = d.out) ∧
    (t % 256 = c.stk.CRC_EOP →
      ∃ d' tail, command c (op :: (args ++ t :: rest)) d = .ok () rest d' ∧
        d'.out = d.out ++ (c.stk.STK_INSYNC % 256) :: tail) := by
  rw [command_run c op args t rest d hlen]
  unfold commandRes
  constructor
  · intro ht
    refine ⟨_, by rw [if_neg ht], ?_⟩
    simp [preCheck_out]
  · intro ht
    refine ⟨_, replyPayload c (op % 256) args (preCheck c (op % 256) args d.poll) ++
      [c.stk.STK_OK % 256], by rw [if_pos ht], ?_⟩
    simp [postCheck_out, preCheck_out]

/-- A `GET_PARAMETER` frame with a wrong terminator and one with the right
terminator, on the sample ATmega128 configuration. -/
theorem wrong_terminator_sends_nothing_witness :
    ((0x21 % 256 ≠ (cfgOf .atmega128 false).stk.CRC_EOP →
      ∃ d', command (cfgOf .atmega128 false) (0x41 :: ([0x82] ++ 0x21 :: [])) dev0 =
        .hung [] d' ∧ d'.out = dev0.out) ∧
    (0x21 % 256 = (cfgOf .atmega128 false).stk.CRC_EOP →
      ∃ d' tail, command (cfgOf .atmega128 false) (0x41 :: ([0x82] ++ 0x21 :: [])) dev0 =
        .ok () [] d' ∧
        d'.out = dev0.out ++ ((cfgOf .atmega128 false).stk.STK_INSYNC % 256) :: tail)) ∧
    0x21 % 256 ≠ (cfgOf .atmega128 false).stk.CRC_EOP :=
  ⟨wrong_terminator_sends_nothing (cfgOf .atmega128 false) dev0 0x41 [0x82] 0x21 []
    (by decide), by decide⟩

/-! ## C2: the state after a wrong terminator is absorbing -/

/-- **C2.** A command whose terminator byte `t` is not `CRC_EOP` puts the
device into a state `dh` that it never leaves: whatever bytes `further` the
host sends afterwards and however many turns `n + 1` of the command loop are
considered, the loop ends in the endless wait of `verifySpace` in that same
state `dh`, with all of `further` unread.  So nothing is sent (the output of
`dh` is the output before the command), no further command is consumed, the
receive wait that services the watchdog is never entered again (`dh` counts
only the waits for the bytes of the frame itself), and the cursor, the program
memory and the EEPROM stay those of `dh`. -/
theorem hung_state_is_absorbing (c : Cfg) (d : Dev) (op : Nat) (args : List Nat) (t : Nat)
    (hlen : args.length = argCount c (op % 256) args) (ht : t % 256 ≠ c.stk.CRC_EOP) :
    ∃ dh : Dev,
      dh.out = d.out ∧ dh.polls = d.polls + (args.length + 2) ∧
      ∀ (further : List Nat),
        command c (op :: (args ++ t :: further)) d = .hung further dh ∧
        ∀ n : Nat, mainLoop c (n + 1) (op :: (args ++ t :: further)) d = .hung further dh := by
  refine ⟨(preCheck c (op % 256) args d.poll).poll, ?_, ?_, ?_⟩
  · simp [preCheck_out]
  · simp [preCheck_polls c (op % 256) args d.poll hlen]
    omega
  · intro further
    have h : command c (op :: (args ++ t :: further)) d =
        .hung further (preCheck c (op % 256) args d.poll).poll := by
      rw [command_run c op args t further d hlen, commandRes, if_neg ht]
    refine ⟨h, fun n => ?_⟩
    simp only [mainLoop, bind_run, h, andThen_hung]

/-- A `LOAD_ADDRESS` frame with a wrong terminator on the sample ATmega128
configuration. -/
theorem hung_state_is_absorbing_witness :
    [0x34, 0x12].length = argCount (cfgOf .atmega128 false) (0x55 % 256) [0x34, 0x12] ∧
    0x00 % 256 ≠ (cfgOf .atmega128 false).stk.CRC_EOP ∧
    ∃ dh : Dev,
      dh.out = dev0.out ∧ dh.polls = dev0.polls + ([0x34, 0x12].length + 2) ∧
      ∀ (further : List Nat),
        command (cfgOf .atmega128 false) (0x55 :: ([0x34, 0x12] ++ 0x00 :: further)) dev0 =
          .hung further dh ∧
        ∀ n : Nat,
          mainLoop (cfgOf .atmega128 false) (n + 1)
            (0x55 :: ([0x34, 0x12] ++ 0x00 :: further)) dev0 = .hung further dh :=
  ⟨by decide, by decide,
    hung_state_is_absorbing (cfgOf .atmega128 false) dev0 0x55 [0x34, 0x12] 0x00
      (by decide) (by decide)⟩

/-! ## C3: the shape of a reply -/

theorem committed_polls (c : Cfg) (length tag : Nat) (d : Dev) :
    (committed c length tag d).polls = d.polls := by
  unfold committed Dev.eeWriteAll Dev.fillAll
  split_ifs <;> simp

theorem postCheck_polls (c : Cfg) (o : Nat) (args : List Nat) (d : Dev) :
    (postCheck c o args d).polls = d.polls := by
  unfold postCheck
  split_ifs <;> simp [committed_polls, readDone]

theorem replyPayload_length (c : Cfg) (o : Nat) (args : List Nat) (d : Dev) :
    (replyPayload c o args d).length = replyLength c o args := by
  unfold replyPayload replyLength
  split_ifs <;> simp [readBytes_length]

/-- **C3, counterexample.** On the sample ATmega128 configuration a
`READ_PAGE` of program memory whose two length bytes are 0, followed by the
correct terminator, is answered with the in-sync byte, 256 payload bytes (the
erased program memory reads `0xFF`) and the operation-complete byte: the reply
payload is not the zero bytes that were requested. -/
theorem read_page_of_length_zero_sends_256_bytes :
    (command (cfgOf .atmega128 false) [0x74, 0x00, 0x00, 0x46, 0x20] dev0).dev.out =
      0x14 :: (List.replicate 256 0xFF ++ [0x10]) := by
  have h := command_run (cfgOf .atmega128 false) 0x74 [0x00, 0x00, 0x46] 0x20 [] dev0
    (by decide)
  have e : (0x74 :: ([0x00, 0x00, 0x46] ++ 0x20 :: ([] : List Nat))) =
      [0x74, 0x00, 0x00, 0x46, 0x20] := rfl
  rw [e] at h
  rw [h]
  have hc : (0x20 % 256 = (cfgOf .atmega128 false).stk.CRC_EOP) := by decide
  have hf : ∀ a, readByteAt (cfgOf .atmega128 false) 0x46 dev0.poll.poll.poll.poll a = 0xFF := by
    intro a
    simp [readByteAt, cfgOf, hasRAMPZ, dev0, rd8]
  simp only [commandRes, if_pos hc, Res.dev, Dev.emit_out, postCheck_out, preCheck_out,
    Dev.poll_out]
  have hp : preCheck (cfgOf .atmega128 false) (0x74 % 256) [0x00, 0x00, 0x46] dev0.poll =
      dev0.poll.poll.poll.poll := by
    simp [preCheck, cfgOf, stk500, readHeader]
  have hr : replyPayload (cfgOf .atmega128 false) (0x74 % 256) [0x00, 0x00, 0x46]
      dev0.poll.poll.poll.poll = List.replicate 256 0xFF := by
    have h1 : replyPayload (cfgOf .atmega128 false) (0x74 % 256) [0x00, 0x00, 0x46]
        dev0.poll.poll.poll.poll =
        readBytes (readByteAt (cfgOf .atmega128 false) 0x46 dev0.poll.poll.poll.poll)
          dev0.poll.poll.poll.poll.address (iterations 0) := by
      unfold replyPayload
      rw [if_neg (by decide), if_neg (by decide), if_neg (by decide), if_neg (by decide),
        if_neg (by decide), if_neg (by decide), if_pos (by decide)]
      rfl
    rw [h1]
    exact readBytes_const _ 0xFF hf _ _
  rw [hp, hr]
  rfl

/-- **C3, amended.** For every command, known or unknown, whose frame carries
the correct terminator, the bytes sent are exactly: the in-sync byte, then the
reply payload of the command, then the operation-complete byte.  The payload
has one byte for `GET_PARAMETER` and `UNIVERSAL`, three for `READ_SIGN`, none
for the commands without a reply and, for `READ_PAGE`, one byte for each turn
of the reply loop (`iterations` of the low length byte: that byte when it is
not zero, 256 when it is zero).  The command reads each byte of its frame
once, the terminator included. -/
theorem reply_is_insync_payload_ok (c : Cfg) (d : Dev) (op : Nat) (args : List Nat) (t : Nat)
    (rest : List Nat) (hlen : args.length = argCount c (op % 256) args)
    (ht : t % 256 = c.stk.CRC_EOP) :
    ∃ d', command c (op :: (args ++ t :: rest)) d = .ok () rest d' ∧
      d'.out = d.out ++ [c.stk.STK_INSYNC % 256] ++
        replyPayload c (op % 256) args (preCheck c (op % 256) args d.poll) ++
        [c.stk.STK_OK % 256] ∧
      (replyPayload c (op % 256) args (preCheck c (op % 256) args d.poll)).length =
        replyLength c (op % 256) args ∧
      d'.polls = d.polls + (args.length + 2) := by
  refine ⟨_, by rw [command_run c op args t rest d hlen, commandRes, if_pos ht], ?_,
    replyPayload_length _ _ _ _, ?_⟩
  · simp [postCheck_out, preCheck_out]
  · simp [postCheck_polls, synced, preCheck_polls c (op % 256) args d.poll hlen]
    omega

/-- A `READ_PAGE` frame for 4 bytes of program memory on the sample ATmega128
configuration. -/
theorem reply_is_insync_payload_ok_witness :
    [0x00, 0x04, 0x46].length =
      argCount (cfgOf .atmega128 false) (0x74 % 256) [0x00, 0x04, 0x46] ∧
    0x20 % 256 = (cfgOf .atmega128 false).stk.CRC_EOP ∧
    ∃ d', command (cfgOf .atmega128 false) (0x74 :: ([0x00, 0x04, 0x46] ++ 0x20 :: [])) dev0 =
        .ok () [] d' ∧
      d'.out = dev0.out ++ [(cfgOf .atmega128 false).stk.STK_INSYNC % 256] ++
        replyPayload (cfgOf .atmega128 false) (0x74 % 256) [0x00, 0x04, 0x46]
          (preCheck (cfgOf .atmega128 false) (0x74 % 256) [0x00, 0x04, 0x46] dev0.poll) ++
        [(cfgOf .atmega128 false).stk.STK_OK % 256] ∧
      (replyPayload (cfgOf .atmega128 false) (0x74 % 256) [0x00, 0x04, 0x46]
        (preCheck (cfgOf .atmega128 false) (0x74 % 256) [0x00, 0x04, 0x46] dev0.poll)).length =
        replyLength (cfgOf .atmega128 false) (0x74 % 256) [0x00, 0x04, 0x46] ∧
      d'.polls = dev0.polls + ([0x00, 0x04, 0x46].length + 2) :=
  ⟨by decide, by decide,
    reply_is_insync_payload_ok (cfgOf .atmega128 false) dev0 0x74 [0x00, 0x04, 0x46] 0x20 []
      (by decide) (by decide)⟩

/-! ## `LOAD_ADDRESS` turns a word address into a byte address -/

theorem wireWord_eq (lo hi : Nat) : wireWord lo hi = lo % 256 + 256 * (hi % 256) := by
  unfold wireWord
  rw [and_ff, Nat.mod_mod, lor_shl8 _ _ (Nat.mod_lt _ (by omega))]
  omega

theorem and_8000_eq_zero (w : Nat) : w &&& 0x8000 = 0 ↔ w / 32768 % 2 = 0 := by
  have hb : ∀ i, (w &&& 2 ^ 15).testBit i = (w.testBit i && decide (15 = i)) := by
    intro i; rw [Nat.testBit_and, Nat.testBit_two_pow]
  have ht : w.testBit 15 = decide (w / 2 ^ 15 % 2 = 1) := Nat.testBit_to_div_mod
  constructor
  · intro h
    have h15 := hb 15
    rw [show (w &&& 2 ^ 15) = 0 from h, Nat.zero_testBit] at h15
    simp only [decide_True, Bool.and_true] at h15
    rw [ht] at h15
    have : ¬ (w / 2 ^ 15 % 2 = 1) := by simpa using h15.symm
    have e : (2 : Nat) ^ 15 = 32768 := by norm_num
    rw [e] at this
    omega
  · intro h
    have h15 : w.testBit 15 = false := by
      rw [ht]
      have e : (2 : Nat) ^ 15 = 32768 := by norm_num
      rw [e]
      simp [h]
    show w &&& 2 ^ 15 = 0
    apply Nat.zero_of_testBit_eq_false
    intro i
    rw [hb]
    by_cases hi : 15 = i
    · subst hi; simp [h15]
    · simp [hi]

theorem bankBit_eq (w : Nat) (h : w < 65536) : bankBit w = w / 32768 := by
  unfold bankBit
  by_cases hz : w &&& 0x8000 = 0
  · have := (and_8000_eq_zero w).mp hz
    rw [if_neg (by simpa using hz)]
    omega
  · have h2 : ¬ (w / 32768 % 2 = 0) := fun h' => hz ((and_8000_eq_zero w).mpr h')
    rw [if_pos hz]
    omega

theorem Stk500.WF.load_address (s : Stk500) (h : s.WF) :
    s.STK_LOAD_ADDRESS < 256 ∧ s.STK_LOAD_ADDRESS ≠ s.STK_GET_PARAMETER ∧
      s.STK_LOAD_ADDRESS ≠ s.STK_SET_DEVICE ∧ s.STK_LOAD_ADDRESS ≠ s.STK_SET_DEVICE_EXT := by
  simp only [Stk500.WF, List.pairwise_cons, List.mem_cons, List.mem_singleton] at h
  obtain ⟨⟨h1, h2, h3, -⟩, -, -, -, h4, -⟩ := h
  exact ⟨h4, (h1 _ (by simp)).symm, (h2 _ (by simp)).symm, (h3 _ (by simp)).symm⟩

/-- The state after `LOAD_ADDRESS(lo, hi)` with the correct terminator, for
`W = lo + 256 * hi`: the 16-bit cursor is the low 16 bits of `2 * W`; on the
parts with a bank register the bank bit is bit 15 of `W`, so that
`bank * 65536 + cursor = 2 * W`; on the part without a bank register the bank
is untouched; the program memory is untouched. -/
theorem loadAddress_result (c : Cfg) (hwf : c.stk.WF) (d : Dev) (lo hi t : Nat)
    (rest : List Nat) (hlo : lo < 256) (hhi : hi < 256) (ht : t % 256 = c.stk.CRC_EOP) :
    ∃ d', command c (c.stk.STK_LOAD_ADDRESS :: lo :: hi :: t :: rest) d = .ok () rest d' ∧
      d'.address = (2 * (lo + 256 * hi)) % 65536 ∧
      (hasRAMPZ c.mcu = true →
        d'.rampz = (lo + 256 * hi) / 32768 ∧
        d'.rampz * 65536 + d'.address = 2 * (lo + 256 * hi) ∧
        spmAddr c d' = 2 * (lo + 256 * hi)) ∧
      (hasRAMPZ c.mcu = false → d'.rampz = d.rampz) ∧
      d'.flash = d.flash := by
  obtain ⟨hb, n1, n2, n3⟩ := hwf.load_address
  have hop : c.stk.STK_LOAD_ADDRESS % 256 = c.stk.STK_LOAD_ADDRESS := Nat.mod_eq_of_lt hb
  have hlen : [lo, hi].length = argCount c (c.stk.STK_LOAD_ADDRESS % 256) [lo, hi] := by
    simp [argCount, hop, n1, n2, n3]
  have hrun := command_run c c.stk.STK_LOAD_ADDRESS [lo, hi] t rest d hlen
  simp only [List.cons_append, List.nil_append] at hrun
  have hw : wireWord lo hi = lo + 256 * hi := by
    rw [wireWord_eq, Nat.mod_eq_of_lt hlo, Nat.mod_eq_of_lt hhi]
  have hpre : preCheck c (c.stk.STK_LOAD_ADDRESS % 256) [lo, hi] d.poll =
      loadedDev c lo hi d.poll := by
    simp [preCheck, hop, n1, n2, n3]
  have hpost : ∀ x, postCheck c (c.stk.STK_LOAD_ADDRESS % 256) [lo, hi] x = x := by
    intro x; simp [postCheck, hop, n1, n2, n3]
  refine ⟨_, by rw [hrun, commandRes, if_pos ht], ?_, ?_, ?_, ?_⟩
  · simp only [hpre, hpost, Dev.emit_address, synced, Dev.poll_address, loadedDev,
      Dev.setAddress_address, hw]
    omega
  · intro hr
    have hbank : bankBit (lo + 256 * hi) = (lo + 256 * hi) / 32768 :=
      bankBit_eq _ (by omega)
    simp only [hpre, hpost, Dev.emit_address, Dev.emit_rampz, synced, Dev.poll_address,
      Dev.poll_rampz, loadedDev, Dev.setAddress_address, Dev.setAddress_rampz, hw, hr, if_true,
      Dev.setRampz_rampz, hbank, spmAddr]
    refine ⟨trivial, ?_, ?_⟩ <;> omega
  · intro hr
    simp [hpre, hpost, synced, loadedDev, hr]
  · simp only [hpre, hpost, synced, loadedDev, Dev.emit_flash_fn, Dev.poll_flash_fn,
      Dev.setAddress_flash_fn]
    split <;> simp

/-! ## Program-memory commands under well-formed protocol constants -/

theorem Stk500.WF.prog_page (s : Stk500) (h : s.WF) :
    s.STK_PROG_PAGE < 256 ∧ s.STK_PROG_PAGE ≠ s.STK_GET_PARAMETER ∧
      s.STK_PROG_PAGE ≠ s.STK_SET_DEVICE ∧ s.STK_PROG_PAGE ≠ s.STK_SET_DEVICE_EXT ∧
      s.STK_PROG_PAGE ≠ s.STK_LOAD_ADDRESS ∧ s.STK_PROG_PAGE ≠ s.STK_UNIVERSAL := by
  simp only [Stk500.WF, List.pairwise_cons, List.mem_cons, List.mem_singleton] at h
  obtain ⟨⟨h1, h2, h3, h4, h5, -⟩, -, -, -, -, -, hb, -⟩ := h
  exact ⟨hb, (h1 _ (by simp)).symm, (h2 _ (by simp)).symm, (h3 _ (by simp)).symm,
    (h4 _ (by simp)).symm, (h5 _ (by simp)).symm⟩

theorem Stk500.WF.read_page (s : Stk500) (h : s.WF) :
    s.STK_READ_PAGE < 256 ∧ s.STK_READ_PAGE ≠ s.STK_GET_PARAMETER ∧
      s.STK_READ_PAGE ≠ s.STK_SET_DEVICE ∧ s.STK_READ_PAGE ≠ s.STK_SET_DEVICE_EXT ∧
      s.STK_READ_PAGE ≠ s.STK_LOAD_ADDRESS ∧ s.STK_READ_PAGE ≠ s.STK_UNIVERSAL ∧
      s.STK_READ_PAGE ≠ s.STK_PROG_PAGE := by
  simp only [Stk500.WF, List.pairwise_cons, List.mem_cons, List.mem_singleton] at h
  obtain ⟨⟨h1, h2, h3, h4, h5, h6, -⟩, -, -, -, -, -, -, hb, -⟩ := h
  exact ⟨hb, (h1 _ (by simp)).symm, (h2 _ (by simp)).symm, (h3 _ (by simp)).symm,
    (h4 _ (by simp)).symm, (h5 _ (by simp)).symm, (h6 _ (by simp)).symm⟩

/-- `LOAD_ADDRESS` as a whole command. -/
theorem command_load_address (c : Cfg) (hwf : c.stk.WF) (lo hi : Nat) (rest : List Nat)
    (d : Dev) :
    command c (c.stk.STK_LOAD_ADDRESS :: lo :: hi :: c.stk.CRC_EOP :: rest) d =
      .ok () rest ((synced c (loadedDev c lo hi d.poll)).emit c.stk.STK_OK) := by
  obtain ⟨hb, n1, n2, n3⟩ := hwf.load_address
  have hop : c.stk.STK_LOAD_ADDRESS % 256 = c.stk.STK_LOAD_ADDRESS := Nat.mod_eq_of_lt hb
  have he : c.stk.CRC_EOP % 256 = c.stk.CRC_EOP := Nat.mod_eq_of_lt hwf.2.2.2.2.2.2.2.2.2.2.1
  have hlen : [lo, hi].length = argCount c (c.stk.STK_LOAD_ADDRESS % 256) [lo, hi] := by
    simp [argCount, hop, n1, n2, n3]
  have hrun := command_run c c.stk.STK_LOAD_ADDRESS [lo, hi] c.stk.CRC_EOP rest d hlen
  simp only [List.cons_append, List.nil_append] at hrun
  rw [hrun, commandRes, if_pos he]
  simp [preCheck, postCheck, hop, n1, n2, n3]

/-- `PROG_PAGE` as a whole command, when the commit guard passes. -/
theorem command_prog_page (c : Cfg) (hwf : c.stk.WF) (hi length tag : Nat) (P rest : List Nat)
    (d : Dev) (hP : P.length = iterations (length % 256))
    (hg : guardAt c d.address d.rampz = true) :
    command c (c.stk.STK_PROG_PAGE :: hi :: length :: tag :: (P ++ c.stk.CRC_EOP :: rest)) d =
      .ok () rest
        ((committed c (length % 256) (tag % 256)
          (synced c ((loadedPage c (length % 256) (tag % 256) P d.poll).eraseIf
            (lateAt c d.address d.rampz) (spmAt c d.address d.rampz)))).emit c.stk.STK_OK) := by
  obtain ⟨hb, n1, n2, n3, n4, n5⟩ := hwf.prog_page
  have hop : c.stk.STK_PROG_PAGE % 256 = c.stk.STK_PROG_PAGE := Nat.mod_eq_of_lt hb
  have he : c.stk.CRC_EOP % 256 = c.stk.CRC_EOP := Nat.mod_eq_of_lt hwf.2.2.2.2.2.2.2.2.2.2.1
  have hlen : (hi :: length :: tag :: P).length =
      argCount c (c.stk.STK_PROG_PAGE % 256) (hi :: length :: tag :: P) := by
    simp [argCount, hop, n1, n2, n3, n4, n5, hP]
    omega
  have hrun := command_run c c.stk.STK_PROG_PAGE (hi :: length :: tag :: P) c.stk.CRC_EOP rest d
    hlen
  simp only [List.cons_append] at hrun
  rw [hrun, commandRes, if_pos he]
  simp [preCheck, postCheck, hop, n1, n2, n3, n4, n5, hg, synced, loadedPage]

/-- `READ_PAGE` as a whole command. -/
theorem command_read_page (c : Cfg) (hwf : c.stk.WF) (hi length tag : Nat) (rest : List Nat)
    (d : Dev) :
    command c (c.stk.STK_READ_PAGE :: hi :: length :: tag :: c.stk.CRC_EOP :: rest) d =
      .ok () rest
        ((readDone c (length % 256) (tag % 256)
          (synced c (readHeader c (tag % 256) d.poll))).emit c.stk.STK_OK) := by
  obtain ⟨hb, n1, n2, n3, n4, n5, n6⟩ := hwf.read_page
  have hop : c.stk.STK_READ_PAGE % 256 = c.stk.STK_READ_PAGE := Nat.mod_eq_of_lt hb
  have he : c.stk.CRC_EOP % 256 = c.stk.CRC_EOP := Nat.mod_eq_of_lt hwf.2.2.2.2.2.2.2.2.2.2.1
  have hlen : [hi, length, tag].length =
      argCount c (c.stk.STK_READ_PAGE % 256) [hi, length, tag] := by
    simp [argCount, hop, n1, n2, n3, n4, n5, n6]
  have hrun := command_run c c.stk.STK_READ_PAGE [hi, length, tag] c.stk.CRC_EOP rest d hlen
  simp only [List.cons_append, List.nil_append] at hrun
  rw [hrun, commandRes, if_pos he]
  simp [preCheck, postCheck, hop, n1, n2, n3, n4, n5, n6]

/-! ## The page that a commit leaves in the program memory -/

theorem rd8_wr8 (m : Nat → Nat) (a v x : Nat) :
    rd8 (wr8 m a v) x = if x = a then v % 256 else rd8 m x := by
  unfold rd8 wr8
  split <;> simp

theorem rd16_lo (m : Nat → Nat) (a : Nat) : rd16 m a % 256 = rd8 m a := by
  have := rd8_lt m a
  rw [rd16_eq]; omega

theorem rd16_hi (m : Nat → Nat) (a : Nat) : rd16 m a / 256 % 256 = rd8 m (a + 1) := by
  have := rd8_lt m a
  have := rd8_lt m (a + 1)
  rw [rd16_eq]; omega

/-- With a page-aligned cursor the copy loop puts word `i` of `buff` at
offset `2 * i` of the programming buffer. -/
theorem fillTemp_aligned (c : Cfg) (a r : Nat) (ram : Nat → Nat) (ha : a % 256 = 0) (n : Nat) :
    ∀ (i : Nat) (temp : Nat → Nat) (o : Nat), 2 * (i + n) ≤ 256 →
      rd8 (fillTemp c a r ram i n temp) o =
        if 2 * i ≤ o ∧ o < 2 * (i + n) then rd8 ram o else rd8 temp o := by
  induction n with
  | zero =>
    intro i temp o _
    have h : ¬ (2 * i ≤ o ∧ o < 2 * (i + 0)) := by omega
    rw [fillTemp, if_neg h]
  | succ n ih =>
    intro i temp o hb
    have hoff : (if hasRAMPZ c.mcu = true then (a + 2 * i) % 65536 + 65536 * r
        else (a + 2 * i) % 65536) % SPM_PAGESIZE / 2 * 2 = 2 * i := by
      unfold SPM_PAGESIZE
      split <;> omega
    rw [fillTemp, ih (i + 1) _ o (by omega), hoff, rd8_wr8, rd8_wr8, rd16_hi, rd16_lo]
    by_cases h1 : o = 2 * i + 1
    · subst h1
      have h2 : ¬ (2 * (i + 1) ≤ 2 * i + 1 ∧ 2 * i + 1 < 2 * (i + 1 + n)) := by omega
      have h3 : 2 * i ≤ 2 * i + 1 ∧ 2 * i + 1 < 2 * (i + (n + 1)) := by omega
      rw [if_neg h2, if_pos rfl, if_pos h3]
    · by_cases h4 : o = 2 * i
      · subst h4
        have h2 : ¬ (2 * (i + 1) ≤ 2 * i ∧ 2 * i < 2 * (i + 1 + n)) := by omega
        have h3 : 2 * i ≤ 2 * i ∧ 2 * i < 2 * (i + (n + 1)) := by omega
        rw [if_neg h2, if_neg h1, if_pos rfl, if_pos h3, rd8_mod]
      · by_cases h5 : 2 * (i + 1) ≤ o ∧ o < 2 * (i + 1 + n)
        · have h3 : 2 * i ≤ o ∧ o < 2 * (i + (n + 1)) := by omega
          rw [if_pos h5, if_pos h3]
        · have h3 : ¬ (2 * i ≤ o ∧ o < 2 * (i + (n + 1))) := by omega
          rw [if_neg h5, if_neg h1, if_neg h4, if_neg h3]

/-- After the copy loop with a page-aligned cursor the programming buffer
holds the page buffer. -/
theorem fillAll_temp (c : Cfg) (d : Dev) (ha : d.address % 256 = 0) (o : Nat) (ho : o < 256) :
    rd8 (d.fillAll c).temp o = rd8 d.ram o := by
  have h := fillTemp_aligned c d.address d.rampz d.ram ha (dec8 (SPM_PAGESIZE / 2) + 1) 0
    d.temp o (by decide)
  have h2 : 2 * 0 ≤ o ∧ o < 2 * (0 + (dec8 (SPM_PAGESIZE / 2) + 1)) := by
    have : dec8 (SPM_PAGESIZE / 2) + 1 = 128 := by decide
    omega
  rw [if_pos h2] at h
  simpa [Dev.fillAll] using h

theorem pageBase_add (a i : Nat) (ha : a % 256 = 0) (hi : i < 256) :
    pageBase (a + i) = pageBase a ∧ (a + i) % SPM_PAGESIZE = i := by
  unfold pageBase SPM_PAGESIZE
  omega

/-- The bytes a read loop sends are a given list when the byte function
yields that list along the cursor and the cursor does not wrap. -/
theorem readBytes_eq_list (f : Nat → Nat) (P : List Nat) :
    ∀ a, a + P.length ≤ 65536 → (∀ i, i < P.length → f (a + i) = P.getD i 0) →
      readBytes f a P.length = P := by
  induction P with
  | nil => intro a _ _; rfl
  | cons b P ih =>
    intro a ha hf
    simp only [List.length_cons, readBytes]
    have h0 := hf 0 (by simp)
    simp only [Nat.add_zero, List.getD_cons_zero] at h0
    simp only [List.length_cons] at ha
    rw [h0]
    congr 1
    by_cases hP : P.length = 0
    · rw [hP, List.length_eq_zero.mp hP]; rfl
    · have h1 : (a + 1) % 65536 = a + 1 := Nat.mod_eq_of_lt (by omega)
      rw [h1, ih (a + 1) (by omega)]
      intro i hi
      have := hf (i + 1) (by simp; omega)
      simpa [Nat.add_assoc, Nat.add_comm 1 i] using this

theorem spmAt_aligned (c : Cfg) (a r : Nat) (ha : a % 256 = 0) : spmAt c a r % 256 = 0 := by
  unfold spmAt
  split <;> omega

/-- A program-memory commit leaves the cursor and the bank alone. -/
theorem committed_cursor (c : Cfg) (length tag : Nat) (d : Dev) (htag : tag ≠ 0x45) :
    (committed c length tag d).address = d.address ∧
      (committed c length tag d).rampz = d.rampz := by
  unfold committed Dev.fillAll
  rw [if_neg htag]
  split_ifs <;> simp

/-- A program-memory commit at a page-aligned cursor leaves the page equal to
the page buffer, which has been patched first if vector redirection is on and
the cursor is 0. -/
theorem committed_flash_any (c : Cfg) (length tag : Nat) (d : Dev)
    (htag : tag ≠ 0x45) (ha : d.address % 256 = 0) (i : Nat) (hi : i < 256) :
    rd8 (committed c length tag d).flash (spmAt c d.address d.rampz + i) =
      rd8 (if c.vbp = true ∧ d.address = 0 then d.patch else d).ram i := by
  obtain ⟨hp1, hp2⟩ := pageBase_add (spmAt c d.address d.rampz) i
    (spmAt_aligned c _ _ ha) hi
  have ha2 : (if c.vbp = true ∧ d.address = 0 then d.patch else d).address % 256 = 0 := by
    split <;> simpa using ha
  unfold committed
  rw [if_neg htag]
  simp only [Dev.writePage_flash_fn]
  show (if pageBase (spmAt c d.address d.rampz + i) = pageBase (spmAt c d.address d.rampz) then
      rd8 (Dev.fillAll c (if c.vbp = true ∧ d.address = 0 then d.patch else d)).temp
        ((spmAt c d.address d.rampz + i) % SPM_PAGESIZE)
    else (Dev.fillAll c (if c.vbp = true ∧ d.address = 0 then d.patch else d)).flash
      (spmAt c d.address d.rampz + i)) % 256 = _
  rw [if_pos hp1, hp2, rd8_mod, fillAll_temp c _ ha2 i hi]

/-- Without vector redirection, a program-memory commit at a page-aligned
cursor leaves the page equal to the page buffer. -/
theorem committed_flash_page (c : Cfg) (hv : c.vbp = false) (length tag : Nat) (d : Dev)
    (htag : tag ≠ 0x45) (ha : d.address % 256 = 0) (i : Nat) (hi : i < 256) :
    rd8 (committed c length tag d).flash (spmAt c d.address d.rampz + i) = rd8 d.ram i := by
  rw [committed_flash_any c length tag d htag ha i hi]
  simp [hv]

/-- A program-memory commit changes the data memory only by the vector
patch. -/
theorem committed_ram (c : Cfg) (length tag : Nat) (d : Dev) (htag : tag ≠ 0x45) :
    (committed c length tag d).ram =
      (if c.vbp = true ∧ d.address = 0 then d.patch else d).ram := by
  unfold committed Dev.fillAll
  rw [if_neg htag]
  simp

/-- Without vector redirection the program-memory reply loop sends the list
`P` when the program memory holds `P` from the cursor on. -/
theorem readBytes_flash (c : Cfg) (hv : c.vbp = false) (tag : Nat) (htag : tag ≠ 0x45) (d : Dev)
    (P : List Nat) (ha : d.address + P.length ≤ 65536)
    (hf : ∀ i, i < P.length → rd8 d.flash (spmAt c d.address d.rampz + i) = P.getD i 0) :
    readBytes (readByteAt c tag d) d.address P.length = P := by
  apply readBytes_eq_list _ _ _ ha
  intro i hi
  have h := hf i hi
  unfold spmAt at h
  unfold readByteAt
  rw [if_neg htag, if_neg (by simp [hv])]
  split
  · rename_i hr
    rw [if_pos hr] at h
    rw [← h]; congr 1; omega
  · rename_i hr
    rw [if_neg hr] at h
    exact h

/-! ## C5: what was programmed is what is read back -/

theorem guardAt_no_bank (c : Cfg) (h : hasRAMPZ c.mcu = false) (a r r' : Nat) :
    guardAt c a r = guardAt c a r' := by
  obtain ⟨mcu, vbp, stk, s0, s1, s2⟩ := c
  cases mcu
  · rfl
  · simp [hasRAMPZ] at h
  · simp [hasRAMPZ] at h

theorem iterations_of_length (L : Nat) (h1 : 1 ≤ L) (h2 : L ≤ 256) :
    iterations (L % 256 % 256) = L := by
  unfold iterations dec8; omega

/-- The state after `LOAD_ADDRESS(lo, hi)`: cursor and bank. -/
theorem loadedDev_cursor (c : Cfg) (lo hi : Nat) (d : Dev) (hlo : lo < 256) (hhi : hi < 256) :
    (loadedDev c lo hi d).address = (2 * (lo + 256 * hi)) % 65536 ∧
      (loadedDev c lo hi d).rampz =
        if hasRAMPZ c.mcu = true then (lo + 256 * hi) / 32768 else d.rampz := by
  have hw : wireWord lo hi = lo + 256 * hi := by
    rw [wireWord_eq, Nat.mod_eq_of_lt hlo, Nat.mod_eq_of_lt hhi]
  have hbank : bankBit (lo + 256 * hi) = (lo + 256 * hi) / 32768 := bankBit_eq _ (by omega)
  unfold loadedDev
  rw [hw, hbank]
  constructor
  · simp; omega
  · split <;> simp

/-- **C5.** Without vector redirection (`VIRTUAL_BOOT_PARTITION` not
defined): for every page-aligned byte address `2 * W`, `W = lo + 256 * hi`,
that passes the commit guard, and every payload `P` of `L` bytes,
`1 ≤ L ≤ 256`, the three commands `LOAD_ADDRESS(lo, hi)`,
`PROG_PAGE(L mod 256, 'F', P)`, `READ_PAGE(L mod 256, 'F')` all return, and
what they send is: in-sync and operation-complete for the first two, then
in-sync, exactly the bytes of `P` in order, and operation-complete. -/
theorem program_then_read_returns_payload (c : Cfg) (hwf : c.stk.WF) (hv : c.vbp = false)
    (d : Dev) (lo hi x y L : Nat) (P rest : List Nat) (hlo : lo < 256) (hhi : hi < 256)
    (halign : (2 * (lo + 256 * hi)) % 256 = 0)
    (hguard : guardAt c ((2 * (lo + 256 * hi)) % 65536) ((lo + 256 * hi) / 32768) = true)
    (hL1 : 1 ≤ L) (hL2 : L ≤ 256) (hP : P.length = L) (hbytes : ∀ b ∈ P, b < 256) :
    ∃ d', mainLoop c 3
        (c.stk.STK_LOAD_ADDRESS :: lo :: hi :: c.stk.CRC_EOP ::
          c.stk.STK_PROG_PAGE :: x :: (L % 256) :: 0x46 ::
            (P ++ c.stk.CRC_EOP ::
              c.stk.STK_READ_PAGE :: y :: (L % 256) :: 0x46 :: c.stk.CRC_EOP :: rest)) d =
          .ok () rest d' ∧
      d'.out = d.out ++ [c.stk.STK_INSYNC, c.stk.STK_OK, c.stk.STK_INSYNC, c.stk.STK_OK,
        c.stk.STK_INSYNC] ++ P ++ [c.stk.STK_OK] := by
  have hin : c.stk.STK_INSYNC % 256 = c.stk.STK_INSYNC :=
    Nat.mod_eq_of_lt hwf.2.2.2.2.2.2.2.2.2.2.2.1
  have hok : c.stk.STK_OK % 256 = c.stk.STK_OK :=
    Nat.mod_eq_of_lt hwf.2.2.2.2.2.2.2.2.2.2.2.2
  have e1 : L % 256 % 256 = L % 256 := Nat.mod_mod _ _
  have e2 : 0x46 % 256 = 0x46 := rfl
  have hit : iterations (L % 256) = L := by
    rw [← e1]; exact iterations_of_length L hL1 hL2
  have htag : (0x46 : Nat) ≠ 0x45 := by decide
  obtain ⟨hla, hlr⟩ := loadedDev_cursor c lo hi d.poll hlo hhi
  -- the three states
  have h1 := command_load_address c hwf lo hi
    (c.stk.STK_PROG_PAGE :: x :: (L % 256) :: 0x46 ::
      (P ++ c.stk.CRC_EOP ::
        c.stk.STK_READ_PAGE :: y :: (L % 256) :: 0x46 :: c.stk.CRC_EOP :: rest)) d
  generalize hd1 : (synced c (loadedDev c lo hi d.poll)).emit c.stk.STK_OK = d1 at h1
  have d1a : d1.address = (2 * (lo + 256 * hi)) % 65536 := by
    rw [← hd1]; simpa [synced] using hla
  have d1r : d1.rampz = if hasRAMPZ c.mcu = true then (lo + 256 * hi) / 32768 else d.rampz := by
    rw [← hd1]; simpa [synced] using hlr
  have d1o : d1.out = d.out ++ [c.stk.STK_INSYNC, c.stk.STK_OK] := by
    rw [← hd1]; simp [synced, loadedDev, hin, hok]
    split <;> simp
  have hg : guardAt c d1.address d1.rampz = true := by
    rw [d1a, d1r]
    by_cases hr : hasRAMPZ c.mcu = true
    · rw [if_pos hr]; exact hguard
    · rw [if_neg hr, guardAt_no_bank c (by simpa using hr) _ _ ((lo + 256 * hi) / 32768)]
      exact hguard
  have h2 := command_prog_page c hwf x (L % 256) 0x46 P
    (c.stk.STK_READ_PAGE :: y :: (L % 256) :: 0x46 :: c.stk.CRC_EOP :: rest) d1
    (by rw [e1, hit]; exact hP) hg
  simp only [e1, e2] at h2
  generalize hS2 : synced c ((loadedPage c (L % 256) 0x46 P d1.poll).eraseIf
    (lateAt c d1.address d1.rampz) (spmAt c d1.address d1.rampz)) = S2 at h2
  have S2a : S2.address = d1.address := by rw [← hS2]; simp [synced, loadedPage]
  have S2r : S2.rampz = d1.rampz := by rw [← hS2]; simp [synced, loadedPage]
  have S2ram : S2.ram = storeBytes d1.ram 0 P := by rw [← hS2]; simp [synced, loadedPage]
  have S2o : S2.out = d1.out ++ [c.stk.STK_INSYNC] := by
    rw [← hS2]; simp [synced, loadedPage, hin]
  generalize hd2 : (committed c (L % 256) 0x46 S2).emit c.stk.STK_OK = d2 at h2
  obtain ⟨c2a, c2r⟩ := committed_cursor c (L % 256) 0x46 S2 htag
  have d2a : d2.address = d1.address := by rw [← hd2]; simp [c2a, S2a]
  have d2r : d2.rampz = d1.rampz := by rw [← hd2]; simp [c2r, S2r]
  have d2o : d2.out = d1.out ++ [c.stk.STK_INSYNC, c.stk.STK_OK] := by
    rw [← hd2]; simp [committed_out, S2o, hok]
  have S2al : S2.address % 256 = 0 := by
    rw [S2a, d1a]; omega
  have d2f : ∀ i, i < P.length →
      rd8 d2.flash (spmAt c d2.address d2.rampz + i) = P.getD i 0 := by
    intro i hi
    have hc := committed_flash_page c hv (L % 256) 0x46 S2 htag S2al i
      (by omega)
    rw [S2a, S2r] at hc
    rw [d2a, d2r, ← hd2, Dev.emit_flash_fn, hc, S2ram, rd8, storeBytes_apply,
      if_pos ⟨Nat.zero_le _, by omega⟩, Nat.sub_zero, Nat.mod_mod]
    apply Nat.mod_eq_of_lt
    apply hbytes
    rw [List.getD_eq_getElem _ _ hi]
    exact List.getElem_mem _
  have h3 := command_read_page c hwf y (L % 256) 0x46 rest d2
  have hrh : readHeader c 0x46 d2.poll = d2.poll.poll.poll.poll := by
    simp [readHeader]
  simp only [e1, e2] at h3
  rw [hrh] at h3
  generalize hS3 : synced c d2.poll.poll.poll.poll = S3 at h3
  have S3a : S3.address = d2.address := by rw [← hS3]; simp [synced]
  have S3r : S3.rampz = d2.rampz := by rw [← hS3]; simp [synced]
  have S3f : S3.flash = d2.flash := by rw [← hS3]; simp [synced]
  have S3o : S3.out = d2.out ++ [c.stk.STK_INSYNC] := by rw [← hS3]; simp [synced, hin]
  have hrb : readBytes (readByteAt c 0x46 S3) S3.address P.length = P := by
    apply readBytes_flash c hv _ htag
    · rw [S3a, d2a, d1a]; omega
    · intro i hi
      rw [S3a, S3r, S3f]; exact d2f i hi
  refine ⟨(readDone c (L % 256) 0x46 S3).emit c.stk.STK_OK, ?_, ?_⟩
  · simp only [mainLoop, bind_run, h1, andThen_ok, h2, h3, pure_run]
  · have hit2 : iterations (L % 256) = P.length := by rw [hit, hP]
    simp only [Dev.emit_out, readDone, Dev.setAddress_out, Dev.emitAll_out, hit2, hrb,
      S3o, d2o, d1o, hok]
    simp

/-- The sample frame sequence of C5: page at byte address 256 of the sample
ATmega128 configuration, three payload bytes. -/
theorem program_then_read_returns_payload_witness :
    ∃ d', mainLoop (cfgOf .atmega128 false) 3
        ((cfgOf .atmega128 false).stk.STK_LOAD_ADDRESS :: 0x80 :: 0x00 ::
          (cfgOf .atmega128 false).stk.CRC_EOP ::
          (cfgOf .atmega128 false).stk.STK_PROG_PAGE :: 0 :: (3 % 256) :: 0x46 ::
            ([7, 8, 9] ++ (cfgOf .atmega128 false).stk.CRC_EOP ::
              (cfgOf .atmega128 false).stk.STK_READ_PAGE :: 0 :: (3 % 256) :: 0x46 ::
                (cfgOf .atmega128 false).stk.CRC_EOP :: [])) dev0 =
          .ok () [] d' ∧
      d'.out = dev0.out ++ [(cfgOf .atmega128 false).stk.STK_INSYNC,
        (cfgOf .atmega128 false).stk.STK_OK, (cfgOf .atmega128 false).stk.STK_INSYNC,
        (cfgOf .atmega128 false).stk.STK_OK, (cfgOf .atmega128 false).stk.STK_INSYNC] ++
        [7, 8, 9] ++ [(cfgOf .atmega128 false).stk.STK_OK] :=
  program_then_read_returns_payload (cfgOf .atmega128 false) (by decide) rfl dev0
    0x80 0x00 0 0 3 [7, 8, 9] [] (by decide) (by decide) (by decide) (by decide) (by decide)
    (by decide) (by decide) (by decide)

/-! ## C7: installing and removing the boot vector -/

/-- The data memory after the vector patch, cell by cell: the jump to the
bootloader in `buff[0..1]`, the reset vector less 4 in `buff[8..9]`, the four
original bytes in `rstVect` and `wdtVect`, and every other cell as before. -/
theorem patchVectors_apply (ram : Nat → Nat) (x : Nat) :
    patchVectors ram x =
      if x = 0 then 0x7f
      else if x = 1 then 0xce
      else if x = 8 then ((rd8 ram 0 + 256 * rd8 ram 1 + 65536 - 4) % 65536) % 256
      else if x = 9 then ((rd8 ram 0 + 256 * rd8 ram 1 + 65536 - 4) % 65536) / 256
      else if x = rstVectOff then rd8 ram 0
      else if x = rstVectOff + 1 then rd8 ram 1
      else if x = wdtVectOff then rd8 ram 8
      else if x = wdtVectOff + 1 then rd8 ram 9
      else ram x := by
  have h0 := rd8_lt ram 0
  have h1 := rd8_lt ram 1
  have h8 := rd8_lt ram 8
  have h9 := rd8_lt ram 9
  have hv : (rd8 ram 0 ||| (rd8 ram 1 <<< 8)) % 65536 = rd8 ram 0 + 256 * rd8 ram 1 := by
    rw [lor_shl8 _ _ h0]; omega
  unfold patchVectors
  simp only [hv, wr16, and_ff, shr8, rd8_wr8, rstVectOff, wdtVectOff, SPM_PAGESIZE]
  have hw : (rd8 ram 8 ||| (rd8 ram 9 <<< 8)) % 65536 = rd8 ram 8 + 256 * rd8 ram 9 := by
    rw [lor_shl8 _ _ h8]; omega
  norm_num [hw, wr8]
  split_ifs <;> omega

theorem rd8_patchVectors (ram : Nat → Nat) (x : Nat) :
    rd8 (patchVectors ram) x =
      if x = 0 then 0x7f
      else if x = 1 then 0xce
      else if x = 8 then ((rd8 ram 0 + 256 * rd8 ram 1 + 65536 - 4) % 65536) % 256
      else if x = 9 then ((rd8 ram 0 + 256 * rd8 ram 1 + 65536 - 4) % 65536) / 256
      else if x = rstVectOff then rd8 ram 0
      else if x = rstVectOff + 1 then rd8 ram 1
      else if x = wdtVectOff then rd8 ram 8
      else if x = wdtVectOff + 1 then rd8 ram 9
      else rd8 ram x := by
  have h0 := rd8_lt ram 0
  have h1 := rd8_lt ram 1
  have h8 := rd8_lt ram 8
  have h9 := rd8_lt ram 9
  rw [rd8, patchVectors_apply]
  simp only [rd8] at *
  split_ifs <;> omega

/-- The read-back substitution after the vector patch yields the four bytes
that `buff[0]`, `buff[1]`, `buff[8]` and `buff[9]` held before the patch. -/
theorem vbpReadByte_patch (d : Dev) :
    vbpReadByte (d.patch.setAddress 0) = rd8 d.ram 0 ∧
    vbpReadByte (d.patch.setAddress 1) = rd8 d.ram 1 ∧
    vbpReadByte (d.patch.setAddress 8) = rd8 d.ram 8 ∧
    vbpReadByte (d.patch.setAddress 9) = rd8 d.ram 9 := by
  have h0 := rd8_lt d.ram 0
  have h1 := rd8_lt d.ram 1
  have h8 := rd8_lt d.ram 8
  have h9 := rd8_lt d.ram 9
  have r1 : rd16 (patchVectors d.ram) rstVectOff = rd8 d.ram 0 + 256 * rd8 d.ram 1 := by
    rw [rd16_eq, rd8_patchVectors, rd8_patchVectors]
    simp [rstVectOff, wdtVectOff, SPM_PAGESIZE]
  have r2 : rd16 (patchVectors d.ram) wdtVectOff = rd8 d.ram 8 + 256 * rd8 d.ram 9 := by
    rw [rd16_eq, rd8_patchVectors, rd8_patchVectors]
    simp [rstVectOff, wdtVectOff, SPM_PAGESIZE]
  refine ⟨?_, ?_, ?_, ?_⟩ <;>
    simp only [vbpReadByte, Dev.setAddress_address, Dev.setAddress_ram_fn, Dev.patch_ram_fn,
      r1, r2, and_ff, shr8] <;>
    norm_num <;> omega

/-- **C7.** For every content of the data memory (so for every 16-bit value
in the two vector slots of the page buffer, also a reset vector below 4, for
which `vect -= 4` wraps): the install step changes the page buffer (offsets
below `SPM_PAGESIZE`) at offsets 0, 1, 8 and 9 only, its other stores going to
`rstVect` and `wdtVect`, which lie behind the page buffer; and the read-back
substitution for the addresses 0, 1, 8 and 9 then yields exactly the four
bytes the buffer held at these offsets before the install step. -/
theorem install_and_uninstall_are_inverse (d : Dev) :
    (∀ x, d.patch.ram x =
      if x = 0 then 0x7f
      else if x = 1 then 0xce
      else if x = 8 then ((rd8 d.ram 0 + 256 * rd8 d.ram 1 + 65536 - 4) % 65536) % 256
      else if x = 9 then ((rd8 d.ram 0 + 256 * rd8 d.ram 1 + 65536 - 4) % 65536) / 256
      else if x = rstVectOff then rd8 d.ram 0
      else if x = rstVectOff + 1 then rd8 d.ram 1
      else if x = wdtVectOff then rd8 d.ram 8
      else if x = wdtVectOff + 1 then rd8 d.ram 9
      else d.ram x) ∧
    SPM_PAGESIZE ≤ rstVectOff ∧ SPM_PAGESIZE ≤ wdtVectOff ∧
    vbpReadByte (d.patch.setAddress 0) = rd8 d.ram 0 ∧
    vbpReadByte (d.patch.setAddress 1) = rd8 d.ram 1 ∧
    vbpReadByte (d.patch.setAddress 8) = rd8 d.ram 8 ∧
    vbpReadByte (d.patch.setAddress 9) = rd8 d.ram 9 :=
  ⟨fun x => patchVectors_apply d.ram x, by decide, by decide, vbpReadByte_patch d⟩

/-! ## C6: the redirected page reads back as it was sent -/

/-- The byte the read loop sends under vector redirection, for a cursor `a`
inside page 0, when the data memory is the patched page buffer and the
program memory at `a` holds the patched page buffer: it is the byte the page
buffer held at `a` before the patch. -/
theorem vbp_byte_after_patch (ram : Nat → Nat) (d : Dev) (a : Nat) (ha : a < 256)
    (hram : d.ram = patchVectors ram) (hfl : rd8 d.flash a = rd8 (patchVectors ram) a)
    (haddr : d.address = a) : vbpReadByte d = rd8 ram a := by
  have h0 := rd8_lt ram 0
  have h1 := rd8_lt ram 1
  have h8 := rd8_lt ram 8
  have h9 := rd8_lt ram 9
  have r1 : rd16 (patchVectors ram) rstVectOff = rd8 ram 0 + 256 * rd8 ram 1 := by
    rw [rd16_eq, rd8_patchVectors, rd8_patchVectors]
    simp [rstVectOff, wdtVectOff, SPM_PAGESIZE]
  have r2 : rd16 (patchVectors ram) wdtVectOff = rd8 ram 8 + 256 * rd8 ram 9 := by
    rw [rd16_eq, rd8_patchVectors, rd8_patchVectors]
    simp [rstVectOff, wdtVectOff, SPM_PAGESIZE]
  have hx : rd8 (patchVectors ram) a =
      if a = 0 then 0x7f else if a = 1 then 0xce
      else if a = 8 then ((rd8 ram 0 + 256 * rd8 ram 1 + 65536 - 4) % 65536) % 256
      else if a = 9 then ((rd8 ram 0 + 256 * rd8 ram 1 + 65536 - 4) % 65536) / 256
      else rd8 ram a := by
    rw [rd8_patchVectors]
    have e1 : rstVectOff = 516 := rfl
    have e2 : wdtVectOff = 518 := rfl
    rw [e1, e2]
    split_ifs <;> first | rfl | omega
  unfold vbpReadByte
  rw [haddr, hram, r1, r2, hfl, hx, and_ff, and_ff, shr8, shr8]
  clear haddr hfl hram hx
  split_ifs with c0 c1 c8 c9
  · rw [c0]; omega
  · rw [c1]; omega
  · rw [c8]; omega
  · rw [c9]; omega
  · rfl

/-- **C6.** With vector redirection enabled, for every page-sized payload
`P` (256 bytes, length byte 0): `LOAD_ADDRESS(0)`, `PROG_PAGE(P)` and
`READ_PAGE` of the same length all return, and `READ_PAGE` replies with
exactly `P`, offsets 0-1 and 8-9 included, although the program memory now
holds the redirect jump `0x7F, 0xCE` at addresses 0-1 and the reset vector
less 4 (modulo `2^16`, low byte first) at addresses 8-9. -/
theorem redirected_page_reads_back_as_sent (c : Cfg) (hwf : c.stk.WF) (hv : c.vbp = true)
    (d : Dev) (x y : Nat) (P rest : List Nat) (hP : P.length = 256)
    (hbytes : ∀ b ∈ P, b < 256) :
    ∃ d', mainLoop c 3
        (c.stk.STK_LOAD_ADDRESS :: 0 :: 0 :: c.stk.CRC_EOP ::
          c.stk.STK_PROG_PAGE :: x :: 0 :: 0x46 ::
            (P ++ c.stk.CRC_EOP ::
              c.stk.STK_READ_PAGE :: y :: 0 :: 0x46 :: c.stk.CRC_EOP :: rest)) d =
          .ok () rest d' ∧
      d'.out = d.out ++ [c.stk.STK_INSYNC, c.stk.STK_OK, c.stk.STK_INSYNC, c.stk.STK_OK,
        c.stk.STK_INSYNC] ++ P ++ [c.stk.STK_OK] ∧
      rd8 d'.flash 0 = 0x7F ∧ rd8 d'.flash 1 = 0xCE ∧
      rd8 d'.flash 8 = ((P.getD 0 0 + 256 * P.getD 1 0 + 65536 - 4) % 65536) % 256 ∧
      rd8 d'.flash 9 = ((P.getD 0 0 + 256 * P.getD 1 0 + 65536 - 4) % 65536) / 256 := by
  have hin : c.stk.STK_INSYNC % 256 = c.stk.STK_INSYNC :=
    Nat.mod_eq_of_lt hwf.2.2.2.2.2.2.2.2.2.2.2.1
  have hok : c.stk.STK_OK % 256 = c.stk.STK_OK :=
    Nat.mod_eq_of_lt hwf.2.2.2.2.2.2.2.2.2.2.2.2
  have e1 : 0 % 256 = 0 := rfl
  have e2 : 0x46 % 256 = 0x46 := rfl
  have hit : iterations 0 = P.length := by rw [hP]; rfl
  have htag : (0x46 : Nat) ≠ 0x45 := by decide
  obtain ⟨hla, hlr⟩ := loadedDev_cursor c 0 0 d.poll (by decide) (by decide)
  have h1 := command_load_address c hwf 0 0
    (c.stk.STK_PROG_PAGE :: x :: 0 :: 0x46 ::
      (P ++ c.stk.CRC_EOP ::
        c.stk.STK_READ_PAGE :: y :: 0 :: 0x46 :: c.stk.CRC_EOP :: rest)) d
  generalize hd1 : (synced c (loadedDev c 0 0 d.poll)).emit c.stk.STK_OK = d1 at h1
  have d1a : d1.address = 0 := by
    rw [← hd1]; simpa [synced] using hla
  have d1r : d1.rampz = if hasRAMPZ c.mcu = true then 0 else d.rampz := by
    rw [← hd1]; simpa [synced] using hlr
  have d1o : d1.out = d.out ++ [c.stk.STK_INSYNC, c.stk.STK_OK] := by
    rw [← hd1]; simp [synced, loadedDev, hin, hok]
    split <;> simp
  have hspm : spmAt c d1.address d1.rampz = 0 := by
    rw [d1a, d1r]; unfold spmAt; split <;> simp [*]
  have hg : guardAt c d1.address d1.rampz = true := by
    rw [d1a, d1r]
    obtain ⟨mcu, vbp, stk, s0, s1, s2⟩ := c
    cases mcu <;> simp [guardAt, hasRAMPZ, BOOTSTART]
  have h2 := command_prog_page c hwf x 0 0x46 P
    (c.stk.STK_READ_PAGE :: y :: 0 :: 0x46 :: c.stk.CRC_EOP :: rest) d1
    (by rw [e1, hit]) hg
  simp only [e1, e2] at h2
  generalize hS2 : synced c ((loadedPage c 0 0x46 P d1.poll).eraseIf
    (lateAt c d1.address d1.rampz) (spmAt c d1.address d1.rampz)) = S2 at h2
  have S2a : S2.address = 0 := by rw [← hS2]; simp [synced, loadedPage, d1a]
  have S2r : S2.rampz = d1.rampz := by rw [← hS2]; simp [synced, loadedPage]
  have S2ram : S2.ram = storeBytes d1.ram 0 P := by rw [← hS2]; simp [synced, loadedPage]
  have S2o : S2.out = d1.out ++ [c.stk.STK_INSYNC] := by
    rw [← hS2]; simp [synced, loadedPage, hin]
  have S2b : ∀ i, i < 256 → rd8 S2.ram i = P.getD i 0 := by
    intro i hi
    rw [S2ram, rd8, storeBytes_apply, if_pos ⟨Nat.zero_le _, by omega⟩, Nat.sub_zero,
      Nat.mod_mod]
    apply Nat.mod_eq_of_lt
    apply hbytes
    rw [List.getD_eq_getElem _ _ (by omega)]
    exact List.getElem_mem _
  generalize hd2 : (committed c 0 0x46 S2).emit c.stk.STK_OK = d2 at h2
  obtain ⟨c2a, c2r⟩ := committed_cursor c 0 0x46 S2 htag
  have hpatch : (if c.vbp = true ∧ S2.address = 0 then S2.patch else S2) = S2.patch := by
    rw [if_pos ⟨hv, S2a⟩]
  have d2a : d2.address = 0 := by rw [← hd2]; simp [c2a, S2a]
  have d2o : d2.out = d1.out ++ [c.stk.STK_INSYNC, c.stk.STK_OK] := by
    rw [← hd2]; simp [committed_out, S2o, hok]
  have d2ram : d2.ram = patchVectors S2.ram := by
    rw [← hd2, Dev.emit_ram_fn, committed_ram c 0 0x46 S2 htag, hpatch, Dev.patch_ram_fn]
  have d2f : ∀ i, i < 256 → rd8 d2.flash i = rd8 (patchVectors S2.ram) i := by
    intro i hi
    have hc := committed_flash_any c 0 0x46 S2 htag (by rw [S2a]) i hi
    have hspm2 : spmAt c S2.address S2.rampz = 0 := by
      rw [S2r, ← hspm, S2a, d1a]
    rw [hpatch, hspm2, Nat.zero_add, Dev.patch_ram_fn] at hc
    rw [← hd2, Dev.emit_flash_fn, hc]
  have h3 := command_read_page c hwf y 0 0x46 rest d2
  simp only [e1, e2] at h3
  have hrh : readHeader c 0x46 d2.poll = d2.poll.poll.poll.poll := by
    simp [readHeader]
  rw [hrh] at h3
  generalize hS3 : synced c d2.poll.poll.poll.poll = S3 at h3
  have S3a : S3.address = 0 := by rw [← hS3]; simp [synced, d2a]
  have S3f : S3.flash = d2.flash := by rw [← hS3]; simp [synced]
  have S3ram : S3.ram = d2.ram := by rw [← hS3]; simp [synced]
  have S3o : S3.out = d2.out ++ [c.stk.STK_INSYNC] := by rw [← hS3]; simp [synced, hin]
  have hrb : readBytes (readByteAt c 0x46 S3) S3.address P.length = P := by
    apply readBytes_eq_list
    · rw [S3a, hP]; decide
    · intro i hi
      rw [S3a, Nat.zero_add]
      unfold readByteAt
      rw [if_neg htag, if_pos hv]
      rw [vbp_byte_after_patch S2.ram (S3.setAddress i) i (by omega)
        (by simp [S3ram, d2ram]) (by simp [S3f, d2f i (by omega)]) (by simp)]
      exact S2b i (by omega)
  refine ⟨(readDone c 0 0x46 S3).emit c.stk.STK_OK, ?_, ?_, ?_⟩
  · simp only [mainLoop, bind_run, h1, andThen_ok, h2, h3, pure_run]
  · simp only [Dev.emit_out, readDone, Dev.setAddress_out, Dev.emitAll_out, hit, hrb,
      S3o, d2o, d1o, hok]
    simp
  · have hfl : (Dev.emit c.stk.STK_OK (readDone c 0 0x46 S3)).flash = d2.flash := by
      simp [readDone, S3f]
    rw [hfl, d2f 0 (by decide), d2f 1 (by decide), d2f 8 (by decide), d2f 9 (by decide),
      rd8_patchVectors, rd8_patchVectors, rd8_patchVectors, rd8_patchVectors,
      S2b 0 (by decide), S2b 1 (by decide)]
    simp

/-- The sample page of the spec on the sample ATmega64 configuration with
vector redirection. -/
theorem redirected_page_reads_back_as_sent_witness :
    ∃ d', mainLoop (cfgOf .atmega64 true) 3
        ((cfgOf .atmega64 true).stk.STK_LOAD_ADDRESS :: 0 :: 0 ::
          (cfgOf .atmega64 true).stk.CRC_EOP ::
          (cfgOf .atmega64 true).stk.STK_PROG_PAGE :: 1 :: 0 :: 0x46 ::
            (samplePage ++ (cfgOf .atmega64 true).stk.CRC_EOP ::
              (cfgOf .atmega64 true).stk.STK_READ_PAGE :: 1 :: 0 :: 0x46 ::
                (cfgOf .atmega64 true).stk.CRC_EOP :: [])) dev0 =
          .ok () [] d' ∧
      d'.out = dev0.out ++ [(cfgOf .atmega64 true).stk.STK_INSYNC,
        (cfgOf .atmega64 true).stk.STK_OK, (cfgOf .atmega64 true).stk.STK_INSYNC,
        (cfgOf .atmega64 true).stk.STK_OK, (cfgOf .atmega64 true).stk.STK_INSYNC] ++
        samplePage ++ [(cfgOf .atmega64 true).stk.STK_OK] ∧
      rd8 d'.flash 0 = 0x7F ∧ rd8 d'.flash 1 = 0xCE ∧
      rd8 d'.flash 8 =
        ((samplePage.getD 0 0 + 256 * samplePage.getD 1 0 + 65536 - 4) % 65536) % 256 ∧
      rd8 d'.flash 9 =
        ((samplePage.getD 0 0 + 256 * samplePage.getD 1 0 + 65536 - 4) % 65536) / 256 :=
  redirected_page_reads_back_as_sent (cfgOf .atmega64 true) (by decide) rfl dev0 1 1
    samplePage []
    (by simp only [samplePage, List.length_append, List.length_replicate, List.length_cons,
      List.length_nil])
    (by
      intro b hb
      simp only [samplePage, List.mem_append, List.mem_replicate, List.mem_cons,
        List.mem_nil_iff, or_false] at hb
      omega)

/-! ## The EEPROM write loop -/

theorem advance_eq (n : Nat) : ∀ a, a < 65536 → advance a n = (a + n) % 65536 := by
  induction n with
  | zero => intro a ha; simp [advance, Nat.mod_eq_of_lt ha]
  | succ n ih =>
    intro a ha
    rw [advance, ih _ (Nat.mod_lt _ (by decide))]
    omega

theorem eeStore_other (ram : Nat → Nat) (x : Nat) (n : Nat) :
    ∀ (count a : Nat) (e : Nat → Nat), a < 65536 →
      (∀ j, j < n → x ≠ (a + j) % 65536) → eeStore ram n count a e x = e x := by
  induction n with
  | zero => intro count a e _ _; rfl
  | succ n ih =>
    intro count a e ha hx
    rw [eeStore, ih (count + 1) ((a + 1) % 65536) _ (Nat.mod_lt _ (by decide))]
    · have h0 := hx 0 (by omega)
      rw [Nat.add_zero, Nat.mod_eq_of_lt ha] at h0
      split
      · rfl
      · simp [wr8, h0]
    · intro j hj
      have := hx (j + 1) (by omega)
      intro h
      apply this
      rw [h]; omega

theorem eeStore_cell (ram : Nat → Nat) (n : Nat) :
    ∀ (count a : Nat) (e : Nat → Nat) (j : Nat), a < 65536 → n ≤ 65536 → j < n →
      rd8 (eeStore ram n count a e) ((a + j) % 65536) = rd8 ram (count + j) := by
  induction n with
  | zero => intro count a e j _ _ hj; omega
  | succ n ih =>
    intro count a e j ha hn hj
    rw [eeStore]
    cases j with
    | zero =>
      have h1 : (a + 0) % 65536 = a := by omega
      have h2 : count + 0 = count := rfl
      rw [h1, h2, rd8,
        eeStore_other ram a n (count + 1) ((a + 1) % 65536) _ (Nat.mod_lt _ (by decide))]
      · split
        · rename_i h; rw [h]; rfl
        · simp [wr8, rd8]
      · intro j hj h
        omega
    | succ j =>
      have := ih (count + 1) ((a + 1) % 65536)
        (if rd8 ram count = rd8 e a then e else wr8 e a (rd8 ram count)) j
        (Nat.mod_lt _ (by decide)) (by omega) (by omega)
      have e1 : ((a + 1) % 65536 + j) % 65536 = (a + (j + 1)) % 65536 := by omega
      have e2 : count + 1 + j = count + (j + 1) := by omega
      rw [e1, e2] at this
      exact this

theorem eeWrites_eq (ram : Nat → Nat) (n : Nat) :
    ∀ (count a : Nat) (e : Nat → Nat), a < 65536 → n ≤ 65536 →
      eeWrites ram n count a e =
        (List.range n).filterMap fun j =>
          if rd8 ram (count + j) = rd8 e ((a + j) % 65536) then none
          else some ((a + j) % 65536, rd8 ram (count + j)) := by
  induction n with
  | zero => intro count a e _ _; rfl
  | succ n ih =>
    intro count a e ha hn
    rw [eeWrites, ih (count + 1) ((a + 1) % 65536) _ (Nat.mod_lt _ (by decide)) (by omega),
      List.range_succ_eq_map, List.filterMap_cons, List.filterMap_map]
    have hcong : (List.range n).filterMap (fun j =>
          if rd8 ram (count + 1 + j) =
              rd8 (if rd8 ram count = rd8 e a then e else wr8 e a (rd8 ram count))
                (((a + 1) % 65536 + j) % 65536) then none
          else some (((a + 1) % 65536 + j) % 65536, rd8 ram (count + 1 + j))) =
        (List.range n).filterMap ((fun j =>
          if rd8 ram (count + j) = rd8 e ((a + j) % 65536) then none
          else some ((a + j) % 65536, rd8 ram (count + j))) ∘ Nat.succ) := by
      apply List.filterMap_congr
      intro j hj
      have hjn : j < n := List.mem_range.mp hj
      have e1 : ((a + 1) % 65536 + j) % 65536 = (a + (j + 1)) % 65536 := by omega
      have e2 : count + 1 + j = count + (j + 1) := by omega
      have hne : (a + (j + 1)) % 65536 ≠ a := by omega
      have e3 : rd8 (if rd8 ram count = rd8 e a then e else wr8 e a (rd8 ram count))
          ((a + (j + 1)) % 65536) = rd8 e ((a + (j + 1)) % 65536) := by
        split
        · rfl
        · simp [rd8, wr8, hne]
      simp only [Function.comp, Nat.succ_eq_add_one, e1, e2, e3]
    rw [hcong]
    simp only [Nat.add_zero, Nat.mod_eq_of_lt ha, rd8_mod]
    split <;> simp

/-! ## C8: writing the same byte twice -/

theorem eeprom_write_byte_cmp_run (dat ptr : Nat) (inp : List Nat) (d : Dev) :
    eeprom_write_byte_cmp dat ptr inp d =
      .ok () inp (if dat = rd8 d.eeprom ptr then d else d.eeWrite dat ptr) := by
  simp only [eeprom_write_byte_cmp, bind_run, getDev_run, andThen_ok, ite_run, pure_run,
    modifyDev_run]
  split <;> rfl

/-- **C8, counterexample.** On a device whose EEPROM cell 5 already holds
`0xFF`, writing `0xFF` at cell 5 and then `0xFF` at cell 5 again performs no
physical write at all, not one. -/
theorem writing_the_stored_byte_twice_writes_nothing :
    ((eeprom_write_byte_cmp 0xFF 5 >>= fun _ => eeprom_write_byte_cmp 0xFF 5) [] dev0).dev.eeLog.length
      ≠ dev0.eeLog.length + 1 := by
  decide

/-- **C8, amended.** For every EEPROM address `X` and every byte `B`:
writing `B` at `X` performs one physical write if the cell held another value
and none if it already held `B`; writing `B` at `X` again then performs no
physical write and leaves the whole state unchanged.  So the two writes
together perform at most one physical write, and the cell holds `B`. -/
theorem second_write_of_same_byte_is_skipped (d : Dev) (X B : Nat) (inp : List Nat)
    (hB : B < 256) :
    ∃ d1, eeprom_write_byte_cmp B X inp d = .ok () inp d1 ∧
      eeprom_write_byte_cmp B X inp d1 = .ok () inp d1 ∧
      d1.eeLog = d.eeLog ++ (if rd8 d.eeprom X = B then [] else [(X, B)]) ∧
      rd8 d1.eeprom X = B ∧
      (eeprom_write_byte_cmp B X >>= fun _ => eeprom_write_byte_cmp B X) inp d =
        .ok () inp d1 := by
  have key : ∀ d1 : Dev, rd8 d1.eeprom X = B → eeprom_write_byte_cmp B X inp d1 = .ok () inp d1 := by
    intro d1 h
    rw [eeprom_write_byte_cmp_run, if_pos h.symm]
  by_cases h : B = rd8 d.eeprom X
  · refine ⟨d, ?_, key d h.symm, ?_, h.symm, ?_⟩
    · rw [eeprom_write_byte_cmp_run, if_pos h]
    · simp [h.symm]
    · rw [bind_run, eeprom_write_byte_cmp_run, if_pos h, andThen_ok]
      exact key d h.symm
  · have hc : rd8 (d.eeWrite B X).eeprom X = B := by
      simp [rd8, wr8, Nat.mod_eq_of_lt hB]
    refine ⟨d.eeWrite B X, ?_, key _ hc, ?_, hc, ?_⟩
    · rw [eeprom_write_byte_cmp_run, if_neg h]
    · have h2 : ¬ rd8 d.eeprom X = B := fun e => h e.symm
      simp [h2, Nat.mod_eq_of_lt hB]
    · rw [bind_run, eeprom_write_byte_cmp_run, if_neg h, andThen_ok]
      exact key _ hc

/-- The byte `0xA5` written twice at cell 3 of a device after reset. -/
theorem second_write_of_same_byte_is_skipped_witness :
    0xA5 < 256 ∧
    ∃ d1, eeprom_write_byte_cmp 0xA5 3 [] dev0 = .ok () [] d1 ∧
      eeprom_write_byte_cmp 0xA5 3 [] d1 = .ok () [] d1 ∧
      d1.eeLog = dev0.eeLog ++ (if rd8 dev0.eeprom 3 = 0xA5 then [] else [(3, 0xA5)]) ∧
      rd8 d1.eeprom 3 = 0xA5 ∧
      (eeprom_write_byte_cmp 0xA5 3 >>= fun _ => eeprom_write_byte_cmp 0xA5 3) [] dev0 =
        .ok () [] d1 :=
  ⟨by decide, second_write_of_same_byte_is_skipped dev0 3 0xA5 [] (by decide)⟩

/-! ## C9: `PROG_PAGE` into the EEPROM -/

/-- **C9, counterexample.** On the sample ATmega2561 configuration, after
`LOAD_ADDRESS` of the word address 1, a byte-store `PROG_PAGE` of the single
byte `0xAB` leaves cell 1 as it was (`0xFF`) and puts `0xAB` into cell 2. -/
theorem eeprom_page_on_atmega2561_starts_at_twice_the_word :
    (mainLoop (cfgOf .atmega2561 false) 2
        [0x55, 0x01, 0x00, 0x20, 0x64, 0x00, 0x01, 0x45, 0xAB, 0x20] dev0).dev.eeprom 1 = 0xFF ∧
    (mainLoop (cfgOf .atmega2561 false) 2
        [0x55, 0x01, 0x00, 0x20, 0x64, 0x00, 0x01, 0x45, 0xAB, 0x20] dev0).dev.eeprom 2 = 0xAB := by
  decide

/-- `PROG_PAGE` into the EEPROM leaves the EEPROM and its write log as the
write loop leaves them, started at the cursor halved (or not, on ATmega2561). -/
theorem committed_eeprom (c : Cfg) (length : Nat) (d : Dev) :
    (committed c length 0x45 d).eeprom =
      eeStore d.ram length 0 (if c.mcu ≠ .atmega2561 then d.address >>> 1 else d.address)
        d.eeprom ∧
    (committed c length 0x45 d).eeLog =
      d.eeLog ++ eeWrites d.ram length 0
        (if c.mcu ≠ .atmega2561 then d.address >>> 1 else d.address) d.eeprom := by
  unfold committed Dev.eeWriteAll
  rw [if_pos rfl]
  split <;> simp

/-- **C9, amended.** After `LOAD_ADDRESS` of the word `W = lo + 256 * hi`
whose doubled address passes the commit guard, a `PROG_PAGE` with the
byte-store tag `'E'`, length byte `L` (any value 0..255) and a payload `P` as
long as the payload loop reads (`L` bytes, 256 if `L = 0`) returns and leaves
the EEPROM with cell `eeBase + i` (modulo `2^16`) equal to `P[i]` for every
`i < L` and every other cell unchanged, where `eeBase` is `(2 W mod 2^16) / 2`
(that is `W` for `W < 0x8000`) on ATmega64 and ATmega128 and `2 W mod 2^16` on
ATmega2561.  The physical writes performed are, in order of `i`, exactly those
at the cells `eeBase + i` whose stored byte differed from `P[i]`. -/
theorem eeprom_page_is_written_if_changed (c : Cfg) (hwf : c.stk.WF) (d : Dev)
    (lo hi x L : Nat) (P rest : List Nat) (hlo : lo < 256) (hhi : hi < 256) (hL : L < 256)
    (hP : P.length = if L = 0 then 256 else L) (hbytes : ∀ b ∈ P, b < 256)
    (hguard : guardAt c ((2 * (lo + 256 * hi)) % 65536) ((lo + 256 * hi) / 32768) = true) :
    ∃ d', mainLoop c 2
        (c.stk.STK_LOAD_ADDRESS :: lo :: hi :: c.stk.CRC_EOP ::
          c.stk.STK_PROG_PAGE :: x :: L :: 0x45 :: (P ++ c.stk.CRC_EOP :: rest)) d =
          .ok () rest d' ∧
      (∀ i, i < L → rd8 d'.eeprom ((eeBase c (lo + 256 * hi) + i) % 65536) = P.getD i 0) ∧
      (∀ a, (∀ i, i < L → a ≠ (eeBase c (lo + 256 * hi) + i) % 65536) →
        d'.eeprom a = d.eeprom a) ∧
      d'.eeLog = d.eeLog ++ (List.range L).filterMap fun i =>
        if P.getD i 0 = rd8 d.eeprom ((eeBase c (lo + 256 * hi) + i) % 65536) then none
        else some ((eeBase c (lo + 256 * hi) + i) % 65536, P.getD i 0) := by
  have e1 : L % 256 = L := Nat.mod_eq_of_lt hL
  have e2 : 0x45 % 256 = 0x45 := rfl
  have hit : P.length = iterations (L % 256) := by
    rw [hP, e1, iterations_eq L hL]
  have hLP : L ≤ P.length := by rw [hP]; split <;> omega
  obtain ⟨hla, hlr⟩ := loadedDev_cursor c lo hi d.poll hlo hhi
  have h1 := command_load_address c hwf lo hi
    (c.stk.STK_PROG_PAGE :: x :: L :: 0x45 :: (P ++ c.stk.CRC_EOP :: rest)) d
  generalize hd1 : (synced c (loadedDev c lo hi d.poll)).emit c.stk.STK_OK = d1 at h1
  have d1a : d1.address = (2 * (lo + 256 * hi)) % 65536 := by
    rw [← hd1]; simpa [synced] using hla
  have d1r : d1.rampz = if hasRAMPZ c.mcu = true then (lo + 256 * hi) / 32768 else d.rampz := by
    rw [← hd1]; simpa [synced] using hlr
  have d1e : d1.eeprom = d.eeprom := by
    rw [← hd1]; simp [synced, loadedDev]; split <;> simp
  have d1l : d1.eeLog = d.eeLog := by
    rw [← hd1]; simp [synced, loadedDev]; split <;> simp
  have hg : guardAt c d1.address d1.rampz = true := by
    rw [d1a, d1r]
    by_cases hr : hasRAMPZ c.mcu = true
    · rw [if_pos hr]; exact hguard
    · rw [if_neg hr, guardAt_no_bank c (by simpa using hr) _ _ ((lo + 256 * hi) / 32768)]
      exact hguard
  have h2 := command_prog_page c hwf x L 0x45 P rest d1 hit hg
  simp only [e1, e2] at h2
  generalize hS2 : synced c ((loadedPage c L 0x45 P d1.poll).eraseIf
    (lateAt c d1.address d1.rampz) (spmAt c d1.address d1.rampz)) = S2 at h2
  have S2a : S2.address = d1.address := by rw [← hS2]; simp [synced, loadedPage]
  have S2ram : S2.ram = storeBytes d1.ram 0 P := by rw [← hS2]; simp [synced, loadedPage]
  have S2e : S2.eeprom = d.eeprom := by rw [← hS2]; simp [synced, loadedPage, d1e]
  have S2l : S2.eeLog = d.eeLog := by rw [← hS2]; simp [synced, loadedPage, d1l]
  have S2b : ∀ i, i < L → rd8 S2.ram (0 + i) = P.getD i 0 := by
    intro i hi
    rw [Nat.zero_add, S2ram, rd8, storeBytes_apply, if_pos ⟨Nat.zero_le _, by omega⟩,
      Nat.sub_zero, Nat.mod_mod]
    apply Nat.mod_eq_of_lt
    apply hbytes
    rw [List.getD_eq_getElem _ _ (by omega)]
    exact List.getElem_mem _
  have hbase : (if c.mcu ≠ .atmega2561 then S2.address >>> 1 else S2.address) =
      eeBase c (lo + 256 * hi) := by
    rw [S2a, d1a]
    unfold eeBase
    split
    · exact Nat.shiftRight_eq_div_pow _ 1
    · rfl
  have hb65 : eeBase c (lo + 256 * hi) < 65536 := by
    unfold eeBase; split <;> omega
  obtain ⟨ce, cl⟩ := committed_eeprom c L S2
  rw [hbase, S2e] at ce
  rw [hbase, S2e, S2l] at cl
  refine ⟨(committed c L 0x45 S2).emit c.stk.STK_OK, ?_, ?_, ?_, ?_⟩
  · simp only [mainLoop, bind_run, h1, andThen_ok, h2, pure_run]
  · intro i hi
    rw [Dev.emit_eeprom_fn, ce, eeStore_cell S2.ram L 0 _ d.eeprom i hb65 (by omega) hi]
    exact S2b i hi
  · intro a ha
    rw [Dev.emit_eeprom_fn, ce, eeStore_other S2.ram a L 0 _ d.eeprom hb65 ha]
  · rw [Dev.emit_eeLog, cl, eeWrites_eq S2.ram L 0 _ d.eeprom hb65 (by omega)]
    congr 1
    apply List.filterMap_congr
    intro i hi
    rw [S2b i (List.mem_range.mp hi)]

/-- Two bytes stored at word address 1 of the EEPROM of a sample ATmega128
after reset. -/
theorem eeprom_page_is_written_if_changed_witness :
    guardAt (cfgOf .atmega128 false) 2 0 = true ∧
    ∃ d', mainLoop (cfgOf .atmega128 false) 2
        [0x55, 1, 0, 0x20, 0x64, 0, 2, 0x45, 0xAB, 0xCD, 0x20] dev0 = .ok () [] d' ∧
      rd8 d'.eeprom 1 = 0xAB ∧ rd8 d'.eeprom 2 = 0xCD ∧
      d'.eeLog = [(1, 0xAB), (2, 0xCD)] := by
  obtain ⟨d', h, hc, -, hl⟩ := eeprom_page_is_written_if_changed (cfgOf .atmega128 false)
    (by decide) dev0 1 0 0 2 [0xAB, 0xCD] [] (by decide) (by decide) (by decide) (by decide)
    (by decide) (by decide)
  refine ⟨by decide, d', h, hc 0 (by decide), hc 1 (by decide), ?_⟩
  rw [hl]
  decide

/-! ## C10: the framing of `PROG_PAGE` -/

set_option maxRecDepth 100000 in
/-- **C10, counterexample.** On the sample ATmega128 configuration a
`PROG_PAGE` frame with both length bytes 0, the tag `'E'` and the terminator
directly after the tag is not complete: the device is still waiting for
payload.  Followed by 255 more bytes, a terminator and the byte `0x99`, the
command takes the first terminator and the 255 bytes as its payload, checks the
second terminator and returns with only `0x99` unread, having called `getch`
261 times. -/
theorem prog_page_of_length_zero_reads_256_payload_bytes :
    (command (cfgOf .atmega128 false) [0x64, 0, 0, 0x45, 0x20] dev0).isStarved = true ∧
    (command (cfgOf .atmega128 false)
      (0x64 :: ([0, 0, 0x45, 0x20] ++ List.replicate 255 0 ++ 0x20 :: [0x99])) dev0).isOk = true ∧
    (command (cfgOf .atmega128 false)
      (0x64 :: ([0, 0, 0x45, 0x20] ++ List.replicate 255 0 ++ 0x20 :: [0x99])) dev0).rest = [0x99] ∧
    (command (cfgOf .atmega128 false)
      (0x64 :: ([0, 0, 0x45, 0x20] ++ List.replicate 255 0 ++ 0x20 :: [0x99])) dev0).dev.polls =
        261 := by
  have hlen : ([0, 0, 0x45, 0x20] ++ List.replicate 255 0).length =
      argCount (cfgOf .atmega128 false) (0x64 % 256) ([0, 0, 0x45, 0x20] ++ List.replicate 255 0) := by
    rfl
  rw [command_run (cfgOf .atmega128 false) 0x64 _ 0x20 [0x99] dev0 hlen]
  refine ⟨by decide, rfl, rfl, ?_⟩
  have h := preCheck_polls (cfgOf .atmega128 false) (0x64 % 256)
    ([0, 0, 0x45, 0x20] ++ List.replicate 255 0) dev0.poll hlen
  rw [commandRes, if_pos (by decide)]
  simp only [Res.dev, Dev.emit_polls, postCheck_polls, synced, Dev.poll_polls, h]
  rfl

/-- **C10, amended.** For every `PROG_PAGE` frame whose payload `P` has one
byte for each turn of the payload loop (`L mod 256` bytes for the low length
byte `L`, but 256 bytes if that is 0), for both memory kinds (any tag byte) and
any byte `t` in the terminator position: the command reads the frame and
nothing more (what follows `t` is left unread, after `P.length + 5` calls of
`getch`), returns exactly if `t` is the terminator and otherwise ends in the
endless loop, and the outcome does not depend on the high length byte. -/
theorem prog_page_reads_one_byte_per_loop_turn (c : Cfg) (hwf : c.stk.WF) (d : Dev)
    (hi hi' L tag t : Nat) (P rest : List Nat)
    (hP : P.length = if L % 256 = 0 then 256 else L % 256) :
    command c (c.stk.STK_PROG_PAGE :: hi :: L :: tag :: (P ++ t :: rest)) d =
      command c (c.stk.STK_PROG_PAGE :: hi' :: L :: tag :: (P ++ t :: rest)) d ∧
    (command c (c.stk.STK_PROG_PAGE :: hi :: L :: tag :: (P ++ t :: rest)) d).rest = rest ∧
    (command c (c.stk.STK_PROG_PAGE :: hi :: L :: tag :: (P ++ t :: rest)) d).dev.polls =
      d.polls + (P.length + 5) ∧
    ((command c (c.stk.STK_PROG_PAGE :: hi :: L :: tag :: (P ++ t :: rest)) d).isOk = true ↔
      t % 256 = c.stk.CRC_EOP) ∧
    ((command c (c.stk.STK_PROG_PAGE :: hi :: L :: tag :: (P ++ t :: rest)) d).isHung = true ↔
      t % 256 ≠ c.stk.CRC_EOP) := by
  obtain ⟨hb, n1, n2, n3, n4, n5⟩ := hwf.prog_page
  have hop : c.stk.STK_PROG_PAGE % 256 = c.stk.STK_PROG_PAGE := Nat.mod_eq_of_lt hb
  have hit : P.length = iterations (L % 256) := by
    rw [hP, iterations_eq _ (Nat.mod_lt _ (by decide))]
  have hlen : ∀ h, (h :: L :: tag :: P).length =
      argCount c (c.stk.STK_PROG_PAGE % 256) (h :: L :: tag :: P) := by
    intro h
    simp [argCount, hop, n1, n2, n3, n4, n5, hit]
    omega
  have hrun : ∀ h, command c (c.stk.STK_PROG_PAGE :: h :: L :: tag :: (P ++ t :: rest)) d =
      commandRes c c.stk.STK_PROG_PAGE (h :: L :: tag :: P) t rest d := by
    intro h
    have := command_run c c.stk.STK_PROG_PAGE (h :: L :: tag :: P) t rest d (hlen h)
    simpa only [List.cons_append] using this
  have hpre : ∀ h, preCheck c (c.stk.STK_PROG_PAGE % 256) (h :: L :: tag :: P) d.poll =
      preCheck c (c.stk.STK_PROG_PAGE % 256) (hi' :: L :: tag :: P) d.poll := by
    intro h
    simp [preCheck, hop, n1, n2, n3, n4, n5]
  have hpost : ∀ h e, postCheck c (c.stk.STK_PROG_PAGE % 256) (h :: L :: tag :: P) e =
      postCheck c (c.stk.STK_PROG_PAGE % 256) (hi' :: L :: tag :: P) e := by
    intro h e
    simp [postCheck, hop, n1, n2, n3, n4, n5]
  have hpolls := preCheck_polls c (c.stk.STK_PROG_PAGE % 256) (hi :: L :: tag :: P) d.poll (hlen hi)
  rw [hrun hi, hrun hi']
  unfold commandRes
  rw [hpre hi, hpost hi] at *
  by_cases ht : t % 256 = c.stk.CRC_EOP
  · simp only [if_pos ht, Res.rest, Res.dev, Res.isOk, Res.isHung, Dev.emit_polls,
      postCheck_polls, synced, hpolls, Dev.poll_polls, List.length_cons]
    refine ⟨trivial, trivial, by omega, by simp [ht], by simp [ht]⟩
  · simp only [if_neg ht, Res.rest, Res.dev, Res.isOk, Res.isHung, hpolls, Dev.poll_polls,
      List.length_cons]
    refine ⟨trivial, trivial, by omega, by simp [ht], by simp [ht]⟩

/-- A `PROG_PAGE` frame of two EEPROM bytes, sent with the high length bytes
`0x12` and `0x00`. -/
theorem prog_page_reads_one_byte_per_loop_turn_witness :
    [0xAB, 0xCD].length = (if 2 % 256 = 0 then 256 else 2 % 256) ∧
    command (cfgOf .atmega128 false) [0x64, 0x12, 2, 0x45, 0xAB, 0xCD, 0x20, 0x99] dev0 =
      command (cfgOf .atmega128 false) [0x64, 0x00, 2, 0x45, 0xAB, 0xCD, 0x20, 0x99] dev0 ∧
    (command (cfgOf .atmega128 false)
      [0x64, 0x12, 2, 0x45, 0xAB, 0xCD, 0x20, 0x99] dev0).rest = [0x99] ∧
    (command (cfgOf .atmega128 false)
      [0x64, 0x12, 2, 0x45, 0xAB, 0xCD, 0x20, 0x99] dev0).dev.polls = 7 ∧
    (command (cfgOf .atmega128 false)
      [0x64, 0x12, 2, 0x45, 0xAB, 0xCD, 0x20, 0x99] dev0).isOk = true := by
  obtain ⟨h1, h2, h3, h4, -⟩ := prog_page_reads_one_byte_per_loop_turn (cfgOf .atmega128 false)
    (by decide) dev0 0x12 0x00 2 0x45 0x20 [0xAB, 0xCD] [0x99] (by decide)
  exact ⟨by decide, h1, h2, h3, h4.mpr (by decide)⟩

/-! ## C11: `READ_PAGE` of program memory -/

theorem iterations_turns (L : Nat) : iterations (L % 256) = turns L := by
  unfold turns
  exact iterations_eq _ (Nat.mod_lt _ (by decide))

theorem turns_pos (L : Nat) : 1 ≤ turns L ∧ turns L ≤ 256 := by
  unfold turns
  split <;> omega

/-- The bytes of a read loop, by their position in the reply. -/
theorem readBytes_eq_map (f : Nat → Nat) (n : Nat) :
    ∀ a, a < 65536 → readBytes f a n = (List.range n).map fun i => f ((a + i) % 65536) := by
  induction n with
  | zero => intro a _; rfl
  | succ n ih =>
    intro a ha
    rw [readBytes, ih _ (Nat.mod_lt _ (by decide)), List.range_succ_eq_map, List.map_cons,
      List.map_map]
    congr 1
    · rw [Nat.add_zero, Nat.mod_eq_of_lt ha]
    · apply List.map_congr_left
      intro i _
      simp only [Function.comp]
      congr 1
      omega

/-- The byte sent for a cursor value by a `READ_PAGE` of program memory. -/
theorem readByteAt_flash (c : Cfg) (tag : Nat) (htag : tag ≠ 0x45) (d : Dev) (a : Nat) :
    readByteAt c tag d a =
      if c.vbp = true then vbpReadByte (d.setAddress a) else rd8 d.flash (spmAt c a d.rampz) := by
  unfold readByteAt spmAt
  rw [if_neg htag]
  split
  · rfl
  · split <;> rfl

/-- The state after a `READ_PAGE` whose tag is not `'E'`. -/
theorem readDone_flash (c : Cfg) (L tag : Nat) (htag : tag % 256 ≠ 0x45) (d : Dev)
    (ha : d.address < 65536) :
    (readDone c (L % 256) (tag % 256) (synced c (readHeader c (tag % 256) d.poll))).out =
      d.out ++ (c.stk.STK_INSYNC % 256) ::
        ((List.range (turns L)).map fun i =>
          if c.vbp = true then vbpReadByte (d.setAddress ((d.address + i) % 65536))
          else rd8 d.flash (spmAt c ((d.address + i) % 65536) d.rampz)) ∧
    (readDone c (L % 256) (tag % 256) (synced c (readHeader c (tag % 256) d.poll))).address =
      (d.address + turns L) % 65536 := by
  have hh : readHeader c (tag % 256) d.poll = d.poll.poll.poll.poll := by
    unfold readHeader
    rw [if_neg (fun h => htag h.1)]
  have hb : ∀ a, readByteAt c (tag % 256) (synced c d.poll.poll.poll.poll) a =
      if c.vbp = true then vbpReadByte (d.setAddress a)
      else rd8 d.flash (spmAt c a d.rampz) := by
    intro a
    rw [readByteAt_flash c _ htag]
    simp [synced, vbpReadByte]
  rw [hh]
  unfold readDone
  rw [iterations_turns]
  constructor
  · simp only [Dev.setAddress_out, Dev.emitAll_out]
    rw [readBytes_eq_map _ _ _ (by simpa [synced] using ha)]
    simp only [hb]
    simp [synced]
  · simp only [Dev.setAddress_address]
    rw [advance_eq _ _ (by simpa [synced] using ha)]
    simp [synced]

theorem Stk500.WF.eop (s : Stk500) (h : s.WF) : s.CRC_EOP % 256 = s.CRC_EOP :=
  Nat.mod_eq_of_lt h.2.2.2.2.2.2.2.2.2.2.1

/-- **C12.** For every parameter id `id` in 0..255, `GET_PARAMETER(id)`
returns and sends exactly three bytes: the in-sync byte, one reply byte and the
operation-complete byte.  The reply byte is `OPTIBOOT_MINVER` (5) for
`id = 0x82`, `OPTIBOOT_MAJVER` (4) for `id = 0x81` and `0x03` for every other
id.  The command reads its three bytes and leaves the cursor, the bank and all
memories as they were. -/
theorem get_parameter_answers_version (c : Cfg) (hwf : c.stk.WF) (d : Dev) (id : Nat)
    (rest : List Nat) (hid : id < 256) :
    ∃ d', command c (c.stk.STK_GET_PARAMETER :: id :: c.stk.CRC_EOP :: rest) d =
        .ok () rest d' ∧
      d'.out = d.out ++ [c.stk.STK_INSYNC % 256,
        (if id = 0x82 then OPTIBOOT_MINVER else if id = 0x81 then OPTIBOOT_MAJVER else 0x03),
        c.stk.STK_OK % 256] ∧
      OPTIBOOT_MINVER = 5 ∧ OPTIBOOT_MAJVER = 4 ∧
      d'.polls = d.polls + 3 ∧ d.untouched d' := by
  have hop : c.stk.STK_GET_PARAMETER % 256 = c.stk.STK_GET_PARAMETER :=
    Nat.mod_eq_of_lt hwf.2.1
  have hlen : [id].length = argCount c (c.stk.STK_GET_PARAMETER % 256) [id] := by
    simp [argCount, hop]
  have hrun := command_run c c.stk.STK_GET_PARAMETER [id] c.stk.CRC_EOP rest d hlen
  simp only [List.cons_append, List.nil_append] at hrun
  rw [commandRes, if_pos hwf.eop] at hrun
  have hpar : parameterReply (id % 256) % 256 =
      if id = 0x82 then OPTIBOOT_MINVER else if id = 0x81 then OPTIBOOT_MAJVER else 0x03 := by
    rw [Nat.mod_eq_of_lt hid]
    unfold parameterReply OPTIBOOT_MINVER OPTIBOOT_MAJVER
    split_ifs <;> rfl
  refine ⟨_, hrun, ?_, rfl, rfl, ?_, ?_⟩
  · simp [preCheck, postCheck, hop, synced, hpar]
  · simp [preCheck, postCheck, hop, synced]
  · simp [Dev.untouched, preCheck, postCheck, hop, synced]

/-- The three ids of the scenario on the sample ATmega128 configuration. -/
theorem get_parameter_answers_version_witness :
    0x55 < 256 ∧
    (∃ d', command (cfgOf .atmega128 false) [0x41, 0x82, 0x20] dev1 = .ok () [] d' ∧
      d'.out = [0x14, 5, 0x10]) ∧
    (∃ d', command (cfgOf .atmega128 false) [0x41, 0x81, 0x20] dev1 = .ok () [] d' ∧
      d'.out = [0x14, 4, 0x10]) ∧
    (∃ d', command (cfgOf .atmega128 false) [0x41, 0x55, 0x20] dev1 = .ok () [] d' ∧
      d'.out = [0x14, 3, 0x10] ∧ dev1.untouched d') := by
  obtain ⟨d1, h1, o1, -⟩ := get_parameter_answers_version (cfgOf .atmega128 false) (by decide)
    dev1 0x82 [] (by decide)
  obtain ⟨d2, h2, o2, -⟩ := get_parameter_answers_version (cfgOf .atmega128 false) (by decide)
    dev1 0x81 [] (by decide)
  obtain ⟨d3, h3, o3, -, -, -, u3⟩ := get_parameter_answers_version (cfgOf .atmega128 false)
    (by decide) dev1 0x55 [] (by decide)
  exact ⟨by decide, ⟨d1, h1, o1⟩, ⟨d2, h2, o2⟩, ⟨d3, h3, o3, u3⟩⟩

/-! ## C13: the payloads of `SET_DEVICE`, `SET_DEVICE_EXT` and `UNIVERSAL` -/

theorem Stk500.WF.discarding (s : Stk500) (h : s.WF) :
    (s.STK_SET_DEVICE < 256 ∧ s.STK_SET_DEVICE ≠ s.STK_GET_PARAMETER) ∧
    (s.STK_SET_DEVICE_EXT < 256 ∧ s.STK_SET_DEVICE_EXT ≠ s.STK_GET_PARAMETER ∧
      s.STK_SET_DEVICE_EXT ≠ s.STK_SET_DEVICE) ∧
    (s.STK_UNIVERSAL < 256 ∧ s.STK_UNIVERSAL ≠ s.STK_GET_PARAMETER ∧
      s.STK_UNIVERSAL ≠ s.STK_SET_DEVICE ∧ s.STK_UNIVERSAL ≠ s.STK_SET_DEVICE_EXT ∧
      s.STK_UNIVERSAL ≠ s.STK_LOAD_ADDRESS) := by
  simp only [Stk500.WF, List.pairwise_cons, List.mem_cons, List.mem_singleton] at h
  obtain ⟨⟨h1, h2, h3, h4, -⟩, -, b2, b3, -, b5, -⟩ := h
  exact ⟨⟨b2, (h1 _ (by simp)).symm⟩,
    ⟨b3, (h1 _ (by simp)).symm, (h2 _ (by simp)).symm⟩,
    ⟨b5, (h1 _ (by simp)).symm, (h2 _ (by simp)).symm, (h3 _ (by simp)).symm,
      (h4 _ (by simp)).symm⟩⟩

/-- `SET_DEVICE` as a whole command. -/
theorem command_set_device (c : Cfg) (hwf : c.stk.WF) (A rest : List Nat) (d : Dev)
    (hA : A.length = 20) :
    command c (c.stk.STK_SET_DEVICE :: (A ++ c.stk.CRC_EOP :: rest)) d =
      .ok () rest ((synced c (d.poll.addPolls 20)).emit c.stk.STK_OK) := by
  obtain ⟨⟨hb, n1⟩, -, -⟩ := hwf.discarding
  have hop : c.stk.STK_SET_DEVICE % 256 = c.stk.STK_SET_DEVICE := Nat.mod_eq_of_lt hb
  have hlen : A.length = argCount c (c.stk.STK_SET_DEVICE % 256) A := by
    simp [argCount, hop, n1, hA]
  rw [command_run c c.stk.STK_SET_DEVICE A c.stk.CRC_EOP rest d hlen, commandRes,
    if_pos hwf.eop]
  have hi : iterations 20 = 20 := rfl
  simp [preCheck, postCheck, hop, n1, hi]

/-- `SET_DEVICE_EXT` as a whole command. -/
theorem command_set_device_ext (c : Cfg) (hwf : c.stk.WF) (A rest : List Nat) (d : Dev)
    (hA : A.length = 5) :
    command c (c.stk.STK_SET_DEVICE_EXT :: (A ++ c.stk.CRC_EOP :: rest)) d =
      .ok () rest ((synced c (d.poll.addPolls 5)).emit c.stk.STK_OK) := by
  obtain ⟨-, ⟨hb, n1, n2⟩, -⟩ := hwf.discarding
  have hop : c.stk.STK_SET_DEVICE_EXT % 256 = c.stk.STK_SET_DEVICE_EXT := Nat.mod_eq_of_lt hb
  have hlen : A.length = argCount c (c.stk.STK_SET_DEVICE_EXT % 256) A := by
    simp [argCount, hop, n1, n2, hA]
  rw [command_run c c.stk.STK_SET_DEVICE_EXT A c.stk.CRC_EOP rest d hlen, commandRes,
    if_pos hwf.eop]
  have hi : iterations 5 = 5 := rfl
  simp [preCheck, postCheck, hop, n1, n2, hi]

/-- `UNIVERSAL` as a whole command. -/
theorem command_universal (c : Cfg) (hwf : c.stk.WF) (A rest : List Nat) (d : Dev)
    (hA : A.length = 4) :
    command c (c.stk.STK_UNIVERSAL :: (A ++ c.stk.CRC_EOP :: rest)) d =
      .ok () rest (((synced c (d.poll.addPolls 4)).emit 0x00).emit c.stk.STK_OK) := by
  obtain ⟨-, -, ⟨hb, n1, n2, n3, n4⟩⟩ := hwf.discarding
  have hop : c.stk.STK_UNIVERSAL % 256 = c.stk.STK_UNIVERSAL := Nat.mod_eq_of_lt hb
  have hlen : A.length = argCount c (c.stk.STK_UNIVERSAL % 256) A := by
    simp [argCount, hop, n1, n2, n3, n4, hA]
  rw [command_run c c.stk.STK_UNIVERSAL A c.stk.CRC_EOP rest d hlen, commandRes,
    if_pos hwf.eop]
  have hi : iterations 4 = 4 := rfl
  simp [preCheck, postCheck, hop, n1, n2, n3, n4, hi]

/-- **C13.** `SET_DEVICE` reads 20 payload bytes, `SET_DEVICE_EXT` 5 and
`UNIVERSAL` 4 before the terminator check (what follows the terminator is left
unread, after 22, 7 and 6 calls of `getch`).  For any two payloads `A` and `B`
of that length the command returns in one and the same state `d'`; it has
sent the in-sync byte and the operation-complete byte (with the byte `0x00`
between them for `UNIVERSAL`), and the cursor, the bank and all memories of
`d'` are those before the command. -/
theorem discarded_payloads_do_not_interfere (c : Cfg) (hwf : c.stk.WF) (d : Dev)
    (A B rest : List Nat) :
    (A.length = 20 → B.length = 20 →
      ∃ d', command c (c.stk.STK_SET_DEVICE :: (A ++ c.stk.CRC_EOP :: rest)) d =
          .ok () rest d' ∧
        command c (c.stk.STK_SET_DEVICE :: (B ++ c.stk.CRC_EOP :: rest)) d = .ok () rest d' ∧
        d'.out = d.out ++ [c.stk.STK_INSYNC % 256, c.stk.STK_OK % 256] ∧
        d'.polls = d.polls + 22 ∧ d.untouched d') ∧
    (A.length = 5 → B.length = 5 →
      ∃ d', command c (c.stk.STK_SET_DEVICE_EXT :: (A ++ c.stk.CRC_EOP :: rest)) d =
          .ok () rest d' ∧
        command c (c.stk.STK_SET_DEVICE_EXT :: (B ++ c.stk.CRC_EOP :: rest)) d =
          .ok () rest d' ∧
        d'.out = d.out ++ [c.stk.STK_INSYNC % 256, c.stk.STK_OK % 256] ∧
        d'.polls = d.polls + 7 ∧ d.untouched d') ∧
    (A.length = 4 → B.length = 4 →
      ∃ d', command c (c.stk.STK_UNIVERSAL :: (A ++ c.stk.CRC_EOP :: rest)) d =
          .ok () rest d' ∧
        command c (c.stk.STK_UNIVERSAL :: (B ++ c.stk.CRC_EOP :: rest)) d = .ok () rest d' ∧
        d'.out = d.out ++ [c.stk.STK_INSYNC % 256, 0x00, c.stk.STK_OK % 256] ∧
        d'.polls = d.polls + 6 ∧ d.untouched d') := by
  refine ⟨fun hA hB => ⟨_, command_set_device c hwf A rest d hA,
      command_set_device c hwf B rest d hB, ?_, ?_, ?_⟩,
    fun hA hB => ⟨_, command_set_device_ext c hwf A rest d hA,
      command_set_device_ext c hwf B rest d hB, ?_, ?_, ?_⟩,
    fun hA hB => ⟨_, command_universal c hwf A rest d hA,
      command_universal c hwf B rest d hB, ?_, ?_, ?_⟩⟩ <;>
  simp [synced, Dev.untouched]

/-- Two `UNIVERSAL` frames with different payloads on the sample ATmega128
configuration. -/
theorem discarded_payloads_do_not_interfere_witness :
    [0xAC, 0x53, 0x00, 0x00].length = 4 ∧ [0x30, 0x00, 0x01, 0x02].length = 4 ∧
    ∃ d', command (cfgOf .atmega128 false) [0x56, 0xAC, 0x53, 0x00, 0x00, 0x20, 0x99] dev1 =
        .ok () [0x99] d' ∧
      command (cfgOf .atmega128 false) [0x56, 0x30, 0x00, 0x01, 0x02, 0x20, 0x99] dev1 =
        .ok () [0x99] d' ∧
      d'.out = [0x14, 0x00, 0x10] ∧ d'.polls = 6 ∧ dev1.untouched d' :=
  ⟨rfl, rfl,
    (discarded_payloads_do_not_interfere (cfgOf .atmega128 false) (by decide) dev1
      [0xAC, 0x53, 0x00, 0x00] [0x30, 0x00, 0x01, 0x02] [0x99]).2.2 rfl rfl⟩

/-! ## C14: an unknown opcode -/

/-- **C14.** For every opcode byte `op` that is none of the nine opcodes the
loop knows, followed by the terminator: the command returns having read
exactly those two bytes, it has sent the in-sync byte and the
operation-complete byte and nothing else, the cursor, the bank and all
memories are unchanged, and the command loop goes on with the next opcode from
the resulting state. -/
theorem unknown_opcode_is_a_no_op (c : Cfg) (hwf : c.stk.WF) (d : Dev) (op : Nat)
    (rest : List Nat) (hop : op < 256)
    (hun : op ∉ [c.stk.STK_GET_PARAMETER, c.stk.STK_SET_DEVICE, c.stk.STK_SET_DEVICE_EXT,
      c.stk.STK_LOAD_ADDRESS, c.stk.STK_UNIVERSAL, c.stk.STK_PROG_PAGE, c.stk.STK_READ_PAGE,
      c.stk.STK_READ_SIGN, c.stk.STK_LEAVE_PROGMODE]) :
    ∃ d', command c (op :: c.stk.CRC_EOP :: rest) d = .ok () rest d' ∧
      d'.out = d.out ++ [c.stk.STK_INSYNC % 256, c.stk.STK_OK % 256] ∧
      d'.polls = d.polls + 2 ∧ d.untouched d' ∧
      ∀ n, mainLoop c (n + 1) (op :: c.stk.CRC_EOP :: rest) d = mainLoop c n rest d' := by
  simp only [List.mem_cons, List.mem_singleton, List.not_mem_nil, or_false, not_or] at hun
  obtain ⟨n1, n2, n3, n4, n5, n6, n7, n8, n9⟩ := hun
  have hm : op % 256 = op := Nat.mod_eq_of_lt hop
  have hlen : ([] : List Nat).length = argCount c (op % 256) [] := by
    simp [argCount, hm, n1, n2, n3, n4, n5, n6, n7]
  have hrun := command_run c op [] c.stk.CRC_EOP rest d hlen
  simp only [List.nil_append] at hrun
  rw [commandRes, if_pos hwf.eop] at hrun
  refine ⟨_, hrun, ?_, ?_, ?_, ?_⟩
  · simp [preCheck, postCheck, hm, n1, n2, n3, n4, n5, n6, n7, n8, synced]
  · simp [preCheck, postCheck, hm, n1, n2, n3, n4, n5, n6, n7, n8, synced]
  · simp [Dev.untouched, preCheck, postCheck, hm, n1, n2, n3, n4, n5, n6, n7, n8, synced]
  · intro n
    simp only [mainLoop, bind_run, hrun, andThen_ok]

/-- The opcode `0x50` (enter program mode), which the loop does not know, on
the sample ATmega128 configuration. -/
theorem unknown_opcode_is_a_no_op_witness :
    0x50 < 256 ∧
    0x50 ∉ [(cfgOf .atmega128 false).stk.STK_GET_PARAMETER,
      (cfgOf .atmega128 false).stk.STK_SET_DEVICE,
      (cfgOf .atmega128 false).stk.STK_SET_DEVICE_EXT,
      (cfgOf .atmega128 false).stk.STK_LOAD_ADDRESS,
      (cfgOf .atmega128 false).stk.STK_UNIVERSAL,
      (cfgOf .atmega128 false).stk.STK_PROG_PAGE,
      (cfgOf .atmega128 false).stk.STK_READ_PAGE,
      (cfgOf .atmega128 false).stk.STK_READ_SIGN,
      (cfgOf .atmega128 false).stk.STK_LEAVE_PROGMODE] ∧
    ∃ d', command (cfgOf .atmega128 false) [0x50, 0x20, 0x41, 0x81, 0x20] dev1 =
        .ok () [0x41, 0x81, 0x20] d' ∧
      d'.out = [0x14, 0x10] ∧ d'.polls = 2 ∧ dev1.untouched d' ∧
      ∀ n, mainLoop (cfgOf .atmega128 false) (n + 1) [0x50, 0x20, 0x41, 0x81, 0x20] dev1 =
        mainLoop (cfgOf .atmega128 false) n [0x41, 0x81, 0x20] d' :=
  ⟨by decide, by decide,
    unknown_opcode_is_a_no_op (cfgOf .atmega128 false) (by decide) dev1 0x50
      [0x41, 0x81, 0x20] (by decide) (by decide)⟩

/-! ## C15: a byte-store `PROG_PAGE` and the program memory -/

/-- **C15, failing input.** On the sample ATmega128 configuration, after
`LOAD_ADDRESS` of the word `0xF000` (bank bit 1, cursor `0xE000`), a
`PROG_PAGE` with the tag `'E'` and the one payload byte `0xAB` returns having
erased the program-memory page at `0x1E000`: the one self-programming
operation on record is that erase, and the byte at `0x1E000`, which held
`0x8D`, reads `0xFF`. -/
theorem eeprom_prog_page_in_upper_bank_erases_flash :
    (mainLoop (cfgOf .atmega128 false) 2
      [0x55, 0x00, 0xF0, 0x20, 0x64, 0x00, 0x01, 0x45, 0xAB, 0x20] dev1).isOk = true ∧
    (mainLoop (cfgOf .atmega128 false) 2
      [0x55, 0x00, 0xF0, 0x20, 0x64, 0x00, 0x01, 0x45, 0xAB, 0x20] dev1).dev.spmLog =
        [Spm.erase 0x1E000] ∧
    (mainLoop (cfgOf .atmega128 false) 2
      [0x55, 0x00, 0xF0, 0x20, 0x64, 0x00, 0x01, 0x45, 0xAB, 0x20] dev1).dev.flash 0x1E000 =
        0xFF ∧
    dev1.flash 0x1E000 = 0x8D := by
  decide

/-! ## C16: the erase that a page write is owed -/

/-- The self-programming operations of a program-memory `PROG_PAGE` that
passes the commit guard: the erase before the payload if it is due, the erase
after the payload if it is due, and the page write. -/
theorem prog_page_spmLog (c : Cfg) (hwf : c.stk.WF) (d : Dev) (hi L tag : Nat)
    (P rest : List Nat) (htag : tag % 256 ≠ 0x45) (hP : P.length = turns L)
    (hg : guardAt c d.address d.rampz = true) :
    ∃ d', command c (c.stk.STK_PROG_PAGE :: hi :: L :: tag :: (P ++ c.stk.CRC_EOP :: rest)) d =
        .ok () rest d' ∧
      d'.spmLog = d.spmLog ++
        ((if earlyAt c d.address d.rampz = true then
            [Spm.erase (pageBase (spmAt c d.address d.rampz))] else []) ++
          (if lateAt c d.address d.rampz = true then
            [Spm.erase (pageBase (spmAt c d.address d.rampz))] else []) ++
          [Spm.write (pageBase (spmAt c d.address d.rampz))]) := by
  refine ⟨_, command_prog_page c hwf hi L tag P rest d (by rw [hP, iterations_turns]) hg, ?_⟩
  unfold committed
  rw [if_neg htag]
  simp only [Dev.emit_spmLog, Dev.writePage_spmLog, Dev.fillAll, Dev.setTemp_spmLog]
  have hp : ∀ e : Dev, (if c.vbp = true ∧ e.address = 0 then e.patch else e).spmLog =
      e.spmLog := by
    intro e; split <;> rfl
  have ha : ∀ e : Dev, (if c.vbp = true ∧ e.address = 0 then e.patch else e).address =
      e.address := by
    intro e; split <;> rfl
  have hr : ∀ e : Dev, (if c.vbp = true ∧ e.address = 0 then e.patch else e).rampz =
      e.rampz := by
    intro e; split <;> rfl
  rw [hp]
  simp only [synced, loadedPage, Dev.emit_spmLog, Dev.poll_spmLog, Dev.eraseIf_spmLog,
    Dev.storeFrom_spmLog, Dev.addPolls_spmLog, Dev.emit_address, Dev.poll_address,
    Dev.eraseIf_address, Dev.storeFrom_address, Dev.addPolls_address, Dev.emit_rampz,
    Dev.poll_rampz, Dev.eraseIf_rampz, Dev.storeFrom_rampz, Dev.addPolls_rampz]
  have ht : decide (tag % 256 ≠ 0x45) = true := by simpa using htag
  rw [ht, Bool.true_and]
  cases earlyAt c d.address d.rampz <;> cases lateAt c d.address d.rampz <;> simp

/-- **C16, failing input.** On the sample ATmega2561 configuration, after
`LOAD_ADDRESS` of the word `0xF000` (bank bit 1, cursor `0xE000`), a
program-memory `PROG_PAGE` erases the page at `0x1E000` twice, before and
after the payload, and then writes it. -/
theorem page_on_atmega2561_is_erased_twice :
    ∃ d', mainLoop (cfgOf .atmega2561 false) 2
        [0x55, 0x00, 0xF0, 0x20, 0x64, 0x00, 0x01, 0x46, 0xAB, 0x20] dev1 = .ok () [] d' ∧
      d'.spmLog = [Spm.erase 0x1E000, Spm.erase 0x1E000, Spm.write 0x1E000] := by
  have h1 := command_load_address (cfgOf .atmega2561 false) (by decide) 0x00 0xF0
    [0x64, 0x00, 0x01, 0x46, 0xAB, 0x20] dev1
  obtain ⟨ha, hr⟩ := loadedDev_cursor (cfgOf .atmega2561 false) 0x00 0xF0 dev1.poll
    (by decide) (by decide)
  generalize hd1 : (synced (cfgOf .atmega2561 false)
    (loadedDev (cfgOf .atmega2561 false) 0x00 0xF0 dev1.poll)).emit
      (cfgOf .atmega2561 false).stk.STK_OK = d1 at h1
  have d1a : d1.address = 0xE000 := by
    rw [← hd1]; simpa [synced] using ha
  have d1r : d1.rampz = 1 := by
    rw [← hd1]; simpa [synced] using hr
  have d1s : d1.spmLog = [] := by
    rw [← hd1]; simp [synced, loadedDev]; split <;> rfl
  obtain ⟨d', h2, hs⟩ := prog_page_spmLog (cfgOf .atmega2561 false) (by decide) d1 0x00 0x01
    0x46 [0xAB] [] (by decide) (by decide) (by rw [d1a, d1r]; decide)
  refine ⟨d', ?_, ?_⟩
  · have h1' : command (cfgOf .atmega2561 false)
        [0x55, 0x00, 0xF0, 0x20, 0x64, 0x00, 0x01, 0x46, 0xAB, 0x20] dev1 =
        .ok () [0x64, 0x00, 0x01, 0x46, 0xAB, 0x20] d1 := h1
    have h2' : command (cfgOf .atmega2561 false) [0x64, 0x00, 0x01, 0x46, 0xAB, 0x20] d1 =
        .ok () [] d' := h2
    simp only [mainLoop, bind_run, h1', andThen_ok, h2', pure_run]
  · rw [hs, d1a, d1r, d1s]
    decide

/-- The self-programming operations of a program-memory `PROG_PAGE` that
passes the commit guard, part by part: erases of the page that contains the
address, followed by the write of that page as the last operation.  ATmega64
and ATmega128 issue exactly one erase, either the one before the payload or
the one after it.  ATmega2561 issues the one before the payload always and the
one after it as well when the bank register is not 0 and the cursor is at or
above `NRWWSTART`. -/
theorem committed_page_is_erased_first (c : Cfg) (hwf : c.stk.WF) (d : Dev) (hi L tag : Nat)
    (P rest : List Nat) (htag : tag % 256 ≠ 0x45) (hP : P.length = turns L)
    (hg : guardAt c d.address d.rampz = true) :
    ∃ d', command c (c.stk.STK_PROG_PAGE :: hi :: L :: tag :: (P ++ c.stk.CRC_EOP :: rest)) d =
        .ok () rest d' ∧
      d'.spmLog = d.spmLog ++
        (List.replicate
            (if c.mcu = .atmega2561 ∧ d.rampz ≠ 0 ∧ NRWWSTART c.mcu ≤ d.address then 2 else 1)
            (Spm.erase (pageBase (spmAt c d.address d.rampz))) ++
          [Spm.write (pageBase (spmAt c d.address d.rampz))]) := by
  obtain ⟨d', h, hs⟩ := prog_page_spmLog c hwf d hi L tag P rest htag hP hg
  refine ⟨d', h, ?_⟩
  rw [hs]
  congr 2
  obtain ⟨mcu, vbp, stk, s0, s1, s2⟩ := c
  cases mcu
  · simp only [guardAt, BOOTSTART, decide_eq_true_eq] at hg
    have e1 : earlyAt ⟨.atmega64, vbp, stk, s0, s1, s2⟩ d.address d.rampz = true := by
      simp only [earlyAt, NRWWSTART, decide_eq_true_eq]; omega
    have e2 : ¬ (lateAt ⟨.atmega64, vbp, stk, s0, s1, s2⟩ d.address d.rampz = true) := by
      simp only [lateAt, NRWWSTART, decide_eq_true_eq]; omega
    rw [if_pos e1, if_neg e2, if_neg (by simp)]
    rfl
  · by_cases hr : d.rampz = 0 ∨ d.address < 0xE000
    · have e1 : earlyAt ⟨.atmega128, vbp, stk, s0, s1, s2⟩ d.address d.rampz = true := by
        simp only [earlyAt, NRWWSTART, decide_eq_true_eq]; exact hr
      have e2 : ¬ (lateAt ⟨.atmega128, vbp, stk, s0, s1, s2⟩ d.address d.rampz = true) := by
        simp only [lateAt, NRWWSTART, decide_eq_true_eq]; omega
      rw [if_pos e1, if_neg e2, if_neg (by simp)]
      rfl
    · have e1 : ¬ (earlyAt ⟨.atmega128, vbp, stk, s0, s1, s2⟩ d.address d.rampz = true) := by
        simp only [earlyAt, NRWWSTART, decide_eq_true_eq]; exact hr
      have e2 : lateAt ⟨.atmega128, vbp, stk, s0, s1, s2⟩ d.address d.rampz = true := by
        simp only [lateAt, NRWWSTART, decide_eq_true_eq]; omega
      rw [if_neg e1, if_pos e2, if_neg (by simp)]
      rfl
  · have e1 : earlyAt ⟨.atmega2561, vbp, stk, s0, s1, s2⟩ d.address d.rampz = true := rfl
    by_cases hr : d.rampz ≠ 0 ∧ 0xE000 ≤ d.address
    · have e2 : lateAt ⟨.atmega2561, vbp, stk, s0, s1, s2⟩ d.address d.rampz = true := by
        simp only [lateAt, NRWWSTART, decide_eq_true_eq]; exact hr
      rw [if_pos e1, if_pos e2, if_pos ⟨rfl, hr⟩]
      rfl
    · have e2 : ¬ (lateAt ⟨.atmega2561, vbp, stk, s0, s1, s2⟩ d.address d.rampz = true) := by
        simp only [lateAt, NRWWSTART, decide_eq_true_eq]; exact hr
      rw [if_pos e1, if_neg e2, if_neg (by simp only [NRWWSTART]; tauto)]
      rfl

/-- A one-byte program-memory `PROG_PAGE` at cursor 0 of a device in use, on
the sample ATmega128 configuration. -/
theorem committed_page_is_erased_first_witness :
    0x46 % 256 ≠ 0x45 ∧ [0xAB].length = turns 0x01 ∧
    guardAt (cfgOf .atmega128 false) dev1.address dev1.rampz = true ∧
    ∃ d', command (cfgOf .atmega128 false) [0x64, 0x00, 0x01, 0x46, 0xAB, 0x20] dev1 =
        .ok () [] d' ∧
      d'.spmLog = [Spm.erase 0, Spm.write 0] := by
  obtain ⟨d', h, hs⟩ := committed_page_is_erased_first (cfgOf .atmega128 false) (by decide) dev1
    0x00 0x01 0x46 [0xAB] [] (by decide) (by decide) (by decide)
  refine ⟨by decide, by decide, by decide, d', h, ?_⟩
  rw [hs]
  decide

/-! ## C17: the page write commits the whole page buffer -/

/-- The state in which a program-memory `PROG_PAGE` that passes the commit
guard reaches its commit: cursor, bank and page buffer. -/
theorem loadedPage_commit (c : Cfg) (L tag : Nat) (P : List Nat) (d : Dev) (b : Bool)
    (a : Nat) :
    (synced c ((loadedPage c L tag P d.poll).eraseIf b a)).address = d.address ∧
    (synced c ((loadedPage c L tag P d.poll).eraseIf b a)).rampz = d.rampz ∧
    (synced c ((loadedPage c L tag P d.poll).eraseIf b a)).ram = storeBytes d.ram 0 P := by
  simp [synced, loadedPage]

/-- The erases of `PROG_PAGE` leave the other pages alone. -/
theorem loadedPage_flash_other (c : Cfg) (L tag : Nat) (P : List Nat) (d : Dev) (b : Bool)
    (x : Nat) (hx : pageBase x ≠ pageBase (spmAt c d.address d.rampz)) :
    (synced c ((loadedPage c L tag P d.poll).eraseIf b (spmAt c d.address d.rampz))).flash x =
      d.flash x := by
  simp only [synced, loadedPage, Dev.emit_flash_fn, Dev.poll_flash_fn, Dev.eraseIf_flash,
    Dev.storeFrom_flash_fn, Dev.addPolls_flash_fn, Dev.poll_address, Dev.poll_rampz]
  cases b <;> cases (decide (tag ≠ 0x45) && earlyAt c d.address d.rampz) <;> simp [hx]

/-- A page write leaves the other pages alone. -/
theorem committed_flash_other (c : Cfg) (length tag : Nat) (d : Dev) (htag : tag ≠ 0x45)
    (x : Nat) (hx : pageBase x ≠ pageBase (spmAt c d.address d.rampz)) :
    (committed c length tag d).flash x = d.flash x := by
  unfold committed Dev.fillAll
  rw [if_neg htag]
  simp only [Dev.writePage_flash, Dev.setTemp_flash_fn, if_neg hx]
  split <;> rfl

/-- **C17, counterexample.** On the sample ATmega64 configuration with vector
redirection, a program-memory `PROG_PAGE` at the page-aligned cursor 0, which
passes the commit guard, with the payload `0x11, 0x22` leaves the bytes `0x7F`
and `0xCE` at the addresses 0 and 1 of the program memory, not the payload
bytes. -/
theorem page_zero_with_redirection_differs_from_payload :
    ∃ d', command (cfgOf .atmega64 true) [0x64, 0x00, 0x02, 0x46, 0x11, 0x22, 0x20] dev1 =
        .ok () [] d' ∧
      rd8 d'.flash 0 = 0x7F ∧ rd8 d'.flash 1 = 0xCE ∧
      dev1.address % 256 = 0 ∧ guardAt (cfgOf .atmega64 true) dev1.address dev1.rampz = true := by
  have h := command_prog_page (cfgOf .atmega64 true) (by decide) 0x00 0x02 0x46 [0x11, 0x22] []
    dev1 (by decide) (by decide)
  obtain ⟨sa, sr, -⟩ := loadedPage_commit (cfgOf .atmega64 true) (0x02 % 256) (0x46 % 256)
    [0x11, 0x22] dev1 (lateAt (cfgOf .atmega64 true) dev1.address dev1.rampz)
    (spmAt (cfgOf .atmega64 true) dev1.address dev1.rampz)
  generalize hS : synced (cfgOf .atmega64 true)
    ((loadedPage (cfgOf .atmega64 true) (0x02 % 256) (0x46 % 256) [0x11, 0x22] dev1.poll).eraseIf
      (lateAt (cfgOf .atmega64 true) dev1.address dev1.rampz)
      (spmAt (cfgOf .atmega64 true) dev1.address dev1.rampz)) = S at h sa sr
  have sa0 : S.address = 0 := sa
  have f0 := committed_flash_any (cfgOf .atmega64 true) (0x02 % 256) (0x46 % 256) S (by decide)
    (by rw [sa0]) 0 (by decide)
  have f1 := committed_flash_any (cfgOf .atmega64 true) (0x02 % 256) (0x46 % 256) S (by decide)
    (by rw [sa0]) 1 (by decide)
  have hsp : spmAt (cfgOf .atmega64 true) S.address S.rampz = 0 := by
    rw [sa0]; rfl
  rw [hsp, if_pos ⟨rfl, sa0⟩, Dev.patch_ram_fn, rd8_patchVectors] at f0 f1
  refine ⟨_, h, ?_, ?_, rfl, by decide⟩
  · rw [Dev.emit_flash_fn]; exact f0
  · rw [Dev.emit_flash_fn]; exact f1

/-- **C17, amended.** A program-memory `PROG_PAGE` at a page-aligned cursor
that passes the commit guard, with a payload `P` of one byte for each turn of
the payload loop, and not at cursor 0 when vector redirection is on, leaves
the page at the cursor (in the current bank) equal to the page buffer: page
byte `i` is payload byte `i` for `i` below the payload length, and for the
other `i` below the page size it is the byte the page buffer held at offset `i`
before the command.  Program memory outside that page is unchanged. -/
theorem page_write_commits_the_page_buffer (c : Cfg) (hwf : c.stk.WF) (d : Dev)
    (hi L tag : Nat) (P rest : List Nat) (htag : tag % 256 ≠ 0x45) (hP : P.length = turns L)
    (hg : guardAt c d.address d.rampz = true) (ha : d.address % 256 = 0)
    (hv : c.vbp = false ∨ d.address ≠ 0) :
    ∃ d', command c (c.stk.STK_PROG_PAGE :: hi :: L :: tag :: (P ++ c.stk.CRC_EOP :: rest)) d =
        .ok () rest d' ∧
      (∀ i, i < P.length →
        rd8 d'.flash (spmAt c d.address d.rampz + i) = P.getD i 0 % 256) ∧
      (∀ i, P.length ≤ i → i < 256 →
        rd8 d'.flash (spmAt c d.address d.rampz + i) = rd8 d.ram i) ∧
      (∀ x, pageBase x ≠ pageBase (spmAt c d.address d.rampz) → d'.flash x = d.flash x) := by
  have h := command_prog_page c hwf hi L tag P rest d (by rw [hP, iterations_turns]) hg
  obtain ⟨sa, sr, sram⟩ := loadedPage_commit c (L % 256) (tag % 256) P d
    (lateAt c d.address d.rampz) (spmAt c d.address d.rampz)
  have so := loadedPage_flash_other c (L % 256) (tag % 256) P d (lateAt c d.address d.rampz)
  generalize hS : synced c ((loadedPage c (L % 256) (tag % 256) P d.poll).eraseIf
    (lateAt c d.address d.rampz) (spmAt c d.address d.rampz)) = S at h sa sr sram so
  have hnp : ¬ (c.vbp = true ∧ d.address = 0) := by
    rcases hv with hv | hv
    · simp [hv]
    · exact fun h' => hv h'.2
  have hpl := (turns_pos L).2
  have key : ∀ i, i < 256 → rd8 (committed c (L % 256) (tag % 256) S).flash
      (spmAt c d.address d.rampz + i) =
      if i < P.length then P.getD i 0 % 256 else rd8 d.ram i := by
    intro i hi
    have f := committed_flash_any c (L % 256) (tag % 256) S htag (by rw [sa]; exact ha) i hi
    rw [sa, sr, if_neg hnp, sram] at f
    rw [f]
    unfold rd8
    rw [storeBytes_apply]
    by_cases hlt : i < P.length
    · rw [if_pos ⟨Nat.zero_le _, by omega⟩, if_pos hlt, Nat.sub_zero, Nat.mod_mod]
    · rw [if_neg (by omega), if_neg hlt]
  refine ⟨_, h, ?_, ?_, ?_⟩
  · intro i hi
    rw [Dev.emit_flash_fn, key i (by omega), if_pos hi]
  · intro i h1 h2
    rw [Dev.emit_flash_fn, key i h2, if_neg (by omega)]
  · intro x hx
    rw [Dev.emit_flash_fn, committed_flash_other c _ _ S htag x (by rw [sa, sr]; exact hx),
      so x hx]

/-- Two bytes programmed at the page-aligned cursor 0 of a device in use on
the sample ATmega128 configuration without vector redirection: the rest of the
page comes from the page buffer. -/
theorem page_write_commits_the_page_buffer_witness :
    0x46 % 256 ≠ 0x45 ∧ [0x11, 0x22].length = turns 0x02 ∧
    guardAt (cfgOf .atmega128 false) dev1.address dev1.rampz = true ∧
    dev1.address % 256 = 0 ∧
    ((cfgOf .atmega128 false).vbp = false ∨ dev1.address ≠ 0) ∧
    ∃ d', command (cfgOf .atmega128 false) [0x64, 0x00, 0x02, 0x46, 0x11, 0x22, 0x20] dev1 =
        .ok () [] d' ∧
      rd8 d'.flash 0 = 0x11 ∧ rd8 d'.flash 1 = 0x22 ∧ rd8 d'.flash 2 = rd8 dev1.ram 2 ∧
      rd8 d'.flash 255 = rd8 dev1.ram 255 ∧ d'.flash 256 = dev1.flash 256 := by
  obtain ⟨d', h, h1, h2, h3⟩ := page_write_commits_the_page_buffer (cfgOf .atmega128 false)
    (by decide) dev1 0x00 0x02 0x46 [0x11, 0x22] [] (by decide) (by decide) (by decide)
    (by decide) (Or.inl rfl)
  exact ⟨by decide, by decide, by decide, by decide, Or.inl rfl, d', h, h1 0 (by decide),
    h1 1 (by decide), h2 2 (by decide) (by decide), h2 255 (by decide) (by decide),
    h3 256 (by decide)⟩

/-! ## C18: the cursor across byte-store commands -/

theorem eeStart_eq (c : Cfg) (a : Nat) :
    (if c.mcu ≠ .atmega2561 then a >>> 1 else a) = eeStart c a := by
  unfold eeStart
  split
  · exact Nat.shiftRight_eq_div_pow a 1
  · rfl

theorem eeStart_lt (c : Cfg) (a : Nat) (ha : a < 65536) : eeStart c a < 65536 := by
  unfold eeStart
  split <;> omega

/-- The state after a `READ_PAGE` with the tag `'E'`. -/
theorem readDone_eeprom (c : Cfg) (L : Nat) (d : Dev) (ha : d.address < 65536) :
    (readDone c (L % 256) 0x45 (synced c (readHeader c 0x45 d.poll))).out =
      d.out ++ (c.stk.STK_INSYNC % 256) ::
        ((List.range (turns L)).map fun i =>
          rd8 d.eeprom ((eeStart c d.address + i) % 65536)) ∧
    (readDone c (L % 256) 0x45 (synced c (readHeader c 0x45 d.poll))).address =
      (eeStart c d.address + turns L) % 65536 := by
  have hs := eeStart_lt c d.address ha
  have hb : ∀ (e : Dev) (a : Nat), readByteAt c 0x45 e a = rd8 e.eeprom a := by
    intro e a
    unfold readByteAt
    rw [if_pos rfl]
  have hh : (synced c (readHeader c 0x45 d.poll)).address = eeStart c d.address := by
    rw [← eeStart_eq]
    unfold readHeader synced
    split_ifs with h1 h2 h2
    · simp
    · exact absurd h1.2 h2
    · exact absurd ⟨rfl, h2⟩ h1
    · simp
  have he : (synced c (readHeader c 0x45 d.poll)).eeprom = d.eeprom := by
    unfold readHeader synced
    split <;> simp
  have ho : (synced c (readHeader c 0x45 d.poll)).out = d.out ++ [c.stk.STK_INSYNC % 256] := by
    unfold readHeader synced
    split <;> simp
  unfold readDone
  rw [iterations_turns]
  constructor
  · simp only [Dev.setAddress_out, Dev.emitAll_out]
    rw [hh, ho, readBytes_eq_map _ _ _ hs]
    simp only [hb, he]
    simp
  · simp only [Dev.setAddress_address]
    rw [hh, advance_eq _ _ hs]

/-- The cursor after a `PROG_PAGE` into the EEPROM. -/
theorem committed_eeprom_cursor (c : Cfg) (length : Nat) (d : Dev) :
    (committed c length 0x45 d).address = advance (eeStart c d.address) length := by
  rw [← eeStart_eq]
  unfold committed Dev.eeWriteAll
  rw [if_pos rfl]
  split <;> simp

/-- **C18, counterexample.** On the sample ATmega128 configuration, on a
device whose EEPROM cell `a` holds `a mod 256`: after `LOAD_ADDRESS` of the
word `0x10`, a first byte-store `READ_PAGE` of 4 bytes sends the cells
`0x10 .. 0x13`, and a second one, with no `LOAD_ADDRESS` in between, sends the
cells `0x0A .. 0x0D`, not `0x14 .. 0x17`. -/
theorem second_eeprom_read_starts_at_half_the_cursor :
    (mainLoop (cfgOf .atmega128 false) 3
      [0x55, 0x10, 0x00, 0x20, 0x74, 0x00, 0x04, 0x45, 0x20, 0x74, 0x00, 0x04, 0x45, 0x20]
      dev1).dev.out =
      [0x14, 0x10, 0x14, 0x10, 0x11, 0x12, 0x13, 0x10, 0x14, 0x0A, 0x0B, 0x0C, 0x0D, 0x10] ∧
    (mainLoop (cfgOf .atmega128 false) 3
      [0x55, 0x10, 0x00, 0x20, 0x74, 0x00, 0x04, 0x45, 0x20, 0x74, 0x00, 0x04, 0x45, 0x20]
      dev1).isOk = true ∧
    dev1.eeprom 0x14 = 0x14 := by
  decide

/-- `PROG_PAGE` as a whole command, when the commit guard fails. -/
theorem command_prog_page_refused (c : Cfg) (hwf : c.stk.WF) (hi length tag : Nat)
    (P rest : List Nat) (d : Dev) (hP : P.length = iterations (length % 256))
    (hg : guardAt c d.address d.rampz = false) :
    command c (c.stk.STK_PROG_PAGE :: hi :: length :: tag :: (P ++ c.stk.CRC_EOP :: rest)) d =
      .ok () rest
        ((synced c (loadedPage c (length % 256) (tag % 256) P d.poll)).emit c.stk.STK_OK) := by
  obtain ⟨hb, n1, n2, n3, n4, n5⟩ := hwf.prog_page
  have hop : c.stk.STK_PROG_PAGE % 256 = c.stk.STK_PROG_PAGE := Nat.mod_eq_of_lt hb
  have he : c.stk.CRC_EOP % 256 = c.stk.CRC_EOP := Nat.mod_eq_of_lt hwf.2.2.2.2.2.2.2.2.2.2.1
  have hlen : (hi :: length :: tag :: P).length =
      argCount c (c.stk.STK_PROG_PAGE % 256) (hi :: length :: tag :: P) := by
    simp [argCount, hop, n1, n2, n3, n4, n5, hP]
    omega
  have hrun := command_run c c.stk.STK_PROG_PAGE (hi :: length :: tag :: P) c.stk.CRC_EOP rest d
    hlen
  simp only [List.cons_append] at hrun
  rw [hrun, commandRes, if_pos he]
  simp [preCheck, postCheck, hop, n1, n2, n3, n4, n5, hg, synced, loadedPage]

/-- **C18, amended.** A byte-store `READ_PAGE`, and a byte-store `PROG_PAGE`
whose cursor passes the commit guard, start at the cell `eeStart` of the
cursor they find, which is that cursor halved on ATmega64 and ATmega128 and
the cursor itself on ATmega2561, and leave the cursor at that cell plus the
number of cells they have handled (modulo `2^16`).  The `READ_PAGE` sends the
cells `eeStart + i` for `i` below the number of turns of its reply loop.  The
`PROG_PAGE` stores payload byte `i` in cell `eeStart + i` for `i` below its
length byte and leaves the other cells alone.  A byte-store `PROG_PAGE` whose
cursor fails the commit guard reads its frame, writes no cell and leaves the
cursor as it found it.  So after `LOAD_ADDRESS(W)` the first command starts at
the half of the doubled address, and a following one without `LOAD_ADDRESS`
starts at the half of the cursor the first one left (on ATmega2561: at the
doubled address, and then where the first one ended). -/
theorem byte_store_command_starts_at_half_the_cursor (c : Cfg) (hwf : c.stk.WF) (d : Dev)
    (hi L : Nat) (P rest : List Nat) (ha : d.address < 65536) :
    (∃ d', command c (c.stk.STK_READ_PAGE :: hi :: L :: 0x45 :: c.stk.CRC_EOP :: rest) d =
        .ok () rest d' ∧
      d'.out = d.out ++ (c.stk.STK_INSYNC % 256) ::
        (((List.range (turns L)).map fun i =>
          rd8 d.eeprom ((eeStart c d.address + i) % 65536)) ++ [c.stk.STK_OK % 256]) ∧
      d'.address = (eeStart c d.address + turns L) % 65536) ∧
    (L < 256 → P.length = turns L → (∀ b ∈ P, b < 256) →
      guardAt c d.address d.rampz = true →
      ∃ d', command c (c.stk.STK_PROG_PAGE :: hi :: L :: 0x45 :: (P ++ c.stk.CRC_EOP :: rest))
          d = .ok () rest d' ∧
        (∀ i, i < L → rd8 d'.eeprom ((eeStart c d.address + i) % 65536) = P.getD i 0) ∧
        (∀ a, (∀ i, i < L → a ≠ (eeStart c d.address + i) % 65536) →
          d'.eeprom a = d.eeprom a) ∧
        d'.address = (eeStart c d.address + L) % 65536) ∧
    (P.length = turns L → guardAt c d.address d.rampz = false →
      ∃ d', command c (c.stk.STK_PROG_PAGE :: hi :: L :: 0x45 :: (P ++ c.stk.CRC_EOP :: rest))
          d = .ok () rest d' ∧
        d'.eeprom = d.eeprom ∧ d'.eeLog = d.eeLog ∧ d'.address = d.address) := by
  have hs := eeStart_lt c d.address ha
  refine ⟨?_, ?_, ?_⟩
  · have h := command_read_page c hwf hi L 0x45 rest d
    have e : (0x45 : Nat) % 256 = 0x45 := rfl
    rw [e] at h
    obtain ⟨h1, h2⟩ := readDone_eeprom c L d ha
    refine ⟨_, h, ?_, ?_⟩
    · simp only [Dev.emit_out, h1]
      simp
    · simp only [Dev.emit_address, h2]
  · intro hL hP hbytes hg
    have e1 : L % 256 = L := Nat.mod_eq_of_lt hL
    have e2 : (0x45 : Nat) % 256 = 0x45 := rfl
    have hLP : L ≤ P.length := by
      rw [hP]; unfold turns; split <;> omega
    have h := command_prog_page c hwf hi L 0x45 P rest d (by rw [hP, iterations_turns]) hg
    simp only [e1, e2] at h
    obtain ⟨sa, -, sram⟩ := loadedPage_commit c L 0x45 P d (lateAt c d.address d.rampz)
      (spmAt c d.address d.rampz)
    have se : (synced c ((loadedPage c L 0x45 P d.poll).eraseIf (lateAt c d.address d.rampz)
        (spmAt c d.address d.rampz))).eeprom = d.eeprom := by
      simp [synced, loadedPage]
    generalize hS : synced c ((loadedPage c L 0x45 P d.poll).eraseIf
      (lateAt c d.address d.rampz) (spmAt c d.address d.rampz)) = S at h sa sram se
    have Sb : ∀ i, i < L → rd8 S.ram (0 + i) = P.getD i 0 := by
      intro i hi
      rw [Nat.zero_add, sram, rd8, storeBytes_apply, if_pos ⟨Nat.zero_le _, by omega⟩,
        Nat.sub_zero, Nat.mod_mod]
      apply Nat.mod_eq_of_lt
      apply hbytes
      rw [List.getD_eq_getElem _ _ (by omega)]
      exact List.getElem_mem _
    obtain ⟨ce, -⟩ := committed_eeprom c L S
    have cc := committed_eeprom_cursor c L S
    rw [eeStart_eq, sa, se] at ce
    rw [sa, advance_eq _ _ hs] at cc
    refine ⟨_, h, ?_, ?_, ?_⟩
    · intro i hi
      rw [Dev.emit_eeprom_fn, ce, eeStore_cell S.ram L 0 _ d.eeprom i hs (by omega) hi]
      exact Sb i hi
    · intro a hne
      rw [Dev.emit_eeprom_fn, ce, eeStore_other S.ram a L 0 _ d.eeprom hs hne]
    · rw [Dev.emit_address, cc]
  · intro hP hg
    refine ⟨_, command_prog_page_refused c hwf hi L 0x45 P rest d
      (by rw [hP, iterations_turns]) hg, ?_, ?_, ?_⟩ <;>
    simp [synced, loadedPage]

/-- A byte-store `READ_PAGE` of 4 bytes and a byte-store `PROG_PAGE` of 2
bytes, each at the cursor `0x14` of a device in use, on the sample ATmega128
configuration: both start at cell `0x0A`.  On the sample ATmega64
configuration the same `PROG_PAGE` at the cursor `0x8000`, which fails the
commit guard, leaves the EEPROM and the cursor as they were. -/
theorem byte_store_command_starts_at_half_the_cursor_witness :
    (dev1.setAddress 0x14).address < 65536 ∧
    (∃ d', command (cfgOf .atmega128 false) [0x74, 0x00, 0x04, 0x45, 0x20]
        (dev1.setAddress 0x14) = .ok () [] d' ∧
      d'.out = [0x14, 0x0A, 0x0B, 0x0C, 0x0D, 0x10] ∧ d'.address = 0x0E) ∧
    (∃ d', command (cfgOf .atmega128 false) [0x64, 0x00, 0x02, 0x45, 0xAB, 0xCD, 0x20]
        (dev1.setAddress 0x14) = .ok () [] d' ∧
      rd8 d'.eeprom 0x0A = 0xAB ∧ rd8 d'.eeprom 0x0B = 0xCD ∧ d'.address = 0x0C) ∧
    guardAt (cfgOf .atmega64 false) 0x8000 0 = false ∧
    (∃ d', command (cfgOf .atmega64 false) [0x64, 0x00, 0x02, 0x45, 0xAB, 0xCD, 0x20]
        (dev1.setAddress 0x8000) = .ok () [] d' ∧
      d'.eeprom = dev1.eeprom ∧ d'.eeLog = [] ∧ d'.address = 0x8000) := by
  obtain ⟨⟨d1, h1, o1, a1⟩, -⟩ := byte_store_command_starts_at_half_the_cursor
    (cfgOf .atmega128 false) (by decide) (dev1.setAddress 0x14) 0x00 0x04 [] [] (by decide)
  obtain ⟨-, hq, -⟩ := byte_store_command_starts_at_half_the_cursor
    (cfgOf .atmega128 false) (by decide) (dev1.setAddress 0x14) 0x00 0x02 [0xAB, 0xCD] []
    (by decide)
  obtain ⟨d2, h2, c2, -, a2⟩ := hq (by decide) (by decide) (by decide) (by decide)
  obtain ⟨-, -, hr⟩ := byte_store_command_starts_at_half_the_cursor
    (cfgOf .atmega64 false) (by decide) (dev1.setAddress 0x8000) 0x00 0x02 [0xAB, 0xCD] []
    (by decide)
  obtain ⟨d3, h3, e3, l3, a3⟩ := hr (by decide) (by decide)
  refine ⟨by decide, ⟨d1, h1, ?_, ?_⟩, ⟨d2, h2, c2 0 (by decide), c2 1 (by decide), ?_⟩,
    by decide, ⟨d3, h3, e3, l3, a3⟩⟩
  · rw [o1]; decide
  · rw [a1]; decide
  · rw [a2]; decide

/-! ## C19: the re-biased reset vector -/

/-- **C19, failing input.** On the sample ATmega64 configuration with vector
redirection, a program-memory `PROG_PAGE` at cursor 0 whose payload starts
with `0x00, 0xC0`, the relative jump `0xC000` with offset `k = 0`, stores the
bytes `0xFC, 0xBF` at the page offsets 8 and 9: the word `0xBFFC`, whose top
four bits are `0xB`, not `0xC`.  The same happens for the offsets 1, 2 and 3;
for `k = 3` the patched buffer holds `0xBFFF`, and only from `k = 4` on is the
stored word a relative jump (`0xC000` for `k = 4`). -/
theorem rebias_of_a_short_jump_is_not_a_jump :
    (∃ d', command (cfgOf .atmega64 true) [0x64, 0x00, 0x02, 0x46, 0x00, 0xC0, 0x20] dev0 =
        .ok () [] d' ∧
      rd8 d'.flash 8 = 0xFC ∧ rd8 d'.flash 9 = 0xBF) ∧
    (0xFC + 256 * 0xBF) / 4096 = 0xB ∧
    rd16 (patchVectors (storeBytes dev0.ram 0 [0x03, 0xC0])) 8 = 0xBFFF ∧
    rd16 (patchVectors (storeBytes dev0.ram 0 [0x04, 0xC0])) 8 = 0xC000 := by
  have h := command_prog_page (cfgOf .atmega64 true) (by decide) 0x00 0x02 0x46 [0x00, 0xC0] []
    dev0 (by decide) (by decide)
  obtain ⟨sa, sr, sram⟩ := loadedPage_commit (cfgOf .atmega64 true) (0x02 % 256) (0x46 % 256)
    [0x00, 0xC0] dev0 (lateAt (cfgOf .atmega64 true) dev0.address dev0.rampz)
    (spmAt (cfgOf .atmega64 true) dev0.address dev0.rampz)
  generalize hS : synced (cfgOf .atmega64 true)
    ((loadedPage (cfgOf .atmega64 true) (0x02 % 256) (0x46 % 256) [0x00, 0xC0] dev0.poll).eraseIf
      (lateAt (cfgOf .atmega64 true) dev0.address dev0.rampz)
      (spmAt (cfgOf .atmega64 true) dev0.address dev0.rampz)) = S at h sa sr sram
  have sa0 : S.address = 0 := sa
  have f8 := committed_flash_any (cfgOf .atmega64 true) (0x02 % 256) (0x46 % 256) S (by decide)
    (by rw [sa0]) 8 (by decide)
  have f9 := committed_flash_any (cfgOf .atmega64 true) (0x02 % 256) (0x46 % 256) S (by decide)
    (by rw [sa0]) 9 (by decide)
  have hsp : spmAt (cfgOf .atmega64 true) S.address S.rampz = 0 := by
    rw [sa0]; rfl
  have r0 : rd8 S.ram 0 = 0x00 := by rw [sram]; rfl
  have r1 : rd8 S.ram 1 = 0xC0 := by rw [sram]; rfl
  rw [hsp, if_pos ⟨rfl, sa0⟩, Dev.patch_ram_fn, rd8_patchVectors, r0, r1] at f8 f9
  refine ⟨⟨_, h, ?_, ?_⟩, by decide, by decide, by decide⟩
  · rw [Dev.emit_flash_fn]; exact f8
  · rw [Dev.emit_flash_fn]; exact f9

/-! ## C20: a `PROG_PAGE` that fails the commit guard -/

/-- On ATmega128 an address that fails the commit guard does not get the
erase before the payload either. -/
theorem earlyAt_of_refused_atmega128 (c : Cfg) (h : c.mcu = .atmega128) (a r : Nat)
    (hg : guardAt c a r = false) : earlyAt c a r = false := by
  obtain ⟨mcu, vbp, stk, s0, s1, s2⟩ := c
  subst h
  simp only [guardAt, BOOTSTART, decide_eq_false_iff_not] at hg
  simp only [earlyAt, NRWWSTART, decide_eq_false_iff_not]
  omega

/-- **C20, failing input.** On the sample ATmega64 configuration, after
`LOAD_ADDRESS` of the word `0x4000` (cursor `0x8000`, which is not below
`BOOTSTART = 0x7D00`, so the commit guard fails, but is below
`NRWWSTART = 0xE000`), a program-memory `PROG_PAGE` of one byte reads its
payload and answers in-sync and operation-complete, writes no page, but has
erased the page at `0x8000`: the one self-programming operation on record is
that erase, and the byte at `0x8000`, which held `0x8A`, reads `0xFF`. -/
theorem refused_page_on_atmega64_is_erased :
    guardAt (cfgOf .atmega64 false) 0x8000 0 = false ∧
    (mainLoop (cfgOf .atmega64 false) 2
      [0x55, 0x00, 0x40, 0x20, 0x64, 0x00, 0x01, 0x46, 0xAB, 0x20] dev1).isOk = true ∧
    (mainLoop (cfgOf .atmega64 false) 2
      [0x55, 0x00, 0x40, 0x20, 0x64, 0x00, 0x01, 0x46, 0xAB, 0x20] dev1).dev.address =
        0x8000 ∧
    (mainLoop (cfgOf .atmega64 false) 2
      [0x55, 0x00, 0x40, 0x20, 0x64, 0x00, 0x01, 0x46, 0xAB, 0x20] dev1).dev.out =
        [0x14, 0x10, 0x14, 0x10] ∧
    (mainLoop (cfgOf .atmega64 false) 2
      [0x55, 0x00, 0x40, 0x20, 0x64, 0x00, 0x01, 0x46, 0xAB, 0x20] dev1).dev.spmLog =
        [Spm.erase 0x8000] ∧
    (mainLoop (cfgOf .atmega64 false) 2
      [0x55, 0x00, 0x40, 0x20, 0x64, 0x00, 0x01, 0x46, 0xAB, 0x20] dev1).dev.flash 0x8000 =
        0xFF ∧
    dev1.flash 0x8000 = 0x8A := by
  decide

/-! ## C21: a `PROG_PAGE` frame with a wrong terminator -/

/-- The state in which `PROG_PAGE` reaches its terminator check. -/
theorem preCheck_prog_page (c : Cfg) (hwf : c.stk.WF) (hi L tag : Nat) (P : List Nat)
    (d : Dev) :
    preCheck c (c.stk.STK_PROG_PAGE % 256) (hi :: L :: tag :: P) d =
      (loadedPage c (L % 256) (tag % 256) P d).eraseIf
        (guardAt c d.address d.rampz && lateAt c d.address d.rampz)
        (spmAt c d.address d.rampz) := by
  obtain ⟨hb, n1, n2, n3, n4, n5⟩ := hwf.prog_page
  have hop : c.stk.STK_PROG_PAGE % 256 = c.stk.STK_PROG_PAGE := Nat.mod_eq_of_lt hb
  simp [preCheck, hop, n1, n2, n3, n4, n5]

/-- A `PROG_PAGE` frame is a frame of the command loop. -/
theorem prog_page_frame (c : Cfg) (hwf : c.stk.WF) (hi L tag : Nat) (P : List Nat)
    (hP : P.length = turns L) :
    (hi :: L :: tag :: P).length =
      argCount c (c.stk.STK_PROG_PAGE % 256) (hi :: L :: tag :: P) := by
  obtain ⟨hb, n1, n2, n3, n4, n5⟩ := hwf.prog_page
  have hop : c.stk.STK_PROG_PAGE % 256 = c.stk.STK_PROG_PAGE := Nat.mod_eq_of_lt hb
  simp [argCount, hop, n1, n2, n3, n4, n5, hP, iterations_turns]
  omega

/-- Before its terminator check `PROG_PAGE` has touched neither the EEPROM
nor the cursor, and has done nothing to the program memory but erase the page
at the cursor, at most twice. -/
theorem loadedPage_effect (c : Cfg) (L tag : Nat) (P : List Nat) (d : Dev) (b : Bool) :
    ((loadedPage c L tag P d).eraseIf b (spmAt c d.address d.rampz)).eeprom = d.eeprom ∧
    ((loadedPage c L tag P d).eraseIf b (spmAt c d.address d.rampz)).eeLog = d.eeLog ∧
    ((loadedPage c L tag P d).eraseIf b (spmAt c d.address d.rampz)).out = d.out ∧
    (∃ k, k ≤ 2 ∧ ((loadedPage c L tag P d).eraseIf b (spmAt c d.address d.rampz)).spmLog =
      d.spmLog ++ List.replicate k (Spm.erase (pageBase (spmAt c d.address d.rampz)))) ∧
    (((loadedPage c L tag P d).eraseIf b (spmAt c d.address d.rampz)).flash = d.flash ∨
      ((loadedPage c L tag P d).eraseIf b (spmAt c d.address d.rampz)).flash =
        fun x => if pageBase x = pageBase (spmAt c d.address d.rampz) then 0xFF
          else d.flash x) := by
  refine ⟨by simp [loadedPage], by simp [loadedPage], by simp [loadedPage], ?_, ?_⟩
  · simp only [loadedPage, Dev.eraseIf_spmLog, Dev.storeFrom_spmLog, Dev.addPolls_spmLog,
      Dev.poll_spmLog]
    cases b <;> cases (decide (tag ≠ 0x45) && earlyAt c d.address d.rampz)
    · exact ⟨0, by omega, by simp⟩
    · exact ⟨1, by omega, by simp⟩
    · exact ⟨1, by omega, by simp⟩
    · exact ⟨2, by omega, by simp⟩
  · simp only [loadedPage, Dev.eraseIf_flash_fn, Dev.storeFrom_flash_fn, Dev.addPolls_flash_fn,
      Dev.poll_flash_fn]
    cases b <;> cases (decide (tag ≠ 0x45) && earlyAt c d.address d.rampz)
    · left; simp
    · right; simp
    · right; simp
    · right
      funext x
      simp only [if_true]
      split <;> simp_all

/-- **C21.** For every `PROG_PAGE` frame, of either memory kind and with
any cursor, length byte and payload, whose terminator byte is not `CRC_EOP`:
the command ends in the endless loop of `verifySpace`, and so does the command
loop however many turns it is given.  In the state it stays in, the EEPROM is
the one before the command and no physical EEPROM write is on record, the
self-programming operations on record beyond those before the command are at
most two erases of the page at the cursor and no page write, the program
memory is either unchanged or differs by the erasure of that one page, and
nothing has been sent. -/
theorem bad_prog_page_frame_commits_nothing (c : Cfg) (hwf : c.stk.WF) (d : Dev)
    (hi L tag t : Nat) (P rest : List Nat) (hP : P.length = turns L)
    (ht : t % 256 ≠ c.stk.CRC_EOP) :
    ∃ dh, command c (c.stk.STK_PROG_PAGE :: hi :: L :: tag :: (P ++ t :: rest)) d =
        .hung rest dh ∧
      (∀ n, mainLoop c (n + 1)
        (c.stk.STK_PROG_PAGE :: hi :: L :: tag :: (P ++ t :: rest)) d = .hung rest dh) ∧
      dh.eeprom = d.eeprom ∧ dh.eeLog = d.eeLog ∧ dh.out = d.out ∧
      (∃ k, k ≤ 2 ∧ dh.spmLog = d.spmLog ++
        List.replicate k (Spm.erase (pageBase (spmAt c d.address d.rampz)))) ∧
      (dh.flash = d.flash ∨
        dh.flash = fun x => if pageBase x = pageBase (spmAt c d.address d.rampz) then 0xFF
          else d.flash x) := by
  have hrun := command_run c c.stk.STK_PROG_PAGE (hi :: L :: tag :: P) t rest d
    (prog_page_frame c hwf hi L tag P hP)
  simp only [List.cons_append] at hrun
  rw [commandRes, if_neg ht, preCheck_prog_page c hwf] at hrun
  obtain ⟨e1, e2, e3, e4, e5⟩ := loadedPage_effect c (L % 256) (tag % 256) P d.poll
    (guardAt c d.address d.rampz && lateAt c d.address d.rampz)
  refine ⟨_, hrun, ?_, ?_, ?_, ?_, ?_, ?_⟩
  · intro n
    simp only [mainLoop, bind_run, hrun, andThen_hung]
  · simpa using e1
  · simpa using e2
  · simpa using e3
  · simpa using e4
  · simpa using e5

/-- A program-memory `PROG_PAGE` frame at cursor 0 of a device in use whose
terminator position holds `0x21`, on the sample ATmega128 configuration: the
page at 0 has been erased by the erase before the payload, nothing else has
happened. -/
theorem bad_prog_page_frame_commits_nothing_witness :
    [0x11, 0x22].length = turns 0x02 ∧
    0x21 % 256 ≠ (cfgOf .atmega128 false).stk.CRC_EOP ∧
    ∃ dh, command (cfgOf .atmega128 false) [0x64, 0x00, 0x02, 0x46, 0x11, 0x22, 0x21, 0x99]
        dev1 = .hung [0x99] dh ∧
      dh.eeprom = dev1.eeprom ∧ dh.eeLog = [] ∧ dh.out = [] ∧
      (∃ k, k ≤ 2 ∧ dh.spmLog = List.replicate k (Spm.erase 0)) ∧
      (dh.flash = dev1.flash ∨
        dh.flash = fun x => if pageBase x = pageBase 0 then 0xFF else dev1.flash x) := by
  obtain ⟨dh, h, -, e1, e2, e3, e4, e5⟩ := bad_prog_page_frame_commits_nothing
    (cfgOf .atmega128 false) (by decide) dev1 0x00 0x02 0x46 0x21 [0x11, 0x22] [0x99]
    (by decide) (by decide)
  exact ⟨by decide, by decide, dh, h, e1, e2, e3, e4, e5⟩

/-! ## C22: a program-memory `PROG_PAGE` changes one page -/

/-- What `PROG_PAGE` does after its terminator check. -/
theorem postCheck_prog_page (c : Cfg) (hwf : c.stk.WF) (hi L tag : Nat) (P : List Nat)
    (d : Dev) :
    postCheck c (c.stk.STK_PROG_PAGE % 256) (hi :: L :: tag :: P) d =
      if guardAt c d.address d.rampz = true then committed c (L % 256) (tag % 256) d
      else d := by
  obtain ⟨hb, n1, n2, n3, n4, n5⟩ := hwf.prog_page
  have hop : c.stk.STK_PROG_PAGE % 256 = c.stk.STK_PROG_PAGE := Nat.mod_eq_of_lt hb
  simp [postCheck, hop, n1, n2, n3, n4, n5]

/-- A program-memory commit leaves the EEPROM alone. -/
theorem committed_flash_eeprom (c : Cfg) (length tag : Nat) (d : Dev) (htag : tag ≠ 0x45) :
    (committed c length tag d).eeprom = d.eeprom ∧
      (committed c length tag d).eeLog = d.eeLog := by
  unfold committed Dev.fillAll
  rw [if_neg htag]
  split <;> simp

/-- **C22.** A program-memory `PROG_PAGE` with the correct terminator, for
any cursor, bank, length byte and payload, whether or not it passes the commit
guard, returns and leaves every program-memory byte outside the page that
contains the cursor (in the current bank) as it was, leaves the EEPROM as it
was with no physical EEPROM write, and leaves the cursor and the bank register
at their values before the command. -/
theorem prog_page_changes_one_page (c : Cfg) (hwf : c.stk.WF) (d : Dev) (hi L tag : Nat)
    (P rest : List Nat) (htag : tag % 256 ≠ 0x45) (hP : P.length = turns L) :
    ∃ d', command c (c.stk.STK_PROG_PAGE :: hi :: L :: tag :: (P ++ c.stk.CRC_EOP :: rest)) d =
        .ok () rest d' ∧
      (∀ x, pageBase x ≠ pageBase (spmAt c d.address d.rampz) → d'.flash x = d.flash x) ∧
      d'.eeprom = d.eeprom ∧ d'.eeLog = d.eeLog ∧
      d'.address = d.address ∧ d'.rampz = d.rampz := by
  have hrun := command_run c c.stk.STK_PROG_PAGE (hi :: L :: tag :: P) c.stk.CRC_EOP rest d
    (prog_page_frame c hwf hi L tag P hP)
  simp only [List.cons_append] at hrun
  rw [commandRes, if_pos hwf.eop, preCheck_prog_page c hwf, postCheck_prog_page c hwf] at hrun
  simp only [Dev.poll_address, Dev.poll_rampz] at hrun
  obtain ⟨sa, sr, -⟩ := loadedPage_commit c (L % 256) (tag % 256) P d
    (guardAt c d.address d.rampz && lateAt c d.address d.rampz) (spmAt c d.address d.rampz)
  have so := loadedPage_flash_other c (L % 256) (tag % 256) P d
    (guardAt c d.address d.rampz && lateAt c d.address d.rampz)
  obtain ⟨e1, e2, -⟩ := loadedPage_effect c (L % 256) (tag % 256) P d.poll
    (guardAt c d.address d.rampz && lateAt c d.address d.rampz)
  have se : (synced c ((loadedPage c (L % 256) (tag % 256) P d.poll).eraseIf
      (guardAt c d.address d.rampz && lateAt c d.address d.rampz)
      (spmAt c d.address d.rampz))).eeprom = d.eeprom := by
    simpa [synced] using e1
  have sl : (synced c ((loadedPage c (L % 256) (tag % 256) P d.poll).eraseIf
      (guardAt c d.address d.rampz && lateAt c d.address d.rampz)
      (spmAt c d.address d.rampz))).eeLog = d.eeLog := by
    simpa [synced] using e2
  generalize hS : synced c ((loadedPage c (L % 256) (tag % 256) P d.poll).eraseIf
    (guardAt c d.address d.rampz && lateAt c d.address d.rampz)
    (spmAt c d.address d.rampz)) = S at hrun sa sr so se sl
  refine ⟨_, hrun, ?_, ?_, ?_, ?_, ?_⟩
  · intro x hx
    rw [Dev.emit_flash_fn]
    split
    · rw [committed_flash_other c _ _ S htag x (by rw [sa, sr]; exact hx), so x hx]
    · exact so x hx
  · rw [Dev.emit_eeprom_fn]
    split
    · rw [(committed_flash_eeprom c _ _ S htag).1, se]
    · exact se
  · rw [Dev.emit_eeLog]
    split
    · rw [(committed_flash_eeprom c _ _ S htag).2, sl]
    · exact sl
  · rw [Dev.emit_address]
    split
    · rw [(committed_cursor c _ _ S htag).1, sa]
    · exact sa
  · rw [Dev.emit_rampz]
    split
    · rw [(committed_cursor c _ _ S htag).2, sr]
    · exact sr

/-- A program-memory `PROG_PAGE` of two bytes at the cursor `0x0104` of a
device in use, on the sample ATmega128 configuration: the bytes next to the
page `0x0100 .. 0x01FF` keep their values. -/
theorem prog_page_changes_one_page_witness :
    0x46 % 256 ≠ 0x45 ∧ [0x11, 0x22].length = turns 0x02 ∧
    ∃ d', command (cfgOf .atmega128 false) [0x64, 0x00, 0x02, 0x46, 0x11, 0x22, 0x20]
        (dev1.setAddress 0x0104) = .ok () [] d' ∧
      d'.flash 0xFF = 0x04 ∧ d'.flash 0x200 = 0x0A ∧
      d'.eeprom = dev1.eeprom ∧ d'.eeLog = [] ∧ d'.address = 0x0104 ∧ d'.rampz = 0 := by
  obtain ⟨d', h, hf, e1, e2, ha, hr⟩ := prog_page_changes_one_page (cfgOf .atmega128 false)
    (by decide) (dev1.setAddress 0x0104) 0x00 0x02 0x46 [0x11, 0x22] [] (by decide)
    (by decide)
  exact ⟨by decide, by decide, d', h, hf 0xFF (by decide), hf 0x200 (by decide), e1, e2, ha,
    hr⟩

/-! ## C23: the bounds of the page buffer -/

/-- The copy loop reads `buff` only at the offsets of the words it copies. -/
theorem fillTemp_congr (c : Cfg) (a r : Nat) (ram ram2 : Nat → Nat)
    (h : ∀ x, x < 256 → ram2 x = ram x) (n : Nat) :
    ∀ (i : Nat) (temp : Nat → Nat), 2 * (i + n) ≤ 256 →
      fillTemp c a r ram2 i n temp = fillTemp c a r ram i n temp := by
  induction n with
  | zero => intro i temp _; rfl
  | succ n ih =>
    intro i temp hb
    have hw : rd16 ram2 (2 * i) = rd16 ram (2 * i) := by
      unfold rd16 rd8
      rw [h (2 * i) (by omega), h (2 * i + 1) (by omega)]
    rw [fillTemp, fillTemp, hw, ih (i + 1) _ (by omega)]

/-- **C23.** With the page size 256 of the three parts, for every length
byte `L` and a payload `P` that has one byte for each turn of the payload
loop: the number of turns is between 1 and 256; the payload loop returns
after that many calls of `getch`, leaving what follows the payload unread; it
has stored payload byte `i` at buffer offset `i` for every `i` below the
number of turns and has changed no cell at or above that offset, so none at or
above 256.  The copy loop of the commit returns with the programming buffer
that 128 turns from word 0 on produce, and that result is the same for any
two data memories that agree on the offsets 0 to 255: the loop reads 128
words, all inside the page buffer. -/
theorem page_buffer_accesses_stay_in_bounds (c : Cfg) (d : Dev) (L : Nat)
    (P rest : List Nat) (hP : P.length = turns L) :
    (1 ≤ turns L ∧ turns L ≤ SPM_PAGESIZE) ∧
    (∃ d', fillBuff (L % 256) (P ++ rest) d = .ok () rest d' ∧
      d'.polls = d.polls + turns L ∧
      (∀ i, i < turns L → d'.ram i = P.getD i 0 % 256) ∧
      (∀ x, turns L ≤ x → d'.ram x = d.ram x) ∧
      (∀ x, SPM_PAGESIZE ≤ x → d'.ram x = d.ram x)) ∧
    SPM_PAGESIZE / 2 = 128 ∧
    (∀ inp, fillPage c inp d =
      .ok () inp (d.setTemp (fillTemp c d.address d.rampz d.ram 0 128 d.temp))) ∧
    (∀ ram2 : Nat → Nat, (∀ x, x < SPM_PAGESIZE → ram2 x = d.ram x) →
      fillTemp c d.address d.rampz ram2 0 128 d.temp =
        fillTemp c d.address d.rampz d.ram 0 128 d.temp) := by
  have ht := turns_pos L
  have hrun := fillBuff_run (L % 256) P rest d (by rw [hP, iterations_turns])
  rw [iterations_turns] at hrun
  have hst : ∀ x, ((d.addPolls (turns L)).storeFrom 0 P).ram x =
      if x < turns L then P.getD x 0 % 256 else d.ram x := by
    intro x
    rw [Dev.storeFrom_ram, storeBytes_apply, hP, Dev.addPolls_ram_fn]
    by_cases hx : x < turns L
    · rw [if_pos ⟨Nat.zero_le _, by omega⟩, if_pos hx, Nat.sub_zero]
    · rw [if_neg (by omega), if_neg hx]
  have h128 : dec8 (SPM_PAGESIZE / 2) + 1 = 128 := by decide
  refine ⟨⟨ht.1, ht.2⟩, ⟨_, hrun, rfl, ?_, ?_, ?_⟩, rfl, ?_, ?_⟩
  · intro i hi
    rw [hst, if_pos hi]
  · intro x hx
    rw [hst, if_neg (by omega)]
  · intro x hx
    have h256 : SPM_PAGESIZE = 256 := rfl
    rw [hst, if_neg (by omega)]
  · intro inp
    rw [fillPage_run, Dev.fillAll, h128]
  · intro ram2 h
    exact fillTemp_congr c _ _ d.ram ram2 h 128 0 d.temp (by omega)

/-- The length bytes 0 and 2 on a device in use: 256 turns and 2 turns. -/
theorem page_buffer_accesses_stay_in_bounds_witness :
    [0x11, 0x22].length = turns 0x02 ∧ turns 0x00 = 256 ∧
    ∃ d', fillBuff (0x02 % 256) ([0x11, 0x22] ++ [0x20]) dev1 = .ok () [0x20] d' ∧
      d'.polls = 2 ∧ d'.ram 0 = 0x11 ∧ d'.ram 1 = 0x22 ∧ d'.ram 2 = dev1.ram 2 ∧
      d'.ram 256 = dev1.ram 256 := by
  obtain ⟨-, ⟨d', h, hp, h1, h2, h3⟩, -⟩ := page_buffer_accesses_stay_in_bounds
    (cfgOf .atmega128 false) dev1 0x02 [0x11, 0x22] [0x20] (by decide)
  exact ⟨by decide, by decide, d', h, hp, h1 0 (by decide), h1 1 (by decide),
    h2 2 (by decide), h3 256 (by decide)⟩

/-! ## C4: the address after `LOAD_ADDRESS` and the commands that use it -/

/-- **C4, counterexample.** The commands after `LOAD_ADDRESS(W)` do not all
work at the byte address `2 * W`, on a device whose EEPROM cell `a` holds
`a mod 256` and whose program-memory byte `a` holds `a mod 251`.  On the sample
ATmega128 configuration a byte-store `READ_PAGE` of 2 bytes after
`LOAD_ADDRESS(0x10)` sends the cells `0x10, 0x11`, not `0x20, 0x21`.  On the
sample ATmega64 configuration, which has no bank register, a program-memory
`READ_PAGE` of 2 bytes after `LOAD_ADDRESS(0x8001)` sends the bytes at 2 and 3,
not those at `0x10002` and `0x10003`; and so does the ATmega128 configuration
with vector redirection, whose read loop does not use the bank, while without
redirection it sends the bytes at `0x10002` and `0x10003`. -/
theorem load_address_is_not_the_address_of_every_operation :
    (mainLoop (cfgOf .atmega128 false) 2
      [0x55, 0x10, 0x00, 0x20, 0x74, 0x00, 0x02, 0x45, 0x20] dev1).dev.out =
      [0x14, 0x10, 0x14, 0x10, 0x11, 0x10] ∧
    (mainLoop (cfgOf .atmega64 false) 2
      [0x55, 0x01, 0x80, 0x20, 0x74, 0x00, 0x02, 0x46, 0x20] dev1).dev.out =
      [0x14, 0x10, 0x14, 0x02, 0x03, 0x10] ∧
    (mainLoop (cfgOf .atmega128 true) 2
      [0x55, 0x01, 0x80, 0x20, 0x74, 0x00, 0x02, 0x46, 0x20] dev1).dev.out =
      [0x14, 0x10, 0x14, 0x02, 0x03, 0x10] ∧
    (mainLoop (cfgOf .atmega128 false) 2
      [0x55, 0x01, 0x80, 0x20, 0x74, 0x00, 0x02, 0x46, 0x20] dev1).dev.out =
      [0x14, 0x10, 0x14, 0x1B, 0x1C, 0x10] ∧
    dev1.eeprom 0x20 = 0x20 ∧ dev1.flash 0x10002 = 0x1B ∧ dev1.flash 0x10003 = 0x1C := by
  decide

/-- **C4, amended.** `LOAD_ADDRESS(lo, hi)` with the correct terminator, for
every pair of bytes and `W = lo + 256 * hi`: the 16-bit cursor becomes the low
16 bits of `2 * W`.  On the parts with a bank register the bank bit becomes bit
15 of `W`, so that `bank * 65536 + cursor = 2 * W`, and `2 * W` is the address
the source hands to the self-programming operations; on the part without a
bank register the bank is untouched and that address is the cursor,
`2 * W mod 2^16`.  A program-memory `PROG_PAGE` that follows and passes the
commit guard writes the page that contains that address, and all its
self-programming operations are on that page.  Without vector redirection a
program-memory `READ_PAGE` that follows sends the program-memory bytes from
that address on, the cursor wrapping inside the bank. -/
theorem load_address_doubles_the_word (c : Cfg) (hwf : c.stk.WF) (d : Dev) (lo hi t : Nat)
    (rest : List Nat) (hlo : lo < 256) (hhi : hi < 256) (ht : t % 256 = c.stk.CRC_EOP) :
    ∃ d', command c (c.stk.STK_LOAD_ADDRESS :: lo :: hi :: t :: rest) d = .ok () rest d' ∧
      d'.address = (2 * (lo + 256 * hi)) % 65536 ∧
      (hasRAMPZ c.mcu = true →
        d'.rampz = (lo + 256 * hi) / 32768 ∧
        d'.rampz * 65536 + d'.address = 2 * (lo + 256 * hi) ∧
        spmAddr c d' = 2 * (lo + 256 * hi)) ∧
      (hasRAMPZ c.mcu = false →
        d'.rampz = d.rampz ∧ spmAddr c d' = (2 * (lo + 256 * hi)) % 65536) ∧
      (∀ (hi2 L tag : Nat) (P rest2 : List Nat), tag % 256 ≠ 0x45 → P.length = turns L →
        guardAt c d'.address d'.rampz = true →
        ∃ d'', command c
            (c.stk.STK_PROG_PAGE :: hi2 :: L :: tag :: (P ++ c.stk.CRC_EOP :: rest2)) d' =
            .ok () rest2 d'' ∧
          Spm.write (pageBase (spmAddr c d')) ∈ d''.spmLog ∧
          ∀ s ∈ d''.spmLog, s ∈ d'.spmLog ∨ s = Spm.erase (pageBase (spmAddr c d')) ∨
            s = Spm.write (pageBase (spmAddr c d'))) ∧
      (c.vbp = false → ∀ (hi2 L tag : Nat) (rest2 : List Nat), tag % 256 ≠ 0x45 →
        ∃ d'', command c
            (c.stk.STK_READ_PAGE :: hi2 :: L :: tag :: c.stk.CRC_EOP :: rest2) d' =
            .ok () rest2 d'' ∧
          d''.out = d'.out ++ (c.stk.STK_INSYNC % 256) ::
            (((List.range (turns L)).map fun i =>
              rd8 d.flash
                ((if hasRAMPZ c.mcu = true then 65536 * ((lo + 256 * hi) / 32768) else 0) +
                  (2 * (lo + 256 * hi) + i) % 65536)) ++ [c.stk.STK_OK % 256])) := by
  obtain ⟨d', h, ha, hb, hn, hf⟩ := loadAddress_result c hwf d lo hi t rest hlo hhi ht
  have hsp : spmAddr c d' = spmAt c d'.address d'.rampz := spmAddr_eq c d'
  refine ⟨d', h, ha, hb, ?_, ?_, ?_⟩
  · intro hr
    refine ⟨hn hr, ?_⟩
    rw [hsp, spmAt, hr, ha]
    rfl
  · intro hi2 L tag P rest2 htag hP hg
    obtain ⟨d'', h2, hs⟩ := prog_page_spmLog c hwf d' hi2 L tag P rest2 htag hP hg
    refine ⟨d'', h2, ?_, ?_⟩
    · rw [hs, hsp]
      simp
    · intro s hs'
      rw [hs, ← hsp] at hs'
      simp only [List.mem_append, List.mem_singleton] at hs'
      rcases hs' with h1 | (h1 | h1) | h1
      · exact Or.inl h1
      · split at h1
        · exact Or.inr (Or.inl (by simpa using h1))
        · simp at h1
      · split at h1
        · exact Or.inr (Or.inl (by simpa using h1))
        · simp at h1
      · exact Or.inr (Or.inr h1)
  · intro hv hi2 L tag rest2 htag
    have hlt : d'.address < 65536 := by rw [ha]; exact Nat.mod_lt _ (by decide)
    obtain ⟨h1, -⟩ := readDone_flash c L tag htag d' hlt
    refine ⟨_, command_read_page c hwf hi2 L tag rest2 d', ?_⟩
    rw [Dev.emit_out, h1, List.append_assoc, List.cons_append]
    congr 2
    congr 1
    apply List.map_congr_left
    intro i _
    rw [if_neg (by simp [hv]), hf, ha, spmAt]
    by_cases hr : hasRAMPZ c.mcu = true
    · rw [if_pos hr, if_pos hr, (hb hr).1]
      congr 1
      omega
    · rw [if_neg hr, if_neg hr]
      congr 1
      omega

/-- The word address `0x8001` on the sample ATmega128 configuration, for a
device in use: cursor 2 in bank 1, and a program-memory `READ_PAGE` of 2 bytes
that follows sends the bytes at `0x10002` and `0x10003`. -/
theorem load_address_doubles_the_word_witness :
    0x01 < 256 ∧ 0x80 < 256 ∧ 0x20 % 256 = (cfgOf .atmega128 false).stk.CRC_EOP ∧
    ∃ d', command (cfgOf .atmega128 false) [0x55, 0x01, 0x80, 0x20] dev1 = .ok () [] d' ∧
      d'.address = 2 ∧ d'.rampz = 1 ∧ spmAddr (cfgOf .atmega128 false) d' = 0x10002 ∧
      ∃ d'', command (cfgOf .atmega128 false) [0x74, 0x00, 0x02, 0x46, 0x20] d' =
          .ok () [] d'' ∧
        d''.out = d'.out ++ [0x14, 0x1B, 0x1C, 0x10] := by
  obtain ⟨d', h, ha, hb, -, -, hr⟩ := load_address_doubles_the_word (cfgOf .atmega128 false)
    (by decide) dev1 0x01 0x80 0x20 [] (by decide) (by decide) (by decide)
  obtain ⟨d'', h2, ho⟩ := hr rfl 0x00 0x02 0x46 [] (by decide)
  refine ⟨by decide, by decide, by decide, d', h, ha, (hb rfl).1, (hb rfl).2.2, d'', h2, ?_⟩
  rw [ho]
  rfl

end Optiboot
